import Mathlib

/-!
# go-rest-server: a configuration-driven HTTP mock server

A shallow embedding of `main.go` together with the parts of Go's standard
library (`net/http`, `path`, `encoding/json`, `log`, `time`) that decide which
handler runs, what the server sends and whether a call returns or panics.

* Go strings are Lean strings; byte-level tests on `'/'` and `'.'` are made on
  the character list, which agrees with the byte view for UTF-8 text.
* Go `int` is `Int`; no arithmetic is performed on it.
* A panic is an explicit result, so "does not panic" is a provable statement.
* The response writer is the one of the HTTP/1 server (`net/http.response`,
  Go 1.19 and later): a 1xx status other than 101 goes out as an interim
  response, the final status is then the implicit 200, and no body is sent
  with a 1xx, 204 or 304 status or to a `HEAD` request. Headers the server
  adds by itself (`Date`, `Content-Length`) are not modelled.
* Both multiplexers are modelled: the classic `http.ServeMux` (Go releases up
  to 1.21, and later releases under `GODEBUG=httpmuxgo121=1`), whose patterns
  are plain strings, and the pattern multiplexer of Go 1.22 and later, whose
  patterns may carry a method, a host and wildcards. `runWith`, `registerWith`
  and `main` take the choice as their first argument.
* Of `json.Unmarshal` the model decides whether it returns an error: the
  scanner of `encoding/json` and the type checks of its decoder are embedded;
  the value it stores is a parameter of the environment.
-/

namespace GoRestServer

/-! ## Data model (`main.go`, lines 13-38) -/

/-- A decoded JSON value, the Lean counterpart of Go's `interface{}` as
produced by `encoding/json`.  A number is kept as `mantissa * 10 ^ exponent`;
the server never inspects a value. -/
inductive Json where
  | null
  | bool (b : Bool)
  | num (mantissa exponent : Int)
  | str (s : String)
  | arr (items : List Json)
  | obj (fields : List (String × Json))

/-- Go: `type ServerConfig struct { Port string }`. -/
structure ServerConfig where
  Port : String

/-- Go: `type EndpointResponse struct { Status int; Body map[string]interface{} }`.
A `nil` map (key absent or `null` in the file) is `none`. -/
structure EndpointResponse where
  Status : Int
  Body : Option (List (String × Json))

/-- Go: `type Endpoint struct { Path, Method string; Response EndpointResponse }`. -/
structure Endpoint where
  Path : String
  Method : String
  Response : EndpointResponse

/-- Go: `type Config struct { Server ServerConfig; Endpoints []Endpoint }`. -/
structure Config where
  Server : ServerConfig
  Endpoints : List Endpoint

/-- Go: `type ErrorResponse struct { Error string }`, JSON key `error`. -/
structure ErrorResponse where
  Error : String

/-- The JSON document `json.Encoder.Encode` produces for an `ErrorResponse`. -/
def ErrorResponse.toJson (e : ErrorResponse) : Json :=
  Json.obj [("error", Json.str e.Error)]

/-- The JSON document `json.Encoder.Encode` produces for a
`map[string]interface{}`: `null` for the nil map, otherwise the object. -/
def bodyToJson : Option (List (String × Json)) → Json
  | none => Json.null
  | some fields => Json.obj fields

/-! ## Runtime panics -/

/-- The panics the standard library raises in the calls made by this program. -/
inductive Panic where
  /-- Raised by `WriteHeader`: `invalid WriteHeader code <code>`. -/
  | invalidWriteHeaderCode (code : Int)
  /-- Raised by `ServeMux.Handle`: `http: invalid pattern`. -/
  | invalidPattern
  /-- Raised by `ServeMux.Handle`: `http: multiple registrations for <pattern>`. -/
  | multipleRegistrations (pattern : String)
  /-- Raised by the pattern multiplexer: `parsing <pattern>: ...`. -/
  | badPattern (pattern : String)
  /-- Raised by the pattern multiplexer:
  `pattern <pattern> ... conflicts with pattern <other> ...`. -/
  | patternConflict (pattern other : String)
  /-- Raised by `(*routingNode).set`: `non-nil leaf fields`. -/
  | nonNilLeaf
  deriving DecidableEq

/-! ## Requests and the response writer -/

/-- The fields of `*http.Request` the program and the multiplexers read:
`r.Method`; the host the multiplexer matches host-qualified patterns against
(`r.Host` with any port removed by `stripHostPort`, and for a `CONNECT` request
`r.Host` itself, with which `r.URL.Host` is taken to agree); `r.URL.Path`, the
decoded path; `r.URL.RawQuery`; and `r.URL.EscapedPath()`, the path as it is
written in the request line, which the pattern multiplexer matches and which
equals the decoded path when that needs no escaping. The server answers a
request whose `Host` header has a `/` with 400 before any handler is selected,
and a request in asterisk form (`RequestURI` equal to `*`) without selecting
one; such requests are not part of the model. -/
structure Request where
  Method : String
  Host : String
  Path : String
  RawQuery : String := ""
  EscapedPath : String := Path
  deriving DecidableEq

/-- One completed call on the response writer. -/
inductive Call where
  | headerSet (key value : String)
  | writeHeader (code : Int)
  | write (doc : Json)

/-- The state of the server's `http.ResponseWriter`. `header` is the live header
map, `sentHeader` the copy taken when the final status line is written, `body`
the JSON documents sent so far, `calls` the completed calls in order,
`informational` the 1xx status lines sent ahead of the final one, and `head`
tells that the request method is `HEAD`, whose reply carries no body. -/
structure ResponseWriter where
  header : List (String × String)
  wroteHeader : Bool
  status : Int
  sentHeader : List (String × String)
  body : List Json
  calls : List Call
  informational : List Int := []
  head : Bool := false

/-- The writer of a request whose method is not `HEAD`, before the handler runs. -/
def ResponseWriter.fresh : ResponseWriter :=
  { header := [], wroteHeader := false, status := 0, sentHeader := [], body := [], calls := [] }

/-- The writer the server hands to the handler of the request `r`. -/
def ResponseWriter.forRequest (r : Request) : ResponseWriter :=
  { ResponseWriter.fresh with head := r.Method == "HEAD" }

/-- How a handler invocation ends: it returns, or a panic unwinds it. -/
inductive HandlerResult where
  | returned (w : ResponseWriter)
  | panicked (p : Panic) (w : ResponseWriter)

/-- Sequencing: the continuation runs only when the previous call returned. -/
def HandlerResult.andThen (res : HandlerResult) (k : ResponseWriter → HandlerResult) :
    HandlerResult :=
  match res with
  | HandlerResult.returned w => k w
  | HandlerResult.panicked p w => HandlerResult.panicked p w

/-- The writer as the handler left it. -/
def HandlerResult.writer : HandlerResult → ResponseWriter
  | HandlerResult.returned w => w
  | HandlerResult.panicked _ w => w

/-- Go: `w.Header().Set(key, value)` for a key in canonical form: the entry for
`key` is replaced. -/
def ResponseWriter.headerSet (w : ResponseWriter) (key value : String) : ResponseWriter :=
  { w with
    header := (key, value) :: w.header.filter (fun kv => kv.1 != key)
    calls := w.calls ++ [Call.headerSet key value] }

/-- Go: `bodyAllowedForStatus`: no body with a 1xx, 204 or 304 status. -/
def bodyAllowedForStatus (status : Int) : Bool :=
  !((100 ≤ status && status ≤ 199) || status == 204 || status == 304)

/-- Go: `(*response).WriteHeader(code)`. A second call is ignored; otherwise
`checkWriteHeaderCode` panics unless `100 <= code <= 999`. A 1xx code other than
101 is sent at once as an informational header and leaves the reply unstarted;
any other code becomes the final status, with a copy of the header map. -/
def ResponseWriter.WriteHeader (w : ResponseWriter) (code : Int) : HandlerResult :=
  if w.wroteHeader then
    HandlerResult.returned { w with calls := w.calls ++ [Call.writeHeader code] }
  else if code < 100 ∨ code > 999 then
    HandlerResult.panicked (Panic.invalidWriteHeaderCode code) w
  else if 100 ≤ code ∧ code ≤ 199 ∧ code ≠ 101 then
    HandlerResult.returned
      { w with
        informational := w.informational ++ [code]
        calls := w.calls ++ [Call.writeHeader code] }
  else
    HandlerResult.returned
      { w with
        wroteHeader := true
        status := code
        sentHeader := w.header
        calls := w.calls ++ [Call.writeHeader code] }

/-- Go: `http.StatusOK`. -/
def StatusOK : Int := 200

/-- Go: `http.StatusNotFound`. -/
def StatusNotFound : Int := 404

/-- Go: `http.StatusMethodNotAllowed`. -/
def StatusMethodNotAllowed : Int := 405

/-- Go: `(*response).Write(data)` where `data` is one encoded JSON document: an
implicit `WriteHeader(http.StatusOK)` when no final status was written yet;
the document is sent unless the final status allows no body
(`http.ErrBodyNotAllowed`) or the request method is `HEAD`. -/
def ResponseWriter.Write (w : ResponseWriter) (doc : Json) : ResponseWriter :=
  let w1 : ResponseWriter :=
    if w.wroteHeader then w
    else { w with wroteHeader := true, status := StatusOK, sentHeader := w.header }
  { w1 with
    body := if bodyAllowedForStatus w1.status && !w1.head then w1.body ++ [doc] else w1.body
    calls := w1.calls ++ [Call.write doc] }

/-- Go: `json.NewEncoder(w).Encode(v)`, with `doc` the JSON document of `v`:
one `Write` of the encoded document. Encoding a value decoded from JSON or an
`ErrorResponse` cannot fail, and the handlers ignore the returned error. -/
def ResponseWriter.Encode (w : ResponseWriter) (doc : Json) : ResponseWriter :=
  w.Write doc

/-! ## Logging and the clock -/

/-- An argument of a `log.Printf` call. -/
inductive LogArg where
  | str (s : String)
  | int (n : Int)
  | duration (d : Int)
  | panic (p : Panic)
  deriving DecidableEq

/-- One `log.Printf(format, args...)` record. -/
structure LogRecord where
  format : String
  args : List LogArg
  deriving DecidableEq

/-- The part of the process state outside the response writer: the log sink,
the readings the system clock will return, in order, the global `config`, and
the patterns registered on `http.DefaultServeMux` (their handlers are kept in
the multiplexer value itself). -/
structure World where
  log : List LogRecord
  clock : List Int
  config : Config := { Server := { Port := "" }, Endpoints := [] }
  table : List String := []

/-- Go: `time.Now()`: the next clock reading. -/
def World.now (s : World) : Int × World :=
  match s.clock with
  | [] => (0, s)
  | t :: rest => (t, { s with clock := rest })

/-- Go: `log.Printf(format, args...)`. -/
def World.Printf (s : World) (format : String) (args : List LogArg) : World :=
  { s with log := s.log ++ [{ format := format, args := args }] }

/-! ## Handlers (`main.go`, lines 55-87) -/

/-- Go: `http.HandlerFunc`, `func(w http.ResponseWriter, r *http.Request)`. -/
abbrev HandlerFunc := ResponseWriter → Request → World → HandlerResult × World

/-- Go: `createConfiguredHandler` (lines 56-72). -/
def createConfiguredHandler (endpoint : Endpoint) : HandlerFunc := fun w r s =>
  if r.Method ≠ endpoint.Method then
    let w := w.headerSet "Content-Type" "application/json"
    ((w.WriteHeader StatusMethodNotAllowed).andThen fun w =>
      HandlerResult.returned (w.Encode (ErrorResponse.mk "Method not allowed").toJson), s)
  else
    let w := w.headerSet "Content-Type" "application/json"
    ((w.WriteHeader endpoint.Response.Status).andThen fun w =>
      HandlerResult.returned (w.Encode (bodyToJson endpoint.Response.Body)), s)

/-- Go: `notFoundHandler` (lines 74-78). -/
def notFoundHandler : HandlerFunc := fun w _ s =>
  let w := w.headerSet "Content-Type" "application/json"
  ((w.WriteHeader StatusNotFound).andThen fun w =>
    HandlerResult.returned (w.Encode (ErrorResponse.mk "Not Found").toJson), s)

/-- Go: `loggingMiddleware` (lines 80-87). A panic in `next` unwinds through
the wrapper, so the second `log.Printf` is not reached. -/
def loggingMiddleware (next : HandlerFunc) : HandlerFunc := fun w r s =>
  let start := s.now
  let s1 := start.2.Printf "%s %s" [LogArg.str r.Method, LogArg.str r.Path]
  match next w r s1 with
  | (HandlerResult.panicked p w1, s2) => (HandlerResult.panicked p w1, s2)
  | (HandlerResult.returned w1, s2) =>
    let stop := s2.now
    (HandlerResult.returned w1,
      stop.2.Printf "Request completed in %v" [LogArg.duration (stop.1 - start.1)])

/-! ## Path canonicalisation (`path.Clean` and `net/http.cleanPath`) -/

/-- Go: `strings.HasPrefix(s, p)`. -/
def startsWith (s p : String) : Bool :=
  p.data.isPrefixOf s.data

/-- The `..` case of `path.Clean`: drop the last element of the output buffer
together with the slash in front of it, never below index `dotdot`. The buffer
is held in reverse order. -/
def backtrack (dotdot : Nat) : List Char → List Char
  | [] => []
  | c :: rest => if dotdot < rest.length ∧ c ≠ '/' then backtrack dotdot rest else rest

/-- The main loop of `path.Clean`. `inElement` is true while a path element is
being copied; `out` is the output buffer in reverse order. -/
def cleanLoop (rooted : Bool) : Bool → List Char → List Char → Nat → List Char
  | _, [], out, _ => out
  | true, c :: rest, out, dotdot =>
    if c = '/' then cleanLoop rooted false rest out dotdot
    else cleanLoop rooted true rest (c :: out) dotdot
  | false, c :: rest, out, dotdot =>
    if c = '/' then
      cleanLoop rooted false rest out dotdot
    else if c = '.' ∧ (rest = [] ∨ rest.head? = some '/') then
      cleanLoop rooted false rest out dotdot
    else
      let out1 :=
        if (rooted && out.length != 1) || (!rooted && out.length != 0) then '/' :: out
        else out
      match rest with
      | [] => cleanLoop rooted true [] (c :: out1) dotdot
      | c2 :: rest2 =>
        if c = '.' ∧ c2 = '.' ∧ (rest2 = [] ∨ rest2.head? = some '/') then
          if dotdot < out.length then
            cleanLoop rooted false rest2 (backtrack dotdot out) dotdot
          else if !rooted then
            let out2 := '.' :: '.' :: (if 0 < out.length then '/' :: out else out)
            cleanLoop rooted false rest2 out2 out2.length
          else
            cleanLoop rooted false rest2 out dotdot
        else
          cleanLoop rooted true (c2 :: rest2) (c :: out1) dotdot

/-- Go: `path.Clean`. -/
def Clean (path : String) : String :=
  if path = "" then "."
  else
    let out :=
      if path.data.head? = some '/' then cleanLoop true false path.data.tail ['/'] 1
      else cleanLoop false false path.data [] 0
    if out = [] then "." else String.mk out.reverse

/-- Go: `net/http.cleanPath`, the canonical form of a request path. -/
def cleanPath (p : String) : String :=
  if p = "" then "/"
  else
    let p1 := if p.data.head? = some '/' then p else "/" ++ p
    let np := Clean p1
    if p1.data.getLast? = some '/' ∧ np ≠ "/" then
      if p1.utf8ByteSize = np.utf8ByteSize + 1 ∧ startsWith p1 np then p1 else np ++ "/"
    else np

/-! ## The request multiplexer (`net/http.ServeMux`) -/

/-- Go: `type muxEntry struct { h Handler; pattern string }`. -/
structure muxEntry where
  h : HandlerFunc
  pattern : String

/-- Go: `type ServeMux struct`: `m` is the pattern map (at most one entry per
key), `es` the entries whose pattern ends in `/`, longest first, and `hosts`
records whether some pattern does not begin with `/`. -/
structure ServeMux where
  m : List (String × muxEntry)
  es : List muxEntry
  hosts : Bool

/-- Go: `http.DefaultServeMux` at program start. -/
def DefaultServeMux : ServeMux :=
  { m := [], es := [], hosts := false }

/-- Go: `appendSorted`: insert in front of the first entry with a shorter
pattern (the index `sort.Search` finds in a slice sorted longest first). -/
def appendSorted (es : List muxEntry) (e : muxEntry) : List muxEntry :=
  match es with
  | [] => [e]
  | x :: rest =>
    if x.pattern.utf8ByteSize < e.pattern.utf8ByteSize then e :: x :: rest
    else x :: appendSorted rest e

/-- Go: `(*ServeMux).Handle`, reached through `http.HandleFunc`. Panics on the
empty pattern and on a pattern that is already registered. -/
def ServeMux.Handle (mux : ServeMux) (pattern : String) (handler : HandlerFunc) :
    Except Panic ServeMux :=
  if pattern = "" then
    Except.error Panic.invalidPattern
  else if (mux.m.lookup pattern).isSome then
    Except.error (Panic.multipleRegistrations pattern)
  else
    let e : muxEntry := { h := handler, pattern := pattern }
    Except.ok
      { m := (pattern, e) :: mux.m
        es := if pattern.data.getLast? = some '/' then appendSorted mux.es e else mux.es
        hosts := mux.hosts || (pattern.data.head? != some '/') }

/-- Go: `(*ServeMux).match`: an exact match first, otherwise the longest
registered pattern ending in `/` that is a leading part of the path. -/
def ServeMux.match_ (mux : ServeMux) (path : String) : Option muxEntry :=
  match mux.m.lookup path with
  | some v => some v
  | none => mux.es.find? (fun e => startsWith path e.pattern)

/-- What `(*ServeMux).Handler` selects for a request. -/
inductive Selected where
  /-- A registered entry. -/
  | registered (e : muxEntry)
  /-- The library `RedirectHandler` for the URL with the given path and the
  query of the request. -/
  | redirect (path : String) (rawQuery : String)
  /-- The library `http.NotFoundHandler()`. -/
  | notFound
  /-- The handler the pattern multiplexer makes up when patterns match the path
  under other methods only: status 405 with the header `Allow`. -/
  | methodNotAllowed (allow : List String)

/-- Go: `(*ServeMux).handler`. -/
def ServeMux.handler (mux : ServeMux) (host path : String) : Selected :=
  let first := if mux.hosts then mux.match_ (host ++ path) else none
  let found := match first with
    | some e => some e
    | none => mux.match_ path
  match found with
  | some e => Selected.registered e
  | none => Selected.notFound

/-- Go: `(*ServeMux).shouldRedirectRLocked`. -/
def ServeMux.shouldRedirectRLocked (mux : ServeMux) (host path : String) : Bool :=
  let p := [path, host ++ path]
  if p.any (fun c => (mux.m.lookup c).isSome) then false
  else if path = "" then false
  else if p.any (fun c => (mux.m.lookup (c ++ "/")).isSome) then
    path.data.getLast? != some '/'
  else false

/-- Go: `(*ServeMux).Handler`. `CONNECT` requests are not canonicalised. -/
def ServeMux.Handler (mux : ServeMux) (r : Request) : Selected :=
  if r.Method = "CONNECT" then
    if mux.shouldRedirectRLocked r.Host r.Path then
      Selected.redirect (r.Path ++ "/") r.RawQuery
    else mux.handler r.Host r.Path
  else
    let path := cleanPath r.Path
    if mux.shouldRedirectRLocked r.Host path then Selected.redirect (path ++ "/") r.RawQuery
    else if path ≠ r.Path then Selected.redirect path r.RawQuery
    else mux.handler r.Host r.Path

/-- What the client is answered. -/
inductive Reply where
  /-- A registered handler ran on a fresh response writer. -/
  | handled (res : HandlerResult)
  /-- The library redirect handler: a 3xx status (301 or, in later releases,
  307) and a `Location` made of the given path and query. -/
  | redirected (path : String) (rawQuery : String)
  /-- The library not-found handler: status 404, text `404 page not found`. -/
  | pageNotFound
  /-- The library reply to a method no pattern allows: status 405, text
  `Method Not Allowed`, header `Allow`. -/
  | methodNotAllowedPage (allow : List String)

/-- One request served by `http.ListenAndServe(addr, nil)`: the multiplexer has
selected the handler, which runs on the writer of the request. The server recovers a handler panic
and logs it; the process keeps serving. -/
def serveSelected (sel : Selected) (r : Request) (s : World) : Reply × World :=
  match sel with
  | Selected.registered e =>
    match e.h (ResponseWriter.forRequest r) r s with
    | (HandlerResult.returned w, s1) => (Reply.handled (HandlerResult.returned w), s1)
    | (HandlerResult.panicked p w, s1) =>
      (Reply.handled (HandlerResult.panicked p w),
        s1.Printf "http: panic serving %v: %v\n%s" [LogArg.panic p])
  | Selected.redirect path rawQuery => (Reply.redirected path rawQuery, s)
  | Selected.notFound => (Reply.pageNotFound, s)
  | Selected.methodNotAllowed allow => (Reply.methodNotAllowedPage allow, s)

/-- The zero value of the global `var config Config`. -/
def Config.zero : Config :=
  { Server := { Port := "" }, Endpoints := [] }

/-- The loop of `main` (lines 116-120): register every configured endpoint. -/
def registerEndpoints : List Endpoint → ServeMux → World → Except Panic (ServeMux × World)
  | [], mux, s => Except.ok (mux, s)
  | endpoint :: rest, mux, s =>
    match mux.Handle endpoint.Path (loggingMiddleware (createConfiguredHandler endpoint)) with
    | Except.error p => Except.error p
    | Except.ok mux1 =>
      registerEndpoints rest mux1
        (s.Printf "  %s %s -> Status %d"
          [LogArg.str endpoint.Method, LogArg.str endpoint.Path,
            LogArg.int endpoint.Response.Status])

/-- Lines 111-120 of `main`: the fallback under `/`, then the endpoints. -/
def registerHandlers (config : Config) (s : World) : Except Panic (ServeMux × World) :=
  match DefaultServeMux.Handle "/" (loggingMiddleware notFoundHandler) with
  | Except.error p => Except.error p
  | Except.ok mux =>
    registerEndpoints config.Endpoints mux
      (s.Printf "Configuring endpoints from config file:" [])

/-! ## Expected responses -/

/-- The header map of a JSON response. -/
def jsonHeader : List (String × String) :=
  [("Content-Type", "application/json")]

/-- The writer after exactly `Header().Set("Content-Type", "application/json")`,
`WriteHeader(status)` and one `Encode` of `doc`, in this order, on a fresh writer. -/
def jsonResponse (status : Int) (doc : Json) : ResponseWriter :=
  { header := jsonHeader
    wroteHeader := true
    status := status
    sentHeader := jsonHeader
    body := [doc]
    calls := [Call.headerSet "Content-Type" "application/json", Call.writeHeader status,
      Call.write doc] }

/-- The JSON document `{"error": "Not Found"}`. -/
def notFoundDoc : Json :=
  Json.obj [("error", Json.str "Not Found")]

/-- The JSON document `{"error": "Method not allowed"}`. -/
def methodNotAllowedDoc : Json :=
  Json.obj [("error", Json.str "Method not allowed")]

/-! ## The multiplexer built by `main` -/

/-- The entry `main` registers first: the logged fallback under `/`. -/
def fallbackEntry : muxEntry :=
  { h := loggingMiddleware notFoundHandler, pattern := "/" }

/-- The entry `main` registers for a configured endpoint. -/
def configuredEntry (e : Endpoint) : muxEntry :=
  { h := loggingMiddleware (createConfiguredHandler e), pattern := e.Path }

/-- The string begins with `/`. -/
def Rooted (p : String) : Prop :=
  p.data.head? = some '/'

instance (p : String) : Decidable (Rooted p) := by
  unfold Rooted; infer_instance

/-- The string ends in `/`. -/
def EndsInSlash (p : String) : Prop :=
  p.data.getLast? = some '/'

instance (p : String) : Decidable (EndsInSlash p) := by
  unfold EndsInSlash; infer_instance

/-- The multiplexer after line 112 of `main`: only the fallback is registered. -/
def baseMux : ServeMux :=
  { m := [("/", fallbackEntry)], es := [fallbackEntry], hosts := false }

/-- The condition under which the registrations of `main` do not panic. -/
def Registrable (config : Config) : Prop :=
  (∀ e ∈ config.Endpoints, e.Path ≠ "" ∧ e.Path ≠ "/") ∧
    (config.Endpoints.map (fun e => e.Path)).Nodup

instance (config : Config) : Decidable (Registrable config) := by
  unfold Registrable; infer_instance

/-- What is known of the multiplexer once the registrations of `main` succeeded. -/
structure Registered (config : Config) (mux : ServeMux) : Prop where
  root : mux.m.lookup "/" = some fallbackEntry
  declared : ∀ e ∈ config.Endpoints, mux.m.lookup e.Path = some (configuredEntry e)
  other : ∀ p, p ≠ "/" → (∀ e ∈ config.Endpoints, e.Path ≠ p) → mux.m.lookup p = none
  subtree : ∀ x ∈ mux.es, x = fallbackEntry ∨
    ∃ e ∈ config.Endpoints, x = configuredEntry e ∧ EndsInSlash e.Path
  fallback_mem : fallbackEntry ∈ mux.es
  hosts_eq : mux.hosts = config.Endpoints.any (fun e => e.Path.data.head? != some '/')

/-! ## The program end to end -/

/-- The validity the data model asks of a configuration: every path begins
with `/` and every status is within 100..599. -/
def Config.Valid (config : Config) : Prop :=
  ∀ e ∈ config.Endpoints, Rooted e.Path ∧ 100 ≤ e.Response.Status ∧ e.Response.Status ≤ 599

instance (config : Config) : Decidable config.Valid := by
  unfold Config.Valid; infer_instance

/-- A world with an empty log and no clock readings. -/
def World.initial : World :=
  { log := [], clock := [] }

/-- The error message, if any, begins with the given text. -/
def messageStartsWith (err : Option String) (text : String) : Bool :=
  match err with
  | some msg => startsWith msg text
  | none => false

/-! ## Concrete configurations and requests -/

/-- The endpoint of the specification's scenario: `GET /health` answers 200 `{"ok": true}`. -/
def epHealth : Endpoint :=
  { Path := "/health", Method := "GET",
    Response := { Status := 200, Body := some [("ok", Json.bool true)] } }

/-- The configuration of the specification's scenario. -/
def cfgHealth : Config :=
  { Server := { Port := "" }, Endpoints := [epHealth] }

/-- An endpoint declared at the root path. -/
def epRoot : Endpoint :=
  { Path := "/", Method := "GET",
    Response := { Status := 200, Body := some [("ok", Json.bool true)] } }

/-- A valid configuration whose only endpoint is declared at `/`. -/
def cfgRoot : Config :=
  { Server := { Port := "" }, Endpoints := [epRoot] }

/-- `GET /items` answering 200. -/
def epItemsGet : Endpoint :=
  { Path := "/items", Method := "GET", Response := { Status := 200, Body := some [] } }

/-- `DELETE /items` answering 204. -/
def epItemsDelete : Endpoint :=
  { Path := "/items", Method := "DELETE", Response := { Status := 204, Body := none } }

/-- Two endpoints on the path `/items`. -/
def cfgItems : Config :=
  { Server := { Port := "" }, Endpoints := [epItemsGet, epItemsDelete] }

/-- `GET /users` answering 200. -/
def epUsersGet : Endpoint :=
  { Path := "/users", Method := "GET",
    Response := { Status := 200, Body := some [("users", Json.arr [])] } }

/-- `POST /users` answering 201. -/
def epUsersPost : Endpoint :=
  { Path := "/users", Method := "POST",
    Response := { Status := 201, Body := some [("created", Json.bool true)] } }

/-- The specification's scenario of two endpoints with one path and two methods. -/
def cfgUsers : Config :=
  { Server := { Port := "" }, Endpoints := [epUsersGet, epUsersPost] }

/-- An endpoint whose path ends in `/`. -/
def epApi : Endpoint :=
  { Path := "/api/", Method := "GET",
    Response := { Status := 200, Body := some [("api", Json.bool true)] } }

/-- A configuration with one endpoint, declared at `/api/`. -/
def cfgApi : Config :=
  { Server := { Port := "" }, Endpoints := [epApi] }

/-- An endpoint with a four-digit status. -/
def epBigStatus : Endpoint :=
  { Path := "/big", Method := "GET", Response := { Status := 1000, Body := some [] } }

/-- An endpoint whose path was omitted in the file, hence empty. -/
def epNoPath : Endpoint :=
  { Path := "", Method := "GET", Response := { Status := 200, Body := some [] } }

/-- A configuration with the endpoint without path. -/
def cfgNoPath : Config :=
  { Server := { Port := "" }, Endpoints := [epNoPath] }

/-- An endpoint whose path carries a host name. -/
def epHost : Endpoint :=
  { Path := "example.com/x", Method := "GET", Response := { Status := 200, Body := none } }

/-- A configuration with the host-qualified endpoint. -/
def cfgHost : Config :=
  { Server := { Port := "" }, Endpoints := [epHost] }

/-- An endpoint whose path has a repeated slash. -/
def epDocs : Endpoint :=
  { Path := "/docs//index", Method := "GET",
    Response := { Status := 200, Body := some [("docs", Json.bool true)] } }

/-- A configuration with the endpoint whose path has a repeated slash. -/
def cfgDocs : Config :=
  { Server := { Port := "" }, Endpoints := [epDocs] }

/-- An endpoint with a negative status. -/
def epNegative : Endpoint :=
  { Path := "/neg", Method := "GET", Response := { Status := -1, Body := none } }

/-- The writer after `Header().Set("Content-Type", "application/json")`,
`WriteHeader(status)` with a status within 100..999 and one `Encode` of `doc`,
for a request whose method is `HEAD` exactly when `head` holds. -/
def written (head : Bool) (status : Int) (doc : Json) : ResponseWriter :=
  { header := jsonHeader
    wroteHeader := true
    status := if 100 ≤ status ∧ status ≤ 199 ∧ status ≠ 101 then StatusOK else status
    sentHeader := jsonHeader
    body :=
      if bodyAllowedForStatus
          (if 100 ≤ status ∧ status ≤ 199 ∧ status ≠ 101 then StatusOK else status) && !head
      then [doc] else []
    calls := [Call.headerSet "Content-Type" "application/json", Call.writeHeader status,
      Call.write doc]
    informational := if 100 ≤ status ∧ status ≤ 199 ∧ status ≠ 101 then [status] else []
    head := head }

/-! ## The pattern multiplexer (`net/http.ServeMux` since Go 1.22) -/

/-- Go: `strings.Cut` at the first character satisfying `p`: the text before it
and the text from it on, or `none` when there is no such character. -/
def cutAt (p : Char → Bool) : List Char → Option (List Char × List Char)
  | [] => none
  | c :: cs =>
    if p c then some ([], c :: cs)
    else match cutAt p cs with
      | some (before, rest) => some (c :: before, rest)
      | none => none

/-- The pieces of a text between its slashes (`strings.Split(s, "/")`). -/
def splitSlash : List Char → List (List Char)
  | [] => [[]]
  | c :: cs =>
    if c = '/' then [] :: splitSlash cs
    else match splitSlash cs with
      | [] => [[c]]
      | first :: others => (c :: first) :: others

/-- The value of a hexadecimal digit. -/
def hexValue (c : Char) : Option Nat :=
  if '0' ≤ c ∧ c ≤ '9' then some (c.toNat - '0'.toNat)
  else if 'a' ≤ c ∧ c ≤ 'f' then some (c.toNat - 'a'.toNat + 10)
  else if 'A' ≤ c ∧ c ≤ 'F' then some (c.toNat - 'A'.toNat + 10)
  else none

/-- Every `%` is followed by two hexadecimal digits. -/
def escapesValid : List Char → Bool
  | [] => true
  | c :: cs =>
    if c = '%' then
      match cs with
      | a :: b :: rest => (hexValue a).isSome && (hexValue b).isSome && escapesValid rest
      | _ => false
    else escapesValid cs

/-- The bytes of a text in which every escape `%XX` stands for the byte `XX`. -/
def unescapedBytes : List Char → List Nat
  | [] => []
  | c :: cs =>
    if c = '%' then
      match cs with
      | a :: b :: rest =>
        ((hexValue a).getD 0 * 16 + (hexValue b).getD 0) :: unescapedBytes rest
      | _ => []
    else (String.utf8EncodeChar c).map (fun b => b.toNat) ++ unescapedBytes cs

/-- UTF-8 decoding of a byte sequence, one byte at a time: `pending` is the
number of continuation bytes still expected and `acc` the bits read so far. A
byte that fits no well-formed sequence is read as U+FFFD. -/
def decodeBytes (pending acc : Nat) : List Nat → List Char
  | [] => if pending = 0 then [] else [Char.ofNat 65533]
  | b :: rest =>
    if pending ≠ 0 ∧ 128 ≤ b ∧ b < 192 then
      if pending = 1 then Char.ofNat (acc * 64 + (b - 128)) :: decodeBytes 0 0 rest
      else decodeBytes (pending - 1) (acc * 64 + (b - 128)) rest
    else
      let broken : List Char := if pending = 0 then [] else [Char.ofNat 65533]
      if b < 128 then broken ++ Char.ofNat b :: decodeBytes 0 0 rest
      else if 192 ≤ b ∧ b < 224 then broken ++ decodeBytes 1 (b - 192) rest
      else if 224 ≤ b ∧ b < 240 then broken ++ decodeBytes 2 (b - 224) rest
      else if 240 ≤ b ∧ b < 248 then broken ++ decodeBytes 3 (b - 240) rest
      else broken ++ Char.ofNat 65533 :: decodeBytes 0 0 rest

/-- Go: `pathUnescape`: `url.PathUnescape`, or the text itself when it has a
malformed escape. A text without `%` is returned as it is. -/
def pathUnescape (s : List Char) : List Char :=
  if !s.contains '%' then s
  else if escapesValid s then decodeBytes 0 0 (unescapedBytes s)
  else s

/-- Go: `type segment struct { s string; wild, multi bool }`. -/
structure segment where
  s : String
  wild : Bool
  multi : Bool
  deriving DecidableEq

/-- Go: `type pattern struct`: the text, the method, the host and the path
segments of a registered pattern. -/
structure pattern where
  str : String
  method : String
  host : String
  segments : List segment
  deriving DecidableEq

/-- Go: `isNotToken` negated: the characters of an HTTP token. -/
def isTokenChar (c : Char) : Bool :=
  c.isAlphanum || "!#$%&*+-.^_|~".data.contains c || c = Char.ofNat 39 || c = Char.ofNat 96

/-- Go: `validMethod`. -/
def validMethod (method : List Char) : Bool :=
  !method.isEmpty && method.all isTokenChar

/-- Go: `isValidWildcardName`, for names written in ASCII: a Go identifier. -/
def isValidWildcardName (s : List Char) : Bool :=
  match s with
  | [] => false
  | c :: cs => (c.isAlpha || c = '_') && cs.all (fun d => d.isAlphanum || d = '_')

/-- One path segment of a pattern, between two slashes; `last` tells that no
slash follows it. The wildcard names seen so far are passed along. -/
def parseSegment (seen : List (List Char)) (seg : List Char) (last : Bool) :
    Option (segment × List (List Char)) :=
  match cutAt (fun c => c = '{') seg with
  | none => some ({ s := String.mk (pathUnescape seg), wild := false, multi := false }, seen)
  | some (before, _) =>
    if before ≠ [] then none
    else if seg.getLast? ≠ some '}' then none
    else
      let name := seg.tail.dropLast
      if name = ['$'] then
        if last then some ({ s := "/", wild := false, multi := false }, seen) else none
      else
        let multi := ['.', '.', '.'].isSuffixOf name
        let name1 := if multi then name.take (name.length - 3) else name
        if multi && !last then none
        else if name1 = [] then none
        else if !isValidWildcardName name1 then none
        else if seen.contains name1 then none
        else some ({ s := String.mk name1, wild := true, multi := multi }, name1 :: seen)

/-- The segment loop of `parsePattern`, over the pieces between the slashes of
the path; an empty last piece is the trailing slash, an anonymous wildcard for
the rest of the path. -/
def parseSegments (seen : List (List Char)) : List (List Char) → Option (List segment)
  | [] => some []
  | [piece] =>
    if piece = [] then some [{ s := "", wild := true, multi := true }]
    else (parseSegment seen piece true).map (fun x => [x.1])
  | piece :: next :: rest =>
    match parseSegment seen piece false with
    | none => none
    | some (seg, seen1) => (parseSegments seen1 (next :: rest)).map (fun segs => seg :: segs)

/-- Go: `parsePattern`; `none` is a parse error. -/
def parsePattern (s : String) : Option pattern :=
  if s.data = [] then none
  else
    let split := cutAt (fun c => c = ' ' ∨ c = '\t') s.data
    let method : List Char := match split with
      | some (m, _) => m
      | none => []
    let rest : List Char := match split with
      | some (_, r) => r.tail.dropWhile (fun c => c = ' ' ∨ c = '\t')
      | none => s.data
    if method ≠ [] ∧ !validMethod method then none
    else match cutAt (fun c => c = '/') rest with
      | none => none
      | some (host, path) =>
        if host.contains '{' then none
        else if method ≠ [] ∧ method ≠ "CONNECT".data ∧ String.mk path ≠ cleanPath (String.mk path)
          then none
        else match parseSegments [] (splitSlash path.tail) with
          | none => none
          | some segs =>
            some { str := s, method := String.mk method, host := String.mk host, segments := segs }

/-- Go: `type relationship`. -/
inductive relationship where
  | equivalent
  | moreGeneral
  | moreSpecific
  | disjoint
  | overlaps
  deriving DecidableEq

/-- Go: `inverseRelationship`. -/
def inverseRelationship : relationship → relationship
  | relationship.moreSpecific => relationship.moreGeneral
  | relationship.moreGeneral => relationship.moreSpecific
  | r => r

/-- Go: `combineRelationships`. -/
def combineRelationships (r1 r2 : relationship) : relationship :=
  match r1 with
  | relationship.equivalent => r2
  | relationship.disjoint => relationship.disjoint
  | relationship.overlaps =>
    if r2 = relationship.disjoint then relationship.disjoint else relationship.overlaps
  | _ =>
    if r2 = relationship.equivalent then r1
    else if r2 = inverseRelationship r1 then relationship.overlaps
    else r2

/-- Go: `compareSegments`. -/
def compareSegments (s1 s2 : segment) : relationship :=
  if s1.multi && s2.multi then relationship.equivalent
  else if s1.multi then relationship.moreGeneral
  else if s2.multi then relationship.moreSpecific
  else if s1.wild && s2.wild then relationship.equivalent
  else if s1.wild then
    if s2.s = "/" then relationship.disjoint else relationship.moreGeneral
  else if s2.wild then
    if s1.s = "/" then relationship.disjoint else relationship.moreSpecific
  else if s1.s = s2.s then relationship.equivalent
  else relationship.disjoint

/-- The segment is a wildcard for the rest of the path. -/
def lastIsMulti (segs : List segment) : Bool :=
  match segs.getLast? with
  | some seg => seg.multi
  | none => false

/-- The loop of `comparePaths` over corresponding segments, and its end:
`multi1` and `multi2` tell whether the whole patterns end in a multi wildcard. -/
def compareLoop (multi1 multi2 : Bool) (rel : relationship) :
    List segment → List segment → relationship
  | [], [] => rel
  | [], _ :: _ =>
    if multi1 then combineRelationships rel relationship.moreGeneral else relationship.disjoint
  | _ :: _, [] =>
    if multi2 then combineRelationships rel relationship.moreSpecific else relationship.disjoint
  | a :: as, b :: bs =>
    let rel1 := combineRelationships rel (compareSegments a b)
    if rel1 = relationship.disjoint then relationship.disjoint
    else compareLoop multi1 multi2 rel1 as bs

/-- Go: `(*pattern).comparePaths`. -/
def comparePaths (p1 p2 : pattern) : relationship :=
  if p1.segments.length ≠ p2.segments.length ∧ !lastIsMulti p1.segments ∧
      !lastIsMulti p2.segments then relationship.disjoint
  else compareLoop (lastIsMulti p1.segments) (lastIsMulti p2.segments)
    relationship.equivalent p1.segments p2.segments

/-- Go: `(*pattern).compareMethods`. -/
def compareMethods (p1 p2 : pattern) : relationship :=
  if p1.method = p2.method then relationship.equivalent
  else if p1.method = "" then relationship.moreGeneral
  else if p2.method = "" then relationship.moreSpecific
  else if p1.method = "GET" ∧ p2.method = "HEAD" then relationship.moreGeneral
  else if p2.method = "GET" ∧ p1.method = "HEAD" then relationship.moreSpecific
  else relationship.disjoint

/-- Go: `(*pattern).comparePathsAndMethods`. -/
def comparePathsAndMethods (p1 p2 : pattern) : relationship :=
  if compareMethods p1 p2 = relationship.disjoint then relationship.disjoint
  else combineRelationships (compareMethods p1 p2) (comparePaths p1 p2)

/-- Go: `(*pattern).conflictsWith`. -/
def conflictsWith (p1 p2 : pattern) : Bool :=
  if p1.host ≠ p2.host then false
  else comparePathsAndMethods p1 p2 = relationship.equivalent ∨
    comparePathsAndMethods p1 p2 = relationship.overlaps

/-- The key under which the routing tree stores the child for a segment: the
literal text, and the empty key for a single wildcard. -/
def segment.key (seg : segment) : String :=
  if seg.wild then "" else seg.s

/-- A registered pattern with its handler. -/
structure route where
  pat : pattern
  entry : muxEntry

/-- Go: `type ServeMux struct` of the pattern multiplexer. The routing tree and
the pattern index are kept as the list of registered routes, the latest first:
the node of a route is given by its host, its method and the keys of its
segments. -/
structure ServeMux122 where
  routes : List route

/-- The keys along the tree path of a pattern, without its final multi wildcard. -/
def pattern.keys (p : pattern) : List String :=
  (p.segments.filter (fun seg => !seg.multi)).map segment.key

/-- Go: `(*ServeMux).register`, reached through `http.HandleFunc`: it panics on
the empty pattern, on a pattern that does not parse, on a pattern in conflict
with a registered one, and in `(*routingNode).set` when the leaf of the tree
is taken. -/
def ServeMux122.register (mux : ServeMux122) (patstr : String) (handler : HandlerFunc) :
    Except Panic ServeMux122 :=
  if patstr = "" then Except.error Panic.invalidPattern
  else match parsePattern patstr with
    | none => Except.error (Panic.badPattern patstr)
    | some pat =>
      match mux.routes.reverse.find? (fun r => conflictsWith pat r.pat) with
      | some r => Except.error (Panic.patternConflict patstr r.pat.str)
      | none =>
        if !lastIsMulti pat.segments ∧
            mux.routes.any (fun r => r.pat.host = pat.host ∧ r.pat.method = pat.method ∧
              r.pat.keys = pat.keys ∧ !lastIsMulti r.pat.segments) then
          Except.error Panic.nonNilLeaf
        else
          Except.ok { routes := { pat := pat, entry := { h := handler, pattern := patstr } }
            :: mux.routes }

/-- A route seen from a node of the routing tree: the keys still to follow. -/
structure cand where
  keys : List String
  multi : Bool
  pat : pattern
  entry : muxEntry

/-- The routes below the child of a node for the key `k`. -/
def childCands (k : String) (cands : List cand) : List cand :=
  cands.filterMap (fun c =>
    match c.keys with
    | [] => none
    | k1 :: ks => if k1 = k then some { c with keys := ks } else none)

/-- Go: `(*routingNode).matchPath`, on the segments of the path: a literal child
first, then the single wildcard (not for the trailing slash), then the multi
wildcard of the node. -/
def matchPath : List cand → List String → Option cand
  | cands, [] => cands.find? (fun c => c.keys = [] ∧ !c.multi)
  | cands, seg :: rest =>
    match matchPath (childCands seg cands) rest with
    | some c => some c
    | none =>
      match (if seg ≠ "/" then matchPath (childCands "" cands) rest else none) with
      | some c => some c
      | none => cands.find? (fun c => c.keys = [] ∧ c.multi)

/-- Go: `firstSegment`, applied until the path is used up: the segments of a
path, unescaped, with `/` for a trailing slash. -/
def pathSegments (path : List Char) : List String :=
  match path with
  | [] => []
  | [c] => if c = '/' then ["/"] else [""]
  | _ :: rest =>
    let pieces := splitSlash rest
    (pieces.dropLast.map (fun p => String.mk (pathUnescape p))) ++
      (match pieces.getLast? with
        | some [] => ["/"]
        | some p => [String.mk (pathUnescape p)]
        | none => [])

/-- The routes below the node for a host and a method. -/
def ServeMux122.cands (mux : ServeMux122) (host method : String) : List cand :=
  mux.routes.filterMap (fun r =>
    if r.pat.host = host ∧ r.pat.method = method then
      some { keys := r.pat.keys, multi := lastIsMulti r.pat.segments, pat := r.pat,
             entry := r.entry }
    else none)

/-- Go: `(*routingNode).matchMethodAndPath`. -/
def ServeMux122.matchMethodAndPath (mux : ServeMux122) (host method : String)
    (segs : List String) : Option cand :=
  match matchPath (mux.cands host method) segs with
  | some c => some c
  | none =>
    match (if method = "HEAD" then matchPath (mux.cands host "GET") segs else none) with
    | some c => some c
    | none => matchPath (mux.cands host "") segs

/-- Go: `(*routingNode).match`: the patterns of the host first, then those
without host. -/
def ServeMux122.match_ (mux : ServeMux122) (host method path : String) : Option cand :=
  match (if host ≠ "" then mux.matchMethodAndPath host method (pathSegments path.data)
      else none) with
  | some c => some c
  | none => mux.matchMethodAndPath "" method (pathSegments path.data)

/-- Go: `exactMatch`. -/
def exactMatch (n : Option cand) (path : String) : Bool :=
  match n with
  | none => false
  | some c =>
    if !lastIsMulti c.pat.segments then true
    else if path ≠ "" ∧ path.data.getLast? ≠ some '/' then false
    else c.pat.segments.length = path.data.count '/'

/-- Go: `(*ServeMux).matchOrRedirect` with a URL: whether to redirect to the
path with a trailing slash. -/
def ServeMux122.redirectsToSlash (mux : ServeMux122) (host method path : String) : Bool :=
  !exactMatch (mux.match_ host method path) path && !(path.data.getLast? = some '/') &&
    exactMatch (mux.match_ host method (path ++ "/")) (path ++ "/")

/-- Insertion into a sorted list of distinct strings. -/
def insertSorted (x : String) : List String → List String
  | [] => [x]
  | y :: ys => if x < y then x :: y :: ys else if x = y then y :: ys else y :: insertSorted x ys

/-- Go: `(*ServeMux).matchingMethods`: the methods under which some pattern
matches the path, or the path with a trailing slash, in sorted order. -/
def ServeMux122.matchingMethods (mux : ServeMux122) (host path : String) : List String :=
  let paths := if path.data.getLast? = some '/' then [path] else [path, path ++ "/"]
  let hosts := if host ≠ "" then [host, ""] else [""]
  let found := mux.routes.reverse.filterMap (fun r =>
    if r.pat.method ≠ "" ∧ paths.any (fun p => hosts.any (fun h =>
        r.pat.host = h ∧ (matchPath (mux.cands h r.pat.method) (pathSegments p.data)).isSome))
    then some r.pat.method else none)
  let all := if found.contains "GET" then "HEAD" :: found else found
  all.foldr insertSorted []

/-- Go: `(*ServeMux).findHandler`. -/
def ServeMux122.Handler (mux : ServeMux122) (r : Request) : Selected :=
  if r.Method = "CONNECT" then
    if mux.redirectsToSlash r.Host r.Method r.EscapedPath then
      Selected.redirect (cleanPath r.Path ++ "/") r.RawQuery
    else match mux.match_ r.Host r.Method r.EscapedPath with
      | some c => Selected.registered c.entry
      | none =>
        match mux.matchingMethods r.Host r.EscapedPath with
        | [] => Selected.notFound
        | allow => Selected.methodNotAllowed allow
  else
    let path := cleanPath r.EscapedPath
    if mux.redirectsToSlash r.Host r.Method path then
      Selected.redirect (cleanPath r.Path ++ "/") r.RawQuery
    else if path ≠ r.EscapedPath then Selected.redirect path r.RawQuery
    else match mux.match_ r.Host r.Method path with
      | some c => Selected.registered c.entry
      | none =>
        match mux.matchingMethods r.Host path with
        | [] => Selected.notFound
        | allow => Selected.methodNotAllowed allow

/-- The loop of `main` (lines 116-120) on the pattern multiplexer. -/
def registerEndpoints122 :
    List Endpoint → ServeMux122 → World → Except Panic (ServeMux122 × World)
  | [], mux, s => Except.ok (mux, s)
  | endpoint :: rest, mux, s =>
    match mux.register endpoint.Path (loggingMiddleware (createConfiguredHandler endpoint)) with
    | Except.error p => Except.error p
    | Except.ok mux1 =>
      registerEndpoints122 rest mux1
        (s.Printf "  %s %s -> Status %d"
          [LogArg.str endpoint.Method, LogArg.str endpoint.Path,
            LogArg.int endpoint.Response.Status])

/-- Lines 111-120 of `main` on the pattern multiplexer. -/
def registerHandlers122 (config : Config) (s : World) : Except Panic (ServeMux122 × World) :=
  match ({ routes := [] } : ServeMux122).register "/" (loggingMiddleware notFoundHandler) with
  | Except.error p => Except.error p
  | Except.ok mux =>
    registerEndpoints122 config.Endpoints mux
      (s.Printf "Configuring endpoints from config file:" [])

/-- The default multiplexer of the process: the classic one when `use121` holds
(a Go release up to 1.21, or `GODEBUG=httpmuxgo121=1`), else the pattern
multiplexer. -/
inductive Mux where
  | classic (mux : ServeMux)
  | routed (mux : ServeMux122)

/-- Lines 111-120 of `main` for either multiplexer; the world records the
registered patterns. -/
def registerWith (use121 : Bool) (config : Config) (s : World) : Except Panic (Mux × World) :=
  if use121 then
    match registerHandlers config s with
    | Except.error p => Except.error p
    | Except.ok (mux, s1) =>
      Except.ok (Mux.classic mux,
        { s1 with table := "/" :: config.Endpoints.map (fun e => e.Path) })
  else
    match registerHandlers122 config s with
    | Except.error p => Except.error p
    | Except.ok (mux, s1) =>
      Except.ok (Mux.routed mux,
        { s1 with table := "/" :: config.Endpoints.map (fun e => e.Path) })

/-- Go: `(*ServeMux).Handler` of either multiplexer. -/
def Mux.Handler (mux : Mux) (r : Request) : Selected :=
  match mux with
  | Mux.classic m => m.Handler r
  | Mux.routed m => m.Handler r

/-- One request served by either multiplexer. -/
def serveWith (mux : Mux) (r : Request) (s : World) : Reply × World :=
  serveSelected (mux.Handler r) r s

/-- A sequence of requests served one after the other by either multiplexer. -/
def serveAllWith (mux : Mux) : List Request → World → List Reply × World
  | [], s => ([], s)
  | r :: rest, s =>
    let first := serveWith mux r s
    let others := serveAllWith mux rest first.2
    (first.1 :: others.1, others.2)

/-- The program end to end with either multiplexer: start with `config`, then
serve `reqs` in order. -/
def runWith (use121 : Bool) (config : Config) (reqs : List Request) (s : World) :
    Except Panic (List Reply) :=
  match registerWith use121 config s with
  | Except.error p => Except.error p
  | Except.ok (mux, s1) => Except.ok (serveAllWith mux reqs s1).1

/-! ## Lemmas on the pieces of a path -/

/-- The text whose pieces between slashes are the given ones. -/
def joinSlash : List (List Char) → List Char
  | [] => []
  | [piece] => piece
  | piece :: next :: rest => piece ++ '/' :: joinSlash (next :: rest)

/-- A route with the given keys fits the segments of a path: the keys are the
segments, or, for a route ending in a multi wildcard, a proper leading part of
them. -/
def Fits (keys : List String) (multi : Bool) (segs : List String) : Prop :=
  (multi = false ∧ keys = segs) ∨ (multi = true ∧ ∃ rest, rest ≠ [] ∧ segs = keys ++ rest)

/-- A plain path: it begins with `/`, has no space, tab, `{` or `%`, and no
empty segment before its last one (no `//`). Both multiplexers read such a
pattern as literal text. -/
def PlainPath (p : String) : Prop :=
  Rooted p ∧ (∀ c ∈ p.data, c ≠ ' ' ∧ c ≠ '\t' ∧ c ≠ '{' ∧ c ≠ '%') ∧
    [] ∉ (splitSlash p.data.tail).dropLast

instance (p : String) : Decidable (PlainPath p) := by
  unfold PlainPath; infer_instance

/-- The segments of a plain pattern, from the pieces between its slashes. -/
def pieceSegments : List (List Char) → List segment
  | [] => []
  | [piece] =>
    if piece = [] then [{ s := "", wild := true, multi := true }]
    else [{ s := String.mk piece, wild := false, multi := false }]
  | piece :: next :: rest =>
    { s := String.mk piece, wild := false, multi := false } :: pieceSegments (next :: rest)

/-- The tree keys of a plain pattern, from the pieces between its slashes. -/
def plainKeys (pieces : List (List Char)) : List String :=
  (if pieces.getLast? = some [] then pieces.dropLast else pieces).map String.mk

/-- The segments of a path without escapes, from the pieces between its slashes. -/
def plainSegs (pieces : List (List Char)) : List String :=
  pieces.dropLast.map String.mk ++
    (match pieces.getLast? with
      | some [] => ["/"]
      | some piece => [String.mk piece]
      | none => [])

/-- The segment lists of plain patterns: literal segments, with at most an
anonymous multi wildcard at the end. -/
inductive PlainSegs : List segment → Prop where
  | nil : PlainSegs []
  | multi : PlainSegs [{ s := "", wild := true, multi := true }]
  | lit (s : String) (rest : List segment) (h : PlainSegs rest) :
      PlainSegs ({ s := s, wild := false, multi := false } :: rest)

/-- The route the pattern multiplexer keeps for a plain pattern. -/
def plainRoute (path : String) (h : HandlerFunc) : route :=
  { pat := pattern.mk path "" "" (pieceSegments (splitSlash path.data.tail))
    entry := { h := h, pattern := path } }

/-- The pattern multiplexer after line 112 of `main`. -/
def baseMux122 : ServeMux122 :=
  { routes := [plainRoute "/" (loggingMiddleware notFoundHandler)] }

/-- Every route of the multiplexer comes from a plain pattern. -/
def AllPlain (mux : ServeMux122) : Prop :=
  ∀ r ∈ mux.routes, PlainPath r.entry.pattern ∧ r = plainRoute r.entry.pattern r.entry.h

/-- Every route of the multiplexer holds the parsed form of its own pattern. -/
def Parsed (mux : ServeMux122) : Prop :=
  ∀ r ∈ mux.routes, parsePattern r.entry.pattern = some r.pat

/-- All endpoint paths of the configuration are plain. -/
def PlainConfig (config : Config) : Prop :=
  ∀ e ∈ config.Endpoints, PlainPath e.Path

instance (config : Config) : Decidable (PlainConfig config) := by
  unfold PlainConfig; infer_instance

/-- The route the pattern multiplexer keeps for a plain endpoint. -/
def configuredRoute (e : Endpoint) : route :=
  plainRoute e.Path (loggingMiddleware (createConfiguredHandler e))

/-- The pattern multiplexer `main` builds from a plain configuration. -/
def plainMux (config : Config) : ServeMux122 :=
  { routes := (config.Endpoints.map configuredRoute).reverse ++ baseMux122.routes }

/-- A route seen from the root of the routing tree. -/
def route.cand (r : route) : cand :=
  { keys := r.pat.keys, multi := lastIsMulti r.pat.segments, pat := r.pat, entry := r.entry }

/-- What `main` has registered on the multiplexer, of either generation. -/
def Mux.Built (config : Config) : Mux → Prop
  | Mux.classic mux => Registered config mux
  | Mux.routed mux =>
    mux.routes.map (fun r => r.entry)
      = (config.Endpoints.map configuredEntry).reverse ++ [fallbackEntry] ∧
    (PlainConfig config → mux = plainMux config) ∧ Parsed mux

/-- The global `config` and the registered patterns are the same in both worlds. -/
def World.SameTable (s s1 : World) : Prop :=
  s1.config = s.config ∧ s1.table = s.table

/-- No route of the multiplexer is bound to a host or to a method. -/
def HostFree (mux : ServeMux122) : Prop :=
  ∀ r ∈ mux.routes, r.pat.host = "" ∧ r.pat.method = ""

/-- An endpoint with an interim status. -/
def epInterim : Endpoint :=
  { Path := "/early", Method := "GET",
    Response := { Status := 150, Body := some [("ok", Json.bool true)] } }

/-- A valid configuration with the endpoint of status 150. -/
def cfgInterim : Config :=
  { Server := { Port := "" }, Endpoints := [epInterim] }

/-- An endpoint with the status 204 and a body. -/
def epNoContent : Endpoint :=
  { Path := "/empty", Method := "GET",
    Response := { Status := 204, Body := some [("ok", Json.bool true)] } }

/-- A valid configuration with the endpoint of status 204. -/
def cfgNoContent : Config :=
  { Server := { Port := "" }, Endpoints := [epNoContent] }

/-- An endpoint declared for the method `HEAD`. -/
def epHead : Endpoint :=
  { Path := "/probe", Method := "HEAD",
    Response := { Status := 200, Body := some [("ok", Json.bool true)] } }

/-- A valid configuration with the `HEAD` endpoint. -/
def cfgHead : Config :=
  { Server := { Port := "" }, Endpoints := [epHead] }

/-- An endpoint whose path has a space. -/
def epSpace : Endpoint :=
  { Path := "/hello world", Method := "GET",
    Response := { Status := 200, Body := some [("ok", Json.bool true)] } }

/-- A valid configuration with the endpoint whose path has a space. -/
def cfgSpace : Config :=
  { Server := { Port := "" }, Endpoints := [epSpace] }

/-- An endpoint whose path has a tab. -/
def epTab : Endpoint :=
  { Path := "/a\tb", Method := "GET",
    Response := { Status := 200, Body := some [("ok", Json.bool true)] } }

/-- A valid configuration with the endpoint whose path has a tab. -/
def cfgTab : Config :=
  { Server := { Port := "" }, Endpoints := [epTab] }

/-- An endpoint whose path ends in the pattern wildcard `{$}`. -/
def epDollar : Endpoint :=
  { Path := "/files/\x7b$\x7d", Method := "GET",
    Response := { Status := 200, Body := some [("ok", Json.bool true)] } }

/-- A valid configuration with the endpoint whose path ends in `{$}`. -/
def cfgDollar : Config :=
  { Server := { Port := "" }, Endpoints := [epDollar] }

/-- An endpoint whose path has a percent sign. -/
def epPercent : Endpoint :=
  { Path := "/a%41", Method := "GET",
    Response := { Status := 200, Body := some [("ok", Json.bool true)] } }

/-- A valid configuration with the endpoint whose path has a percent sign. -/
def cfgPercent : Config :=
  { Server := { Port := "" }, Endpoints := [epPercent] }

/-- An endpoint two segments deep. -/
def epNested : Endpoint :=
  { Path := "/a/b", Method := "GET",
    Response := { Status := 200, Body := some [("ok", Json.bool true)] } }

/-- A valid configuration with the endpoint `/a/b`. -/
def cfgNested : Config :=
  { Server := { Port := "" }, Endpoints := [epNested] }

/-- An endpoint whose path has a named wildcard. -/
def epWildcard : Endpoint :=
  { Path := "/users/\x7bid\x7d", Method := "GET",
    Response := { Status := 200, Body := some [("ok", Json.bool true)] } }

/-- A configuration with the endpoint whose path has a named wildcard. -/
def cfgWildcard : Config :=
  { Server := { Port := "" }, Endpoints := [epWildcard] }

/-- An endpoint whose path has an empty segment. -/
def epGap : Endpoint :=
  { Path := "/a//b", Method := "GET",
    Response := { Status := 200, Body := some [("ok", Json.bool true)] } }

/-- A configuration with the endpoint whose path has an empty segment. -/
def cfgGap : Config :=
  { Server := { Port := "" }, Endpoints := [epGap] }

/-- An endpoint whose path has no slash. -/
def epNoSlash : Endpoint :=
  { Path := "health", Method := "GET",
    Response := { Status := 200, Body := some [("ok", Json.bool true)] } }

/-- A configuration with the endpoint whose path has no slash. -/
def cfgNoSlash : Config :=
  { Server := { Port := "" }, Endpoints := [epNoSlash] }

/-- The JSON document `{"ok": true}`. -/
def okDoc : Json :=
  Json.obj [("ok", Json.bool true)]
/-! ## `encoding/json`: the scanner (`scanner.go`)

Bytes are given by their numbers: 34 is the double quote, 92 the backslash,
123 and 125 the braces, 91 and 93 the brackets, 58 the colon, 44 the comma. -/

/-- Go: the step functions of the scanner, `stateBeginValue` and so on. -/
inductive scanStep where
  | beginValueOrEmpty | beginValue | beginStringOrEmpty | beginString | endValue | endTop
  | inString | inStringEsc | inStringEscU | inStringEscU1 | inStringEscU12 | inStringEscU123
  | neg | one | zero | dot | dot0 | e | eSign | e0
  | t | tr | tru | f | fa | fal | fals | n | nu | nul
  | error
  deriving DecidableEq

/-- Go: the entries of `scanner.parseState`. -/
inductive parseKind where
  | parseObjectKey
  | parseObjectValue
  | parseArrayValue
  deriving DecidableEq

/-- Go: the opcodes a step function returns. -/
inductive opcode where
  | scanContinue | scanBeginLiteral | scanBeginObject | scanObjectKey | scanObjectValue
  | scanEndObject | scanBeginArray | scanArrayValue | scanEndArray | scanSkipSpace | scanEnd
  | scanError
  deriving DecidableEq

/-- Go: `type scanner struct`; the innermost parse state is the head of the
list, and `err` tells whether `scanner.err` is set. -/
structure scanner where
  step : scanStep
  parseState : List parseKind
  endTop : Bool
  err : Bool
  deriving DecidableEq

/-- Go: `maxNestingDepth`. -/
def maxNestingDepth : Nat := 10000

/-- Go: `(*scanner).reset`. -/
def scanner.reset : scanner :=
  { step := scanStep.beginValue, parseState := [], endTop := false, err := false }

/-- Go: `(*scanner).error`. -/
def scanner.error (s : scanner) : scanner × opcode :=
  ({ s with step := scanStep.error, err := true }, opcode.scanError)

/-- Go: `isSpace`: space, tab, carriage return, line feed. -/
def isSpace (c : Nat) : Bool :=
  c == 32 || c == 9 || c == 13 || c == 10

/-- A decimal digit. -/
def isDigit (c : Nat) : Bool :=
  48 ≤ c && c ≤ 57

/-- A hexadecimal digit. -/
def isHexDigit (c : Nat) : Bool :=
  (48 ≤ c && c ≤ 57) || (97 ≤ c && c ≤ 102) || (65 ≤ c && c ≤ 70)

/-- Go: `(*scanner).pushParseState`. -/
def scanner.pushParseState (s : scanner) (newParseState : parseKind) (successState : opcode) :
    scanner × opcode :=
  let s1 : scanner := { s with parseState := newParseState :: s.parseState }
  if s1.parseState.length ≤ maxNestingDepth then (s1, successState) else s1.error

/-- Go: `(*scanner).popParseState`. -/
def scanner.popParseState (s : scanner) : scanner :=
  match s.parseState.tail with
  | [] => { s with parseState := [], step := scanStep.endTop, endTop := true }
  | rest => { s with parseState := rest, step := scanStep.endValue }

/-- Go: `stateEndTop`: a byte other than space after the top-level value sets
the error, which the next call reports. -/
def stateEndTop (s : scanner) (c : Nat) : scanner × opcode :=
  if !isSpace c then (s.error.1, opcode.scanEnd) else (s, opcode.scanEnd)

/-- Go: `stateEndValue`. -/
def stateEndValue (s : scanner) (c : Nat) : scanner × opcode :=
  match s.parseState with
  | [] => stateEndTop { s with step := scanStep.endTop, endTop := true } c
  | ps :: rest =>
    if isSpace c then ({ s with step := scanStep.endValue }, opcode.scanSkipSpace)
    else match ps with
      | parseKind.parseObjectKey =>
        if c = 58 then
          ({ s with parseState := parseKind.parseObjectValue :: rest,
                    step := scanStep.beginValue }, opcode.scanObjectKey)
        else s.error
      | parseKind.parseObjectValue =>
        if c = 44 then
          ({ s with parseState := parseKind.parseObjectKey :: rest,
                    step := scanStep.beginString }, opcode.scanObjectValue)
        else if c = 125 then (s.popParseState, opcode.scanEndObject)
        else s.error
      | parseKind.parseArrayValue =>
        if c = 44 then ({ s with step := scanStep.beginValue }, opcode.scanArrayValue)
        else if c = 93 then (s.popParseState, opcode.scanEndArray)
        else s.error

/-- Go: `stateBeginValue`. -/
def stateBeginValue (s : scanner) (c : Nat) : scanner × opcode :=
  if isSpace c then (s, opcode.scanSkipSpace)
  else if c = 123 then
    { s with step := scanStep.beginStringOrEmpty }.pushParseState parseKind.parseObjectKey
      opcode.scanBeginObject
  else if c = 91 then
    { s with step := scanStep.beginValueOrEmpty }.pushParseState parseKind.parseArrayValue
      opcode.scanBeginArray
  else if c = 34 then ({ s with step := scanStep.inString }, opcode.scanBeginLiteral)
  else if c = 45 then ({ s with step := scanStep.neg }, opcode.scanBeginLiteral)
  else if c = 48 then ({ s with step := scanStep.zero }, opcode.scanBeginLiteral)
  else if c = 116 then ({ s with step := scanStep.t }, opcode.scanBeginLiteral)
  else if c = 102 then ({ s with step := scanStep.f }, opcode.scanBeginLiteral)
  else if c = 110 then ({ s with step := scanStep.n }, opcode.scanBeginLiteral)
  else if 49 ≤ c ∧ c ≤ 57 then ({ s with step := scanStep.one }, opcode.scanBeginLiteral)
  else s.error

/-- Go: `stateBeginValueOrEmpty`. -/
def stateBeginValueOrEmpty (s : scanner) (c : Nat) : scanner × opcode :=
  if isSpace c then (s, opcode.scanSkipSpace)
  else if c = 93 then stateEndValue s c
  else stateBeginValue s c

/-- Go: `stateBeginString`. -/
def stateBeginString (s : scanner) (c : Nat) : scanner × opcode :=
  if isSpace c then (s, opcode.scanSkipSpace)
  else if c = 34 then ({ s with step := scanStep.inString }, opcode.scanBeginLiteral)
  else s.error

/-- Go: `stateBeginStringOrEmpty`. -/
def stateBeginStringOrEmpty (s : scanner) (c : Nat) : scanner × opcode :=
  if isSpace c then (s, opcode.scanSkipSpace)
  else if c = 125 then
    match s.parseState with
    | [] => s.error
    | _ :: rest => stateEndValue { s with parseState := parseKind.parseObjectValue :: rest } c
  else stateBeginString s c

/-- Go: `stateInString`. -/
def stateInString (s : scanner) (c : Nat) : scanner × opcode :=
  if c = 34 then ({ s with step := scanStep.endValue }, opcode.scanContinue)
  else if c = 92 then ({ s with step := scanStep.inStringEsc }, opcode.scanContinue)
  else if c < 32 then s.error
  else (s, opcode.scanContinue)

/-- Go: `stateInStringEsc`: after a backslash, one of `b f n r t \ / "` or `u`. -/
def stateInStringEsc (s : scanner) (c : Nat) : scanner × opcode :=
  if c = 98 ∨ c = 102 ∨ c = 110 ∨ c = 114 ∨ c = 116 ∨ c = 92 ∨ c = 47 ∨ c = 34 then
    ({ s with step := scanStep.inString }, opcode.scanContinue)
  else if c = 117 then ({ s with step := scanStep.inStringEscU }, opcode.scanContinue)
  else s.error

/-- Go: `stateInStringEscU` to `stateInStringEscU123`: one hexadecimal digit,
then on to `next`. -/
def stateHex (next : scanStep) (s : scanner) (c : Nat) : scanner × opcode :=
  if isHexDigit c then ({ s with step := next }, opcode.scanContinue) else s.error

/-- Go: `state0`. -/
def state0 (s : scanner) (c : Nat) : scanner × opcode :=
  if c = 46 then ({ s with step := scanStep.dot }, opcode.scanContinue)
  else if c = 101 ∨ c = 69 then ({ s with step := scanStep.e }, opcode.scanContinue)
  else stateEndValue s c

/-- Go: `state1`. -/
def state1 (s : scanner) (c : Nat) : scanner × opcode :=
  if isDigit c then ({ s with step := scanStep.one }, opcode.scanContinue)
  else state0 s c

/-- Go: `stateNeg`. -/
def stateNeg (s : scanner) (c : Nat) : scanner × opcode :=
  if c = 48 then ({ s with step := scanStep.zero }, opcode.scanContinue)
  else if 49 ≤ c ∧ c ≤ 57 then ({ s with step := scanStep.one }, opcode.scanContinue)
  else s.error

/-- Go: `stateDot`. -/
def stateDot (s : scanner) (c : Nat) : scanner × opcode :=
  if isDigit c then ({ s with step := scanStep.dot0 }, opcode.scanContinue) else s.error

/-- Go: `stateDot0`. -/
def stateDot0 (s : scanner) (c : Nat) : scanner × opcode :=
  if isDigit c then (s, opcode.scanContinue)
  else if c = 101 ∨ c = 69 then ({ s with step := scanStep.e }, opcode.scanContinue)
  else stateEndValue s c

/-- Go: `stateESign`. -/
def stateESign (s : scanner) (c : Nat) : scanner × opcode :=
  if isDigit c then ({ s with step := scanStep.e0 }, opcode.scanContinue) else s.error

/-- Go: `stateE`. -/
def stateE (s : scanner) (c : Nat) : scanner × opcode :=
  if c = 43 ∨ c = 45 then ({ s with step := scanStep.eSign }, opcode.scanContinue)
  else stateESign s c

/-- Go: `stateE0`. -/
def stateE0 (s : scanner) (c : Nat) : scanner × opcode :=
  if isDigit c then (s, opcode.scanContinue) else stateEndValue s c

/-- Go: `stateT` to `stateNul`: the next letter of `true`, `false` or `null`. -/
def stateLetter (letter : Nat) (next : scanStep) (s : scanner) (c : Nat) : scanner × opcode :=
  if c = letter then ({ s with step := next }, opcode.scanContinue) else s.error

/-- Go: the call `s.step(s, c)`. -/
def scanner.next (s : scanner) (c : Nat) : scanner × opcode :=
  match s.step with
  | scanStep.beginValueOrEmpty => stateBeginValueOrEmpty s c
  | scanStep.beginValue => stateBeginValue s c
  | scanStep.beginStringOrEmpty => stateBeginStringOrEmpty s c
  | scanStep.beginString => stateBeginString s c
  | scanStep.endValue => stateEndValue s c
  | scanStep.endTop => stateEndTop s c
  | scanStep.inString => stateInString s c
  | scanStep.inStringEsc => stateInStringEsc s c
  | scanStep.inStringEscU => stateHex scanStep.inStringEscU1 s c
  | scanStep.inStringEscU1 => stateHex scanStep.inStringEscU12 s c
  | scanStep.inStringEscU12 => stateHex scanStep.inStringEscU123 s c
  | scanStep.inStringEscU123 => stateHex scanStep.inString s c
  | scanStep.neg => stateNeg s c
  | scanStep.one => state1 s c
  | scanStep.zero => state0 s c
  | scanStep.dot => stateDot s c
  | scanStep.dot0 => stateDot0 s c
  | scanStep.e => stateE s c
  | scanStep.eSign => stateESign s c
  | scanStep.e0 => stateE0 s c
  | scanStep.t => stateLetter 114 scanStep.tr s c
  | scanStep.tr => stateLetter 117 scanStep.tru s c
  | scanStep.tru => stateLetter 101 scanStep.endValue s c
  | scanStep.f => stateLetter 97 scanStep.fa s c
  | scanStep.fa => stateLetter 108 scanStep.fal s c
  | scanStep.fal => stateLetter 115 scanStep.fals s c
  | scanStep.fals => stateLetter 101 scanStep.endValue s c
  | scanStep.n => stateLetter 117 scanStep.nu s c
  | scanStep.nu => stateLetter 108 scanStep.nul s c
  | scanStep.nul => stateLetter 108 scanStep.endValue s c
  | scanStep.error => (s, opcode.scanError)

/-- The loop of `checkValid`: `none` when a step reports `scanError`. -/
def scanBytes : scanner → List Nat → Option scanner
  | s, [] => some s
  | s, c :: cs =>
    match s.next c with
    | (_, opcode.scanError) => none
    | (s1, _) => scanBytes s1 cs

/-- Go: `(*scanner).eof`, `true` for `scanEnd`. -/
def scanner.eof (s : scanner) : Bool :=
  if s.err then false
  else if s.endTop then true
  else (s.next 32).1.endTop

/-- Go: `checkValid`, `true` for a nil error: the bytes are one JSON value
between optional white space, nested at most 10000 deep. -/
def checkValid (data : List Nat) : Bool :=
  match scanBytes scanner.reset data with
  | none => false
  | some s => s.eof

/-- The bytes of a text written in ASCII. -/
def asciiBytes (text : String) : List UInt8 :=
  text.data.map (fun c => c.toNat.toUInt8)

/-! ## `encoding/json`: decoding into `Config` (`decode.go`) -/

/-- A JSON value as `decodeState` reads it from valid input: a number is its
literal, a string or a key the bytes between its quotes, escapes included. -/
inductive jsonValue where
  | null
  | bool (b : Bool)
  | number (literal : List Nat)
  | string (raw : List Nat)
  | array (items : List jsonValue)
  | object (members : List (List Nat × jsonValue))

/-- An array or an object being read: what it holds so far, last first, and for
an object the key that waits for its value. -/
inductive openValue where
  | array (items : List jsonValue)
  | object (members : List (List Nat × jsonValue)) (key : Option (List Nat))

/-- The reader of a document: the scanner, the bytes of the literal being read
(last first), the arrays and objects not yet closed (innermost first), and the
top-level value once it is complete. -/
structure documentReader where
  scan : scanner
  literal : Option (List Nat)
  stack : List openValue
  top : Option jsonValue

/-- The value of a literal, told by its first byte as in `literalStore`. -/
def literalValue (item : List Nat) : jsonValue :=
  match item with
  | 34 :: rest => jsonValue.string rest.dropLast
  | 116 :: _ => jsonValue.bool true
  | 102 :: _ => jsonValue.bool false
  | 110 :: _ => jsonValue.null
  | _ => jsonValue.number item

/-- A complete value goes to the innermost open array or object, or is the
top-level value. -/
def documentReader.place (d : documentReader) (v : jsonValue) : documentReader :=
  match d.stack with
  | [] => { d with top := some v }
  | openValue.array items :: rest => { d with stack := openValue.array (v :: items) :: rest }
  | openValue.object members none :: rest =>
    match v with
    | jsonValue.string raw => { d with stack := openValue.object members (some raw) :: rest }
    | _ => d
  | openValue.object members (some key) :: rest =>
    { d with stack := openValue.object ((key, v) :: members) none :: rest }

/-- The literal being read, if any, is complete. -/
def documentReader.finishLiteral (d : documentReader) : documentReader :=
  match d.literal with
  | none => d
  | some item => { d with literal := none }.place (literalValue item.reverse)

/-- The innermost open array or object is complete. -/
def documentReader.close (d : documentReader) : documentReader :=
  match d.stack with
  | [] => d
  | openValue.array items :: rest =>
    { d with stack := rest }.place (jsonValue.array items.reverse)
  | openValue.object members _ :: rest =>
    { d with stack := rest }.place (jsonValue.object members.reverse)

/-- One byte of valid input. -/
def documentReader.feed (d : documentReader) (c : Nat) : documentReader :=
  let res := d.scan.next c
  let d1 : documentReader := { d with scan := res.1 }
  match res.2 with
  | opcode.scanContinue => { d1 with literal := d1.literal.map (fun item => c :: item) }
  | opcode.scanBeginLiteral => { d1 with literal := some [c] }
  | opcode.scanBeginObject =>
    { d1.finishLiteral with stack := openValue.object [] none :: d1.finishLiteral.stack }
  | opcode.scanBeginArray =>
    { d1.finishLiteral with stack := openValue.array [] :: d1.finishLiteral.stack }
  | opcode.scanEndObject => d1.finishLiteral.close
  | opcode.scanEndArray => d1.finishLiteral.close
  | _ => d1.finishLiteral

/-- The JSON value of valid input. -/
def document (data : List Nat) : Option jsonValue :=
  (data.foldl documentReader.feed
    { scan := scanner.reset, literal := none, stack := [], top := none }).finishLiteral.top

/-- The Go types `json.Unmarshal` meets below `*Config`. -/
inductive goType where
  /-- Go: `Config`. -/
  | config
  /-- Go: `ServerConfig`. -/
  | serverConfig
  /-- Go: `[]Endpoint`. -/
  | endpointSlice
  /-- Go: `Endpoint`. -/
  | endpoint
  /-- Go: `EndpointResponse`. -/
  | endpointResponse
  /-- Go: `string`. -/
  | string
  /-- Go: `int`, 64 bits wide. -/
  | int
  /-- Go: `map[string]interface{}`. -/
  | stringMap
  /-- Go: `interface{}`. -/
  | any
  deriving DecidableEq

/-- The value of four hexadecimal digits. -/
def hex4 (a b c d : Nat) : Nat :=
  let v := fun (x : Nat) =>
    if 48 ≤ x ∧ x ≤ 57 then x - 48 else if 97 ≤ x ∧ x ≤ 102 then x - 87 else x - 55
  v a * 4096 + v b * 256 + v c * 16 + v d

/-- Go: `foldRune`, as far as names in ASCII are concerned: a small letter
gives its capital, the long s (U+017F) gives `S`, the Kelvin sign (U+212A)
gives `K`; no other character folds to an ASCII letter. -/
def foldRune (r : Nat) : Nat :=
  if 97 ≤ r ∧ r ≤ 122 then r - 32
  else if r = 383 then 83
  else if r = 8490 then 75
  else r

/-- Go: `foldName` of the unquoted key, read off the bytes between the quotes:
an escape gives the character it stands for, the bytes `C5 BF` are the long s,
`E2 84 AA` the Kelvin sign, and every other byte from 128 on stays, which keeps
the key apart from every name in ASCII. -/
def foldKey : List Nat → List Nat
  | [] => []
  | 92 :: 117 :: a :: b :: c :: d :: rest => foldRune (hex4 a b c d) :: foldKey rest
  | 92 :: 98 :: rest => 8 :: foldKey rest
  | 92 :: 102 :: rest => 12 :: foldKey rest
  | 92 :: 110 :: rest => 10 :: foldKey rest
  | 92 :: 114 :: rest => 13 :: foldKey rest
  | 92 :: 116 :: rest => 9 :: foldKey rest
  | 92 :: x :: rest => foldRune x :: foldKey rest
  | 197 :: 191 :: rest => 83 :: foldKey rest
  | 226 :: 132 :: 170 :: rest => 75 :: foldKey rest
  | x :: rest => foldRune x :: foldKey rest

/-- The folded form of a name written in ASCII. -/
def foldedName (name : String) : List Nat :=
  name.data.map (fun c => foldRune c.toNat)

/-- The field of a struct type that a key selects, by the `json` tags of
`main.go` compared without regard to case; `none` for a key without field
and for a type that is no struct. -/
def goType.field (t : goType) (key : List Nat) : Option goType :=
  match t with
  | goType.config =>
    if foldKey key = foldedName "server" then some goType.serverConfig
    else if foldKey key = foldedName "endpoints" then some goType.endpointSlice
    else none
  | goType.serverConfig =>
    if foldKey key = foldedName "port" then some goType.string else none
  | goType.endpoint =>
    if foldKey key = foldedName "path" then some goType.string
    else if foldKey key = foldedName "method" then some goType.string
    else if foldKey key = foldedName "response" then some goType.endpointResponse
    else none
  | goType.endpointResponse =>
    if foldKey key = foldedName "status" then some goType.int
    else if foldKey key = foldedName "body" then some goType.stringMap
    else none
  | _ => none

/-- The type is one of the four struct types. -/
def goType.isStruct (t : goType) : Bool :=
  t == goType.config || t == goType.serverConfig || t == goType.endpoint ||
    t == goType.endpointResponse

/-- The number written by decimal digits. -/
def digitsValue (digits : List Nat) : Nat :=
  digits.foldl (fun acc d => acc * 10 + (d - 48)) 0

/-- Go: `strconv.ParseInt(s, 10, 64)` succeeds on the number literal: an
optional minus sign and digits only, within the range of `int64`. -/
def isInt64Literal (literal : List Nat) : Bool :=
  match literal with
  | 45 :: digits => digits.all isDigit && digitsValue digits ≤ 2 ^ 63
  | digits => digits.all isDigit && digitsValue digits < 2 ^ 63

/-- The digits of a number literal of JSON before and after the decimal point,
and its exponent. -/
def numberParts (literal : List Nat) : List Nat × List Nat × Int :=
  let unsigned := match literal with
    | 45 :: rest => rest
    | rest => rest
  let whole := unsigned.takeWhile isDigit
  let afterWhole := unsigned.dropWhile isDigit
  let fraction := match afterWhole with
    | 46 :: rest => rest.takeWhile isDigit
    | _ => []
  let afterFraction := match afterWhole with
    | 46 :: rest => rest.dropWhile isDigit
    | rest => rest
  let exponent : Int := match afterFraction with
    | _ :: 45 :: digits => - (digitsValue digits : Int)
    | _ :: 43 :: digits => (digitsValue digits : Int)
    | _ :: digits => (digitsValue digits : Int)
    | [] => 0
  (whole, fraction, exponent)

/-- Go: `strconv.ParseFloat(s, 64)` fails on the number literal, with a range
error: the number rounds to infinity, which it does from
`(2 ^ 54 - 1) * 2 ^ 970` on, half-way between the largest `float64` and
`2 ^ 1024`. The first two tests only spare the powers of ten with an exponent
far off. -/
def overflowsFloat64 (literal : List Nat) : Bool :=
  let parts := numberParts literal
  let digits := parts.1 ++ parts.2.1
  let mantissa := digitsValue digits
  let exponent : Int := parts.2.2 - parts.2.1.length
  if mantissa = 0 then false
  else if 310 < exponent then true
  else if exponent + digits.length < 300 then false
  else if 0 ≤ exponent then (2 ^ 54 - 1) * 2 ^ 970 ≤ mantissa * 10 ^ exponent.toNat
  else (2 ^ 54 - 1) * 2 ^ 970 * 10 ^ (- exponent).toNat ≤ mantissa

mutual
/-- Decoding the value into a variable of the type saves an
`UnmarshalTypeError` (`d.saveError`); decoding goes on after it. `null` fits
every type; a value under a key without field is skipped unseen. -/
def mismatch : goType → jsonValue → Bool
  | _, jsonValue.null => false
  | t, jsonValue.bool _ => t != goType.any
  | t, jsonValue.string _ => t != goType.string && t != goType.any
  | t, jsonValue.number literal =>
    if t = goType.int then !isInt64Literal literal
    else if t = goType.any then overflowsFloat64 literal
    else true
  | t, jsonValue.array items =>
    if t = goType.endpointSlice then mismatchItems goType.endpoint items
    else if t = goType.any then mismatchItems goType.any items
    else true
  | t, jsonValue.object members =>
    if t = goType.stringMap ∨ t = goType.any then mismatchValues members
    else if t.isStruct then mismatchFields t members
    else true
/-- Some element of the array does not fit the element type. -/
def mismatchItems : goType → List jsonValue → Bool
  | _, [] => false
  | t, v :: rest => mismatch t v || mismatchItems t rest
/-- Some value of the object does not fit `interface{}`. -/
def mismatchValues : List (List Nat × jsonValue) → Bool
  | [] => false
  | (_, v) :: rest => mismatch goType.any v || mismatchValues rest
/-- Some value of the object does not fit the field its key selects. -/
def mismatchFields : goType → List (List Nat × jsonValue) → Bool
  | _, [] => false
  | t, (key, v) :: rest =>
    (match t.field key with
      | some fieldType => mismatch fieldType v
      | none => false) || mismatchFields t rest
end

/-- Go: `json.Unmarshal(data, &config)` returns an error: the input is not
valid, or a value does not fit the type it is decoded into. -/
def unmarshalFails (data : List UInt8) : Bool :=
  !checkValid (data.map UInt8.toNat) ||
    (match document (data.map UInt8.toNat) with
      | some v => mismatch goType.config v
      | none => false)

/-- The value does not fit the Go type, case by case: a boolean fits only
`interface{}`; a string only `string` and `interface{}`; a number fits `int`
when it is an integer literal within `int64`, `interface{}` when it does not
overflow `float64`, and nothing else; an array fits `[]Endpoint` and
`interface{}` when all its elements fit; an object fits
`map[string]interface{}` and `interface{}` when all its values fit
`interface{}`, and a struct type when the value under every key that selects a
field fits the field; `null` fits every type. -/
inductive Mismatch : goType → jsonValue → Prop where
  | bool (t : goType) (b : Bool) (h : t ≠ goType.any) : Mismatch t (jsonValue.bool b)
  | string (t : goType) (raw : List Nat) (h1 : t ≠ goType.string) (h2 : t ≠ goType.any) :
      Mismatch t (jsonValue.string raw)
  | notInteger (literal : List Nat) (h : isInt64Literal literal = false) :
      Mismatch goType.int (jsonValue.number literal)
  | overflow (literal : List Nat) (h : overflowsFloat64 literal = true) :
      Mismatch goType.any (jsonValue.number literal)
  | number (t : goType) (literal : List Nat) (h1 : t ≠ goType.int) (h2 : t ≠ goType.any) :
      Mismatch t (jsonValue.number literal)
  | array (t : goType) (items : List jsonValue) (h1 : t ≠ goType.endpointSlice)
      (h2 : t ≠ goType.any) : Mismatch t (jsonValue.array items)
  | element (items : List jsonValue) (v : jsonValue) (hv : v ∈ items)
      (h : Mismatch goType.endpoint v) : Mismatch goType.endpointSlice (jsonValue.array items)
  | anyElement (items : List jsonValue) (v : jsonValue) (hv : v ∈ items)
      (h : Mismatch goType.any v) : Mismatch goType.any (jsonValue.array items)
  | object (t : goType) (members : List (List Nat × jsonValue)) (h1 : t ≠ goType.stringMap)
      (h2 : t ≠ goType.any) (h3 : t.isStruct = false) : Mismatch t (jsonValue.object members)
  | value (t : goType) (members : List (List Nat × jsonValue)) (key : List Nat)
      (v : jsonValue) (ht : t = goType.stringMap ∨ t = goType.any) (hv : (key, v) ∈ members)
      (h : Mismatch goType.any v) : Mismatch t (jsonValue.object members)
  | field (t fieldType : goType) (members : List (List Nat × jsonValue)) (key : List Nat)
      (v : jsonValue) (ht : t.isStruct = true) (hv : (key, v) ∈ members)
      (hf : t.field key = some fieldType) (h : Mismatch fieldType v) :
      Mismatch t (jsonValue.object members)

/-! ## Start-up (`main.go`, lines 40-53 and 89-130) -/

/-- The environment of the process: `os.Getenv`; `ioutil.ReadFile` (data and
error message, `none` for a nil error); the value `json.Unmarshal` leaves in
the `Config` when the input is valid; and the text of its error. Whether
`json.Unmarshal` returns an error is not a parameter: see `unmarshalFails`. -/
structure Env where
  Getenv : String → String
  ReadFile : String → List UInt8 × Option String
  Stored : List UInt8 → Config → Config
  ErrorText : List UInt8 → String

/-- Go: `json.Unmarshal(data, &config)`: the updated value and the error
message (`none` for nil). Input that is not valid leaves the value untouched. -/
def Unmarshal (env : Env) (data : List UInt8) (config : Config) : Config × Option String :=
  if !checkValid (data.map UInt8.toNat) then (config, some (env.ErrorText data))
  else if unmarshalFails data then (env.Stored data config, some (env.ErrorText data))
  else (env.Stored data config, none)

/-- Go: `loadConfig` (lines 41-53); the global `config` is passed in and
returned, the error is its message (`none` for nil). -/
def loadConfig (env : Env) (filename : String) (config : Config) : Config × Option String :=
  match env.ReadFile filename with
  | (_, some err) => (config, some ("failed to read config file: " ++ err))
  | (data, none) =>
    match Unmarshal env data config with
    | (config1, some err) => (config1, some ("failed to parse config file: " ++ err))
    | (config1, none) => (config1, none)

/-- How `main` ends before it blocks in `http.ListenAndServe`. -/
inductive Startup where
  /-- The call `log.Fatalf`: the process exits with status 1. -/
  | fatal (s : World)
  /-- An unrecovered panic in `main`. -/
  | panicked (p : Panic)
  /-- The call `http.ListenAndServe(addr, nil)` is reached. -/
  | listening (addr : String) (mux : Mux) (s : World)

/-- Go: `main` (lines 89-130), up to the call of `http.ListenAndServe`, with the
classic multiplexer when `use121` holds and with the pattern multiplexer
otherwise. -/
def main (use121 : Bool) (env : Env) (s : World) : Startup :=
  let configFile := if env.Getenv "CONFIG_FILE" = "" then "config.json" else env.Getenv "CONFIG_FILE"
  let s1 := s.Printf "Loading configuration from: %s" [LogArg.str configFile]
  match loadConfig env configFile Config.zero with
  | (config, some err) =>
    Startup.fatal ({ s1 with config := config }.Printf "Failed to load configuration: %v"
      [LogArg.str err])
  | (config, none) =>
    let port0 := if env.Getenv "PORT" = "" then config.Server.Port else env.Getenv "PORT"
    let port := if port0 = "" then "8080" else port0
    match registerWith use121 config { s1 with config := config } with
    | Except.error p => Startup.panicked p
    | Except.ok (mux, s2) =>
      let addr := ":" ++ port
      let s3 := s2.Printf "\nServer starting on http://localhost%s" [LogArg.str addr]
      let s4 := s3.Printf "Total endpoints configured: %d" [LogArg.int config.Endpoints.length]
      let s5 := s4.Printf "Press Ctrl+C to stop\n" []
      Startup.listening addr mux s5

/-- An environment without overrides whose configuration file holds the text,
written in ASCII, and decodes to `config`. -/
def envOf (text : String) (config : Config) : Env :=
  { Getenv := fun _ => ""
    ReadFile := fun _ => (asciiBytes text, none)
    Stored := fun _ _ => config
    ErrorText := fun _ => "" }

/-- An environment whose configuration file cannot be read. -/
def envUnreadable : Env :=
  { Getenv := fun _ => ""
    ReadFile := fun _ => ([], some "open config.json: no such file or directory")
    Stored := fun _ config => config
    ErrorText := fun _ => "" }

/-- The configuration file of the specification's scenario. -/
def textHealth : String :=
  "\x7b\"endpoints\": [\x7b\"path\": \"/health\", \"method\": \"GET\", \"response\": \x7b\"status\": 200, \"body\": \x7b\"ok\": true\x7d\x7d\x7d]\x7d"

/-- A configuration file whose endpoint has no path. -/
def textNoPath : String :=
  "\x7b\"endpoints\": [\x7b\"method\": \"GET\", \"response\": \x7b\"status\": 200, \"body\": \x7b\x7d\x7d\x7d]\x7d"

/-- A configuration file whose endpoint is declared at the root path. -/
def textRoot : String :=
  "\x7b\"endpoints\": [\x7b\"path\": \"/\", \"method\": \"GET\", \"response\": \x7b\"status\": 200, \"body\": \x7b\"ok\": true\x7d\x7d\x7d]\x7d"

/-- A configuration file with two endpoints on the path `/users`. -/
def textUsers : String :=
  "\x7b\"endpoints\": [\x7b\"path\": \"/users\", \"method\": \"GET\", \"response\": \x7b\"status\": 200, \"body\": \x7b\"users\": []\x7d\x7d\x7d, \x7b\"path\": \"/users\", \"method\": \"POST\", \"response\": \x7b\"status\": 201, \"body\": \x7b\"created\": true\x7d\x7d\x7d]\x7d"

/-- A configuration file whose endpoint path has a space. -/
def textSpace : String :=
  "\x7b\"endpoints\": [\x7b\"path\": \"/hello world\", \"method\": \"GET\", \"response\": \x7b\"status\": 200, \"body\": \x7b\"ok\": true\x7d\x7d\x7d]\x7d"

/-- A configuration file whose `endpoints` is `null`. -/
def textNullEndpoints : String :=
  "\x7b\"endpoints\": null\x7d"

/-- A configuration file whose endpoint has the status `null`. -/
def textNullStatus : String :=
  "\x7b\"endpoints\": [\x7b\"path\": \"/x\", \"method\": \"GET\", \"response\": \x7b\"status\": null\x7d\x7d]\x7d"

/-- A configuration file with a number too large for `float64` in a body. -/
def textHugeNumber : String :=
  "\x7b\"endpoints\": [\x7b\"path\": \"/x\", \"method\": \"GET\", \"response\": \x7b\"status\": 200, \"body\": \x7b\"n\": 1e999\x7d\x7d\x7d]\x7d"

/-- The endpoint `GET /x` whose status was `null` in the file, hence 0. -/
def epNullStatus : Endpoint :=
  { Path := "/x", Method := "GET", Response := { Status := 0, Body := none } }

/-! ## Handler lemmas -/

theorem writeJson_ok (hd : Bool) (code : Int) (doc : Json) (h1 : 100 ≤ code) (h2 : code ≤ 999) :
    (({ ResponseWriter.fresh with head := hd }.headerSet "Content-Type"
        "application/json").WriteHeader code).andThen
        (fun w => HandlerResult.returned (w.Encode doc))
      = HandlerResult.returned (written hd code doc) := by
  have h : ¬ (code < 100 ∨ code > 999) := by omega
  by_cases hi : 100 ≤ code ∧ code ≤ 199 ∧ code ≠ 101
  · simp [ResponseWriter.WriteHeader, ResponseWriter.headerSet, ResponseWriter.fresh, h, hi,
      HandlerResult.andThen, ResponseWriter.Encode, ResponseWriter.Write, written, jsonHeader]
  · simp [ResponseWriter.WriteHeader, ResponseWriter.headerSet, ResponseWriter.fresh, h, hi,
      HandlerResult.andThen, ResponseWriter.Encode, ResponseWriter.Write, written, jsonHeader]

theorem writeJson_panic (hd : Bool) (code : Int) (doc : Json) (h : code < 100 ∨ code > 999) :
    (({ ResponseWriter.fresh with head := hd }.headerSet "Content-Type"
        "application/json").WriteHeader code).andThen
        (fun w => HandlerResult.returned (w.Encode doc))
      = HandlerResult.panicked (Panic.invalidWriteHeaderCode code)
          ({ ResponseWriter.fresh with head := hd }.headerSet "Content-Type"
            "application/json") := by
  simp [ResponseWriter.WriteHeader, ResponseWriter.headerSet, ResponseWriter.fresh, h,
    HandlerResult.andThen]

theorem written_plain (status : Int) (doc : Json) (h1 : 200 ≤ status) (h2 : status ≠ 204)
    (h3 : status ≠ 304) : written false status doc = jsonResponse status doc := by
  have hi : ¬ (100 ≤ status ∧ status ≤ 199 ∧ status ≠ 101) := by omega
  have hb : bodyAllowedForStatus status = true := by
    simp only [bodyAllowedForStatus, Bool.not_eq_true', Bool.or_eq_false_iff,
      Bool.and_eq_false_iff, decide_eq_false_iff_not, beq_eq_false_iff_ne, ne_eq]
    exact ⟨⟨Or.inr (by omega), h2⟩, h3⟩
  simp [written, jsonResponse, hi, hb]

theorem fresh_head_false : { ResponseWriter.fresh with head := false } = ResponseWriter.fresh :=
  rfl

theorem notFoundHandler_head (hd : Bool) (r : Request) (s : World) :
    notFoundHandler { ResponseWriter.fresh with head := hd } r s
      = (HandlerResult.returned (written hd 404 notFoundDoc), s) := by
  unfold notFoundHandler
  simp only [StatusNotFound]
  rw [writeJson_ok hd 404 _ (by decide) (by decide)]
  rfl

theorem createConfiguredHandler_head (e : Endpoint) (hd : Bool) (r : Request) (s : World) :
    createConfiguredHandler e { ResponseWriter.fresh with head := hd } r s =
      (if r.Method ≠ e.Method then
        HandlerResult.returned (written hd 405 methodNotAllowedDoc)
      else if 100 ≤ e.Response.Status ∧ e.Response.Status ≤ 999 then
        HandlerResult.returned (written hd e.Response.Status (bodyToJson e.Response.Body))
      else
        HandlerResult.panicked (Panic.invalidWriteHeaderCode e.Response.Status)
          ({ ResponseWriter.fresh with head := hd }.headerSet "Content-Type"
            "application/json"), s) := by
  unfold createConfiguredHandler
  by_cases hm : r.Method ≠ e.Method
  · simp only [hm, ne_eq, not_false_eq_true, if_true, StatusMethodNotAllowed]
    rw [writeJson_ok hd 405 _ (by decide) (by decide)]
    rfl
  · simp only [hm, if_false]
    by_cases hs : 100 ≤ e.Response.Status ∧ e.Response.Status ≤ 999
    · rw [writeJson_ok hd _ _ hs.1 hs.2, if_pos hs]
    · rw [writeJson_panic hd _ _ (by omega), if_neg hs]

theorem loggingMiddleware_fst (next : HandlerFunc) (w : ResponseWriter) (r : Request) (s : World) :
    (loggingMiddleware next w r s).1
      = (next w r (s.now.2.Printf "%s %s" [LogArg.str r.Method, LogArg.str r.Path])).1 := by
  unfold loggingMiddleware
  simp only
  generalize next w r (s.now.2.Printf "%s %s" [LogArg.str r.Method, LogArg.str r.Path]) = res
  rcases res with ⟨res1 | res1, s2⟩ <;> rfl

theorem splitSlash_ne_nil (l : List Char) : splitSlash l ≠ [] := by
  cases l with
  | nil => simp [splitSlash]
  | cons c cs =>
    unfold splitSlash
    split
    · simp
    · split <;> simp

theorem joinSlash_cons (piece : List Char) (rest : List (List Char)) (h : rest ≠ []) :
    joinSlash (piece :: rest) = piece ++ '/' :: joinSlash rest := by
  cases rest with
  | nil => exact absurd rfl h
  | cons next others => rfl

theorem joinSlash_splitSlash (l : List Char) : joinSlash (splitSlash l) = l := by
  induction l with
  | nil => rfl
  | cons c cs ih =>
    unfold splitSlash
    by_cases hc : c = '/'
    · rw [if_pos hc, joinSlash_cons _ _ (splitSlash_ne_nil cs), ih, hc]
      rfl
    · rw [if_neg hc]
      cases hs : splitSlash cs with
      | nil => exact absurd hs (splitSlash_ne_nil cs)
      | cons first others =>
        rw [hs] at ih
        simp only
        cases others with
        | nil =>
          simp only [joinSlash] at ih ⊢
          rw [ih]
        | cons next rest =>
          simp only [joinSlash] at ih ⊢
          rw [← ih]
          rfl

theorem splitSlash_injective (a b : List Char) (h : splitSlash a = splitSlash b) : a = b := by
  rw [← joinSlash_splitSlash a, ← joinSlash_splitSlash b, h]

theorem mem_piece_splitSlash (l : List Char) :
    ∀ piece ∈ splitSlash l, ∀ c ∈ piece, c ∈ l ∧ c ≠ '/' := by
  induction l with
  | nil =>
    intro piece hp c hc
    simp [splitSlash] at hp
    subst hp
    cases hc
  | cons d ds ih =>
    intro piece hp c hc
    unfold splitSlash at hp
    by_cases hd : d = '/'
    · rw [if_pos hd] at hp
      rcases List.mem_cons.1 hp with rfl | hp
      · cases hc
      · exact ⟨List.mem_cons_of_mem _ (ih piece hp c hc).1, (ih piece hp c hc).2⟩
    · rw [if_neg hd] at hp
      cases hs : splitSlash ds with
      | nil => exact absurd hs (splitSlash_ne_nil ds)
      | cons first others =>
        rw [hs] at hp ih
        simp only at hp
        rcases List.mem_cons.1 hp with rfl | hp
        · rcases List.mem_cons.1 hc with rfl | hc
          · exact ⟨List.mem_cons_self _ _, hd⟩
          · exact ⟨List.mem_cons_of_mem _ (ih first (List.mem_cons_self _ _) c hc).1,
              (ih first (List.mem_cons_self _ _) c hc).2⟩
        · exact ⟨List.mem_cons_of_mem _ (ih piece (List.mem_cons_of_mem _ hp) c hc).1,
            (ih piece (List.mem_cons_of_mem _ hp) c hc).2⟩

theorem joinSlash_append (a b : List (List Char)) (ha : a ≠ []) (hb : b ≠ []) :
    joinSlash (a ++ b) = joinSlash a ++ '/' :: joinSlash b := by
  induction a with
  | nil => exact absurd rfl ha
  | cons x xs ih =>
    cases xs with
    | nil =>
      simp only [List.singleton_append, joinSlash]
      exact joinSlash_cons x b hb
    | cons y ys =>
      have h1 : (x :: y :: ys) ++ b = x :: ((y :: ys) ++ b) := rfl
      rw [h1, joinSlash_cons _ _ (by simp), ih (by simp)]
      simp [joinSlash]

/-! ## Lemmas on the routing tree -/

theorem mem_childCands (k : String) (cands : List cand) (c : cand) :
    c ∈ childCands k cands ↔
      ∃ c0 ∈ cands, c0.keys = k :: c.keys ∧ c0.multi = c.multi ∧ c0.pat = c.pat ∧
        c0.entry = c.entry := by
  unfold childCands
  rw [List.mem_filterMap]
  constructor
  · rintro ⟨c0, hc0, h⟩
    refine ⟨c0, hc0, ?_⟩
    cases hk : c0.keys with
    | nil => rw [hk] at h; cases h
    | cons k1 ks =>
      rw [hk] at h
      simp only at h
      split at h
      · rename_i hk1
        simp only [Option.some.injEq] at h
        subst h
        simp [hk1]
      · cases h
  · rintro ⟨c0, hc0, h1, h2, h3, h4⟩
    refine ⟨c0, hc0, ?_⟩
    rw [h1]
    simp only [if_true]
    cases c
    cases c0
    simp_all

theorem matchPath_nil (segs : List String) : matchPath [] segs = none := by
  induction segs with
  | nil => rfl
  | cons seg rest ih =>
    unfold matchPath
    have h : ∀ k, childCands k [] = [] := fun k => rfl
    simp [h, ih]

theorem childCands_empty_key (cands : List cand) (h : ∀ c ∈ cands, "" ∉ c.keys) :
    childCands "" cands = [] := by
  rw [List.eq_nil_iff_forall_not_mem]
  intro c hc
  obtain ⟨c0, hc0, hk, -⟩ := (mem_childCands "" cands c).1 hc
  exact h c0 hc0 (by rw [hk]; exact List.mem_cons_self _ _)

theorem childCands_noEmpty (k : String) (cands : List cand) (h : ∀ c ∈ cands, "" ∉ c.keys) :
    ∀ c ∈ childCands k cands, "" ∉ c.keys := by
  intro c hc hmem
  obtain ⟨c0, hc0, hk, -⟩ := (mem_childCands k cands c).1 hc
  exact h c0 hc0 (by rw [hk]; exact List.mem_cons_of_mem _ hmem)

theorem matchPath_complete (segs : List String) :
    ∀ (cands : List cand) (c0 : cand), c0 ∈ cands → Fits c0.keys c0.multi segs →
      matchPath cands segs ≠ none := by
  induction segs with
  | nil =>
    intro cands c0 hc0 hfit
    unfold matchPath
    rcases hfit with ⟨hm, hk⟩ | ⟨_, rest, hrest, hk⟩
    · intro hnone
      have := List.find?_eq_none.1 hnone c0 hc0
      simp [hm, hk] at this
    · exfalso
      have hlen := congrArg List.length hk
      simp only [List.length_nil, List.length_append] at hlen
      have : rest.length ≠ 0 := fun h0 => hrest (List.length_eq_zero.1 h0)
      omega
  | cons seg rest ih =>
    intro cands c0 hc0 hfit
    unfold matchPath
    cases hkeys : c0.keys with
    | cons k ks =>
      have hk : k = seg ∧ Fits ks c0.multi rest := by
        rcases hfit with ⟨hm, hk⟩ | ⟨hm, r, hr, hk⟩
        · rw [hkeys] at hk
          simp only [List.cons.injEq] at hk
          exact ⟨hk.1, Or.inl ⟨hm, hk.2⟩⟩
        · rw [hkeys] at hk
          simp only [List.cons_append, List.cons.injEq] at hk
          exact ⟨hk.1.symm, Or.inr ⟨hm, r, hr, hk.2⟩⟩
      have hchild : ({ c0 with keys := ks } : cand) ∈ childCands seg cands :=
        (mem_childCands seg cands _).2 ⟨c0, hc0, by rw [hkeys, hk.1], rfl, rfl, rfl⟩
      have := ih (childCands seg cands) _ hchild hk.2
      cases hlit : matchPath (childCands seg cands) rest with
      | none => exact absurd hlit this
      | some c => simp
    | nil =>
      have hm : c0.multi = true := by
        rcases hfit with ⟨_, hk⟩ | ⟨hm, _⟩
        · rw [hkeys] at hk; cases hk
        · exact hm
      cases matchPath (childCands seg cands) rest with
      | some c => simp
      | none =>
        simp only
        split
        · simp
        · intro hnone
          have := List.find?_eq_none.1 hnone c0 hc0
          simp [hm, hkeys] at this

theorem fits_cons (k : String) (ks : List String) (multi : Bool) (seg : String)
    (rest : List String) (h : Fits (k :: ks) multi (seg :: rest)) :
    k = seg ∧ Fits ks multi rest := by
  rcases h with ⟨hm, hk⟩ | ⟨hm, r, hr, hk⟩
  · simp only [List.cons.injEq] at hk
    exact ⟨hk.1, Or.inl ⟨hm, hk.2⟩⟩
  · simp only [List.cons_append, List.cons.injEq] at hk
    exact ⟨hk.1.symm, Or.inr ⟨hm, r, hr, hk.2⟩⟩

theorem fits_cons_of (k : String) (ks : List String) (multi : Bool) (rest : List String)
    (h : Fits ks multi rest) : Fits (k :: ks) multi (k :: rest) := by
  rcases h with ⟨hm, hk⟩ | ⟨hm, r, hr, hk⟩
  · exact Or.inl ⟨hm, by rw [hk]⟩
  · exact Or.inr ⟨hm, r, hr, by rw [hk]; rfl⟩

theorem matchPath_sound (segs : List String) :
    ∀ (cands : List cand) (c : cand), (∀ c ∈ cands, "" ∉ c.keys) →
      matchPath cands segs = some c →
      ∃ c0 ∈ cands, c0.pat = c.pat ∧ c0.entry = c.entry ∧ Fits c0.keys c0.multi segs ∧
        ∀ c1 ∈ cands, Fits c1.keys c1.multi segs → c1.keys.length ≤ c0.keys.length := by
  induction segs with
  | nil =>
    intro cands c _ h
    unfold matchPath at h
    have hmem := List.mem_of_find?_eq_some h
    have hp := List.find?_some h
    simp only [Bool.not_eq_true', decide_eq_true_eq] at hp
    refine ⟨c, hmem, rfl, rfl, Or.inl ⟨hp.2, hp.1⟩, ?_⟩
    intro c1 _ hfit
    rcases hfit with ⟨_, hk⟩ | ⟨_, r, hr, hk⟩
    · rw [hk]; simp
    · exfalso
      have hlen := congrArg List.length hk
      simp only [List.length_nil, List.length_append] at hlen
      have : r.length ≠ 0 := fun h0 => hr (List.length_eq_zero.1 h0)
      omega
  | cons seg rest ih =>
    intro cands c hne h
    unfold matchPath at h
    cases hlit : matchPath (childCands seg cands) rest with
    | some c2 =>
      rw [hlit] at h
      simp only [Option.some.injEq] at h
      subst h
      obtain ⟨c0', hc0', hpat, hentry, hfit, hbest⟩ :=
        ih (childCands seg cands) c2 (childCands_noEmpty seg cands hne) hlit
      obtain ⟨c0, hc0, hk, hm, hp, he⟩ := (mem_childCands seg cands c0').1 hc0'
      refine ⟨c0, hc0, hp.trans hpat, he.trans hentry, ?_, ?_⟩
      · rw [hk, hm]
        exact fits_cons_of seg _ _ _ hfit
      · intro c1 hc1 hfit1
        cases hk1 : c1.keys with
        | nil => simp
        | cons k ks =>
          rw [hk1] at hfit1
          obtain ⟨hkseg, hfit2⟩ := fits_cons k ks c1.multi seg rest hfit1
          have hchild : ({ c1 with keys := ks } : cand) ∈ childCands seg cands :=
            (mem_childCands seg cands _).2 ⟨c1, hc1, by rw [hk1, hkseg], rfl, rfl, rfl⟩
          have := hbest _ hchild hfit2
          rw [hk]
          simp only [List.length_cons]
          simp only at this
          omega
    | none =>
      rw [hlit] at h
      simp only [childCands_empty_key cands hne, matchPath_nil, ite_self] at h
      have hmem := List.mem_of_find?_eq_some h
      have hp := List.find?_some h
      simp only [decide_eq_true_eq] at hp
      refine ⟨c, hmem, rfl, rfl, Or.inr ⟨hp.2, seg :: rest, by simp, by rw [hp.1]; rfl⟩, ?_⟩
      intro c1 hc1 hfit1
      cases hk1 : c1.keys with
      | nil => simp
      | cons k ks =>
        exfalso
        rw [hk1] at hfit1
        obtain ⟨hkseg, hfit2⟩ := fits_cons k ks c1.multi seg rest hfit1
        have hchild : ({ c1 with keys := ks } : cand) ∈ childCands seg cands :=
          (mem_childCands seg cands _).2 ⟨c1, hc1, by rw [hk1, hkseg], rfl, rfl, rfl⟩
        exact matchPath_complete rest _ _ hchild hfit2 hlit

/-! ## Plain patterns in the pattern multiplexer -/

theorem cutAt_none (p : Char → Bool) (l : List Char) (h : ∀ c ∈ l, p c = false) :
    cutAt p l = none := by
  induction l with
  | nil => rfl
  | cons c cs ih =>
    unfold cutAt
    rw [h c (List.mem_cons_self _ _)]
    simp [ih (fun d hd => h d (List.mem_cons_of_mem _ hd))]

theorem pathUnescape_plain (s : List Char) (h : ∀ c ∈ s, c ≠ '%') : pathUnescape s = s := by
  unfold pathUnescape
  have : s.contains '%' = false := by
    rw [Bool.eq_false_iff]
    intro hc
    rw [List.contains_iff_exists_mem_beq] at hc
    obtain ⟨c, hc1, hc2⟩ := hc
    exact h c hc1 (by have h2 := hc2; simp at h2; exact h2.symm)
  simp only [this, Bool.not_false, if_true]

theorem parseSegment_plain (seen : List (List Char)) (piece : List Char) (last : Bool)
    (h : ∀ c ∈ piece, c ≠ '{' ∧ c ≠ '%') :
    parseSegment seen piece last
      = some ({ s := String.mk piece, wild := false, multi := false }, seen) := by
  unfold parseSegment
  rw [cutAt_none _ piece (fun c hc => by simpa using (h c hc).1),
    pathUnescape_plain piece (fun c hc => (h c hc).2)]

theorem parseSegments_plain (pieces : List (List Char)) :
    ∀ seen, (∀ piece ∈ pieces, ∀ c ∈ piece, c ≠ '{' ∧ c ≠ '%') →
      parseSegments seen pieces = some (pieceSegments pieces) := by
  induction pieces with
  | nil => intro seen _; rfl
  | cons piece rest ih =>
    intro seen h
    cases rest with
    | nil =>
      unfold parseSegments pieceSegments
      by_cases hp : piece = []
      · simp [hp]
      · simp only [hp, if_false]
        rw [parseSegment_plain seen piece true (h piece (List.mem_cons_self _ _))]
        rfl
    | cons next others =>
      unfold parseSegments pieceSegments
      rw [parseSegment_plain seen piece false (h piece (List.mem_cons_self _ _))]
      simp only
      rw [ih seen (fun q hq => h q (List.mem_cons_of_mem _ hq))]
      rfl

theorem rooted_data (p : String) (h : Rooted p) : p.data = '/' :: p.data.tail := by
  unfold Rooted at h
  cases hd : p.data with
  | nil => rw [hd] at h; cases h
  | cons c cs =>
    rw [hd] at h
    simp only [List.head?_cons, Option.some.injEq] at h
    rw [h]
    rfl

theorem parsePattern_plain (p : String) (h : PlainPath p) :
    parsePattern p = some (pattern.mk p "" "" (pieceSegments (splitSlash p.data.tail))) := by
  obtain ⟨hroot, hchars, _⟩ := h
  have hd := rooted_data p hroot
  have hne : p.data ≠ [] := by rw [hd]; simp
  have hsplit : cutAt (fun c => decide (c = ' ' ∨ c = '\t')) p.data = none :=
    cutAt_none _ _ (fun c hc => by
      have := hchars c hc
      simp [this.1, this.2.1])
  have hslash : cutAt (fun c => decide (c = '/')) p.data = some ([], p.data) := by
    rw [hd]
    simp [cutAt]
  have hsegs : parseSegments [] (splitSlash p.data.tail)
      = some (pieceSegments (splitSlash p.data.tail)) := by
    apply parseSegments_plain
    intro piece hpiece c hc
    have hmem := (mem_piece_splitSlash _ piece hpiece c hc).1
    have := hchars c (by rw [hd]; exact List.mem_cons_of_mem _ hmem)
    exact ⟨this.2.2.1, this.2.2.2⟩
  unfold parsePattern
  simp only [hne, if_false, hsplit, hslash, ne_eq, not_true_eq_false, false_and,
    List.contains_nil, Bool.false_eq_true, hsegs]

theorem keys_pieceSegments (str : String) (pieces : List (List Char)) :
    (pattern.mk str "" "" (pieceSegments pieces)).keys = plainKeys pieces := by
  unfold pattern.keys plainKeys
  simp only
  induction pieces with
  | nil => rfl
  | cons piece rest ih =>
    cases rest with
    | nil =>
      unfold pieceSegments
      by_cases hp : piece = []
      · simp [hp]
      · simp [hp, segment.key]
    | cons next others =>
      unfold pieceSegments
      simp only [List.filter_cons, Bool.not_false, if_true, List.map_cons, segment.key,
        Bool.false_eq_true, if_false]
      rw [ih]
      simp only [List.getLast?_cons_cons, List.dropLast_cons₂]
      split <;> simp

theorem lastIsMulti_pieceSegments (pieces : List (List Char)) (h : pieces ≠ []) :
    lastIsMulti (pieceSegments pieces) = decide (pieces.getLast? = some []) := by
  induction pieces with
  | nil => exact absurd rfl h
  | cons piece rest ih =>
    cases rest with
    | nil =>
      unfold pieceSegments lastIsMulti
      by_cases hp : piece = []
      · simp [hp]
      · simp [hp]
    | cons next others =>
      have h1 := ih (by simp)
      unfold pieceSegments
      unfold lastIsMulti at h1 ⊢
      rw [List.getLast?_cons_cons]
      cases hs : pieceSegments (next :: others) with
      | nil =>
        exfalso
        cases others <;> simp [pieceSegments] at hs
        split at hs <;> simp at hs
      | cons a as =>
        rw [hs] at h1
        rw [List.getLast?_cons_cons]
        exact h1

theorem pathSegments_plain (x : String) (hroot : Rooted x) (h : ∀ c ∈ x.data, c ≠ '%') :
    pathSegments x.data = plainSegs (splitSlash x.data.tail) := by
  have hd := rooted_data x hroot
  have hun : ∀ piece ∈ splitSlash x.data.tail, pathUnescape piece = piece := by
    intro piece hp
    apply pathUnescape_plain
    intro c hc
    exact h c (by rw [hd]; exact List.mem_cons_of_mem _ (mem_piece_splitSlash _ piece hp c hc).1)
  rw [hd]
  simp only [List.tail_cons]
  cases htl : x.data.tail with
  | nil => rfl
  | cons d ds =>
    rw [htl] at hun
    unfold pathSegments plainSegs
    simp only
    congr 1
    · apply List.map_congr_left
      intro piece hp
      rw [hun piece (List.mem_of_mem_dropLast hp)]
    · cases hl : (splitSlash (d :: ds)).getLast? with
      | none => rfl
      | some piece =>
        cases piece with
        | nil => rfl
        | cons a as =>
          simp only
          rw [hun (a :: as) (List.mem_of_getLast?_eq_some hl)]

theorem pieces_split (pieces : List (List Char)) (h : pieces ≠ []) :
    ∃ last, pieces.getLast? = some last ∧ pieces = pieces.dropLast ++ [last] := by
  cases hl : pieces.getLast? with
  | none => exact absurd (List.getLast?_eq_none_iff.1 hl) h
  | some last => exact ⟨last, rfl, (List.dropLast_append_getLast? last hl).symm⟩

theorem map_mk_injective (a b : List (List Char)) (h : a.map String.mk = b.map String.mk) :
    a = b := by
  induction a generalizing b with
  | nil => cases b <;> simp_all
  | cons x xs ih =>
    cases b with
    | nil => simp at h
    | cons y ys =>
      simp only [List.map_cons, List.cons.injEq] at h
      have h1 : x = y := congrArg String.data h.1
      rw [h1, ih ys h.2]

theorem fits_self (pieces : List (List Char)) (h : pieces ≠ []) :
    Fits (plainKeys pieces) (decide (pieces.getLast? = some [])) (plainSegs pieces) := by
  obtain ⟨last, hl, hsplit⟩ := pieces_split pieces h
  unfold plainKeys plainSegs
  rw [hl]
  cases last with
  | nil =>
    right
    exact ⟨by simp, ["/"], by simp, by simp⟩
  | cons a as =>
    left
    refine ⟨by simp, ?_⟩
    simp only [Option.some.injEq, reduceCtorEq, if_false]
    conv => lhs; rw [hsplit]
    simp

theorem fits_pieces (P X : List (List Char)) (hP : P ≠ []) (hX : X ≠ [])
    (hslash : ∀ piece ∈ P, piece ≠ ['/'])
    (h : Fits (plainKeys P) (decide (P.getLast? = some [])) (plainSegs X)) :
    P = X ∨ (P.getLast? = some [] ∧ ∃ R, R ≠ [] ∧ X = P.dropLast ++ R) := by
  obtain ⟨lastP, hlP, hsP⟩ := pieces_split P hP
  obtain ⟨lastX, hlX, hsX⟩ := pieces_split X hX
  have hsegs : ∃ z, plainSegs X = X.dropLast.map String.mk ++ [z] ∧
      (z = String.mk lastX ∨ (lastX = [] ∧ z = "/")) := by
    unfold plainSegs
    rw [hlX]
    cases lastX with
    | nil => exact ⟨"/", rfl, Or.inr ⟨rfl, rfl⟩⟩
    | cons a as => exact ⟨_, rfl, Or.inl rfl⟩
  obtain ⟨z, hz, hzcase⟩ := hsegs
  rcases h with ⟨hm, hk⟩ | ⟨hm, R, hR, hk⟩
  · left
    have hnm : P.getLast? ≠ some [] := by simpa using hm
    unfold plainKeys at hk
    rw [if_neg hnm, hz] at hk
    rcases hzcase with hz1 | ⟨_, hz2⟩
    · rw [hz1] at hk
      have : P.map String.mk = (X.dropLast ++ [lastX]).map String.mk := by
        rw [hk]; simp
      rw [← hsX] at this
      exact map_mk_injective _ _ this
    · exfalso
      rw [hz2, hsP] at hk
      simp only [List.map_append, List.map_cons, List.map_nil] at hk
      have := List.append_inj' hk rfl
      simp only [List.cons.injEq, and_true] at this
      have hlast : lastP = ['/'] := by
        have h2 := this.2
        rw [String.ext_iff] at h2
        exact h2
      exact hslash lastP (by rw [hsP]; simp) hlast
  · right
    have hmul : P.getLast? = some [] := by simpa using hm
    refine ⟨hmul, ?_⟩
    unfold plainKeys at hk
    rw [if_pos hmul, hz] at hk
    -- the keys are a leading part of the pieces of the path before its last one
    obtain ⟨R0, hR0⟩ : ∃ R0, R = R0 ++ [z] := by
      obtain ⟨lastR, _, hsR⟩ : ∃ lastR, R.getLast? = some lastR ∧ R = R.dropLast ++ [lastR] := by
        cases hl : R.getLast? with
        | none => exact absurd (List.getLast?_eq_none_iff.1 hl) hR
        | some lastR => exact ⟨lastR, rfl, (List.dropLast_append_getLast? lastR hl).symm⟩
      refine ⟨R.dropLast, ?_⟩
      rw [hsR, ← List.append_assoc] at hk
      have := List.append_inj' hk rfl
      simp only [List.cons.injEq, and_true] at this
      rw [this.2]
      exact hsR
    rw [hR0, ← List.append_assoc] at hk
    have hpre := (List.append_inj' hk rfl).1
    -- split the pieces of the path accordingly
    have hlen : P.dropLast.length ≤ X.dropLast.length := by
      have := congrArg List.length hpre
      simp only [List.length_map, List.length_append] at this
      omega
    refine ⟨X.dropLast.drop P.dropLast.length ++ [lastX], by simp, ?_⟩
    have htake : X.dropLast.take P.dropLast.length = P.dropLast := by
      apply map_mk_injective
      rw [List.map_take, hpre, List.take_append_of_le_length (by simp)]
      simp
    have hX0 : X.dropLast = P.dropLast ++ X.dropLast.drop P.dropLast.length := by
      conv => lhs; rw [← List.take_append_drop P.dropLast.length X.dropLast, htake]
    conv => lhs; rw [hsX, hX0]
    rw [List.append_assoc]

theorem rooted_eq_of_pieces (p x : String) (hp : Rooted p) (hx : Rooted x)
    (h : splitSlash p.data.tail = splitSlash x.data.tail) : p = x := by
  apply String.ext
  rw [rooted_data p hp, rooted_data x hx, splitSlash_injective _ _ h]

theorem subtree_of_pieces (p x : String) (hp : Rooted p) (hx : Rooted x)
    (hlast : (splitSlash p.data.tail).getLast? = some [])
    (R : List (List Char)) (hR : R ≠ [])
    (h : splitSlash x.data.tail = (splitSlash p.data.tail).dropLast ++ R) :
    EndsInSlash p ∧ startsWith x p = true := by
  have hP := (List.dropLast_append_getLast? [] hlast).symm
  have hpd : p.data = '/' :: joinSlash (splitSlash p.data.tail) := by
    rw [joinSlash_splitSlash]; exact rooted_data p hp
  have hxd : x.data = '/' :: joinSlash (splitSlash x.data.tail) := by
    rw [joinSlash_splitSlash]; exact rooted_data x hx
  rw [h] at hxd
  rw [hP] at hpd
  unfold EndsInSlash startsWith
  rw [List.isPrefixOf_iff_prefix]
  cases hP0 : (splitSlash p.data.tail).dropLast with
  | nil =>
    rw [hP0] at hpd hxd
    simp only [List.nil_append, joinSlash] at hpd hxd
    rw [hpd, hxd]
    exact ⟨rfl, ⟨joinSlash R, rfl⟩⟩
  | cons a as =>
    rw [hP0] at hpd hxd
    rw [joinSlash_append _ _ (by simp) (by simp)] at hpd
    rw [joinSlash_append _ _ (by simp) hR] at hxd
    have hj : joinSlash [([] : List Char)] = [] := rfl
    rw [hj] at hpd
    rw [hpd, hxd]
    refine ⟨?_, ⟨joinSlash R, ?_⟩⟩
    · have h1 : '/' :: (joinSlash (a :: as) ++ ['/']) = ('/' :: joinSlash (a :: as)) ++ ['/'] :=
        rfl
      rw [h1, List.getLast?_append]
      rfl
    · simp

theorem pieces_of_keys (P Q : List (List Char))
    (hk : plainKeys P = plainKeys Q)
    (hm : decide (P.getLast? = some []) = decide (Q.getLast? = some [])) : P = Q := by
  unfold plainKeys at hk
  by_cases hl : P.getLast? = some []
  · have hq : Q.getLast? = some [] := by simpa [hl] using hm
    rw [if_pos hl, if_pos hq] at hk
    rw [← List.dropLast_append_getLast? [] hl, ← List.dropLast_append_getLast? [] hq,
      map_mk_injective _ _ hk]
  · have hq : ¬ Q.getLast? = some [] := by simpa [hl] using hm
    rw [if_neg hl, if_neg hq] at hk
    exact map_mk_injective _ _ hk

theorem plainKeys_noEmpty (p : String) (h : PlainPath p) :
    "" ∉ plainKeys (splitSlash p.data.tail) := by
  obtain ⟨_, _, hne⟩ := h
  unfold plainKeys
  intro hmem
  obtain ⟨piece, hpiece, heq⟩ := List.mem_map.1 hmem
  have hnil : piece = [] := congrArg String.data heq
  subst hnil
  split at hpiece
  · exact hne hpiece
  · rename_i hl
    obtain ⟨last, hlast, hs⟩ := pieces_split _ (splitSlash_ne_nil p.data.tail)
    rw [hs] at hpiece
    rcases List.mem_append.1 hpiece with h1 | h1
    · exact hne h1
    · simp only [List.mem_singleton] at h1
      rw [← h1] at hlast
      exact hl hlast

theorem piece_ne_slash (l : List Char) : ∀ piece ∈ splitSlash l, piece ≠ ['/'] := by
  intro piece hp heq
  have := (mem_piece_splitSlash l piece hp '/' (by rw [heq]; simp)).2
  exact this rfl

/-! ## Conflicts between patterns -/

theorem pieceSegments_plainSegs (pieces : List (List Char)) :
    PlainSegs (pieceSegments pieces) := by
  induction pieces with
  | nil => exact PlainSegs.nil
  | cons piece rest ih =>
    cases rest with
    | nil =>
      unfold pieceSegments
      split
      · exact PlainSegs.multi
      · exact PlainSegs.lit _ _ PlainSegs.nil
    | cons next others =>
      unfold pieceSegments
      exact PlainSegs.lit _ _ ih

theorem pieceSegments_injective (P : List (List Char)) :
    ∀ Q, pieceSegments P = pieceSegments Q → P = Q := by
  induction P with
  | nil =>
    intro Q h
    cases Q with
    | nil => rfl
    | cons q qs =>
      cases qs with
      | nil => unfold pieceSegments at h; split at h <;> simp at h
      | cons q2 qs2 => simp [pieceSegments] at h
  | cons p ps ih =>
    intro Q h
    cases ps with
    | nil =>
      cases Q with
      | nil => unfold pieceSegments at h; split at h <;> simp at h
      | cons q qs =>
        cases qs with
        | nil =>
          unfold pieceSegments at h
          by_cases hp : p = [] <;> by_cases hq : q = [] <;> simp [hp, hq] at h ⊢
          · exact congrArg String.data h
        | cons q2 qs2 =>
          unfold pieceSegments at h
          by_cases hp : p = []
          · simp [hp] at h
          · simp only [hp, if_false, List.cons.injEq] at h
            exfalso
            have h2 := h.2
            cases qs2 with
            | nil => unfold pieceSegments at h2; split at h2 <;> simp at h2
            | cons q3 qs3 => simp [pieceSegments] at h2
    | cons p2 ps2 =>
      cases Q with
      | nil => simp [pieceSegments] at h
      | cons q qs =>
        cases qs with
        | nil =>
          unfold pieceSegments at h
          by_cases hq : q = []
          · simp [hq] at h
          · simp only [hq, if_false, List.cons.injEq] at h
            exfalso
            have h2 := h.2
            cases ps2 with
            | nil => unfold pieceSegments at h2; split at h2 <;> simp at h2
            | cons p3 ps3 => simp [pieceSegments] at h2
        | cons q2 qs2 =>
          unfold pieceSegments at h
          simp only [List.cons.injEq, segment.mk.injEq, and_true] at h
          have h1 : p = q := congrArg String.data h.1
          rw [h1, ih (q2 :: qs2) h.2]

theorem compareSegments_self (seg : segment) :
    compareSegments seg seg = relationship.equivalent := by
  unfold compareSegments
  cases hm : seg.multi <;> cases hw : seg.wild <;> simp

theorem compareLoop_self (m : Bool) (xs : List segment) :
    compareLoop m m relationship.equivalent xs xs = relationship.equivalent := by
  induction xs with
  | nil => rfl
  | cons a as ih =>
    unfold compareLoop
    simp only [compareSegments_self, combineRelationships]
    simp [ih]

theorem conflictsWith_self (p : pattern) : conflictsWith p p = true := by
  unfold conflictsWith comparePathsAndMethods compareMethods comparePaths
  simp [compareLoop_self, combineRelationships]

theorem compareLoop_plain (xs : List segment) (hx : PlainSegs xs) :
    ∀ (ys : List segment), PlainSegs ys → ∀ (m1 m2 : Bool),
      (compareLoop m1 m2 relationship.equivalent xs ys = relationship.equivalent ∨
        compareLoop m1 m2 relationship.equivalent xs ys = relationship.overlaps) →
      xs = ys := by
  induction hx with
  | nil =>
    intro ys hy m1 m2 h
    cases hy with
    | nil => rfl
    | multi => cases m1 <;> simp [compareLoop, combineRelationships] at h
    | lit t rest hrest => cases m1 <;> simp [compareLoop, combineRelationships] at h
  | multi =>
    intro ys hy m1 m2 h
    cases hy with
    | nil => cases m2 <;> simp [compareLoop, combineRelationships] at h
    | multi => rfl
    | lit t rest hrest =>
      exfalso
      cases rest with
      | nil =>
        simp [compareLoop, compareSegments, combineRelationships] at h
      | cons b bs =>
        cases m1 <;>
          simp [compareLoop, compareSegments, combineRelationships, inverseRelationship] at h
  | lit s rest hrest ih =>
    intro ys hy m1 m2 h
    cases hy with
    | nil => cases m2 <;> simp [compareLoop, combineRelationships] at h
    | multi =>
      exfalso
      cases rest with
      | nil =>
        simp [compareLoop, compareSegments, combineRelationships] at h
      | cons b bs =>
        cases m2 <;>
          simp [compareLoop, compareSegments, combineRelationships, inverseRelationship] at h
    | lit t rest2 hrest2 =>
      by_cases hst : s = t
      · subst hst
        have h2 : compareLoop m1 m2 relationship.equivalent
            ({ s := s, wild := false, multi := false } :: rest)
            ({ s := s, wild := false, multi := false } :: rest2)
            = compareLoop m1 m2 relationship.equivalent rest rest2 := by
          simp [compareLoop, compareSegments, combineRelationships]
        rw [h2] at h
        rw [ih rest2 hrest2 m1 m2 h]
      · exfalso
        simp [compareLoop, compareSegments, combineRelationships, hst] at h

theorem conflictsWith_plain (p q : String) (P Q : List (List Char))
    (h : conflictsWith (pattern.mk p "" "" (pieceSegments P))
      (pattern.mk q "" "" (pieceSegments Q)) = true) : P = Q := by
  unfold conflictsWith comparePathsAndMethods compareMethods comparePaths at h
  simp only [ne_eq, not_true_eq_false, if_false, if_true, combineRelationships,
    reduceCtorEq] at h
  apply pieceSegments_injective
  split at h
  · simp at h
  · apply compareLoop_plain _ (pieceSegments_plainSegs P) _ (pieceSegments_plainSegs Q) _ _
    simpa using h
/-! ## Registration lemmas -/

theorem Handle_ok_iff (mux mux1 : ServeMux) (pattern : String) (h : HandlerFunc) :
    mux.Handle pattern h = Except.ok mux1 ↔
      pattern ≠ "" ∧ mux.m.lookup pattern = none ∧
      mux1 = { m := (pattern, { h := h, pattern := pattern }) :: mux.m
               es := if pattern.data.getLast? = some '/'
                 then appendSorted mux.es { h := h, pattern := pattern } else mux.es
               hosts := mux.hosts || (pattern.data.head? != some '/') } := by
  unfold ServeMux.Handle
  by_cases h1 : pattern = ""
  · simp [h1]
  · cases h2 : mux.m.lookup pattern with
    | none =>
      simp only [h1, if_false, h2, Option.isSome_none, Bool.false_eq_true, ne_eq,
        not_false_eq_true, true_and, Except.ok.injEq]
      exact eq_comm
    | some v => simp [h1, h2]

theorem mem_appendSorted (es : List muxEntry) (e x : muxEntry) :
    x ∈ appendSorted es e ↔ x = e ∨ x ∈ es := by
  induction es with
  | nil => simp [appendSorted]
  | cons y rest ih =>
    unfold appendSorted
    split
    · simp
    · simp [ih]; tauto

/-- The slice `es` stays sorted from the longest pattern to the shortest, which
is what makes the linear insertion agree with the binary search of Go. -/
theorem appendSorted_sorted (es : List muxEntry) (e : muxEntry)
    (h : es.Pairwise (fun a b => b.pattern.utf8ByteSize ≤ a.pattern.utf8ByteSize)) :
    (appendSorted es e).Pairwise
      (fun a b => b.pattern.utf8ByteSize ≤ a.pattern.utf8ByteSize) := by
  induction es with
  | nil => simp [appendSorted]
  | cons x rest ih =>
    unfold appendSorted
    rw [List.pairwise_cons] at h
    split
    · rename_i hlt
      refine List.pairwise_cons.2 ⟨?_, List.pairwise_cons.2 h⟩
      intro y hy
      rcases List.mem_cons.1 hy with rfl | hy
      · omega
      · have := h.1 y hy
        omega
    · rename_i hge
      refine List.pairwise_cons.2 ⟨?_, ih h.2⟩
      intro y hy
      rcases (mem_appendSorted rest e y).1 hy with rfl | hy
      · omega
      · exact h.1 y hy

theorem lookup_cons_ne {β : Type} (k a : String) (b : β) (l : List (String × β)) (h : k ≠ a) :
    List.lookup k ((a, b) :: l) = List.lookup k l := by
  have hb : (k == a) = false := by simpa using h
  rw [List.lookup_cons, hb]

theorem registerEndpoints_ok (eps : List Endpoint) :
    ∀ (mux : ServeMux) (s : World) (mux1 : ServeMux) (s1 : World),
      registerEndpoints eps mux s = Except.ok (mux1, s1) →
      (∀ e ∈ eps, e.Path ≠ "" ∧ mux.m.lookup e.Path = none) ∧
      (eps.map (fun e => e.Path)).Nodup ∧
      (∀ e ∈ eps, mux1.m.lookup e.Path = some (configuredEntry e)) ∧
      (∀ p, (∀ e ∈ eps, e.Path ≠ p) → mux1.m.lookup p = mux.m.lookup p) ∧
      (∀ x ∈ mux1.es, x ∈ mux.es ∨ ∃ e ∈ eps, x = configuredEntry e ∧ EndsInSlash e.Path) ∧
      (∀ x ∈ mux.es, x ∈ mux1.es) ∧
      mux1.hosts = (mux.hosts || eps.any (fun e => e.Path.data.head? != some '/')) := by
  induction eps with
  | nil =>
    intro mux s mux1 s1 h
    simp only [registerEndpoints, Except.ok.injEq, Prod.mk.injEq] at h
    obtain ⟨rfl, _⟩ := h
    simp
  | cons e0 rest ih =>
    intro mux s mux1 s1 h
    unfold registerEndpoints at h
    cases hH : mux.Handle e0.Path (loggingMiddleware (createConfiguredHandler e0)) with
    | error p => rw [hH] at h; cases h
    | ok mux0 =>
      rw [hH] at h
      simp only at h
      obtain ⟨hne, hnone, hmux0⟩ := (Handle_ok_iff _ _ _ _).1 hH
      obtain ⟨i1, i2, i3, i4, i5, i6, i7⟩ := ih _ _ _ _ h
      have hm0 : mux0.m = (e0.Path, configuredEntry e0) :: mux.m := by rw [hmux0]; rfl
      have hrest : ∀ e ∈ rest, e.Path ≠ e0.Path := by
        intro e he heq
        have := (i1 e he).2
        rw [hm0, heq, List.lookup_cons_self] at this
        cases this
      refine ⟨?_, ?_, ?_, ?_, ?_, ?_, ?_⟩
      · intro e he
        rcases List.mem_cons.1 he with rfl | he
        · exact ⟨hne, hnone⟩
        · refine ⟨(i1 e he).1, ?_⟩
          have := (i1 e he).2
          rw [hm0, lookup_cons_ne _ _ _ _ (hrest e he)] at this
          exact this
      · simp only [List.map_cons, List.nodup_cons]
        refine ⟨?_, i2⟩
        intro hmem
        obtain ⟨e, he, heq⟩ := List.mem_map.1 hmem
        exact hrest e he heq
      · intro e he
        rcases List.mem_cons.1 he with rfl | he
        · rw [i4 _ (fun e1 he1 => hrest e1 he1), hm0, List.lookup_cons_self]
        · exact i3 e he
      · intro p hp
        have hp0 : p ≠ e0.Path := fun h0 => hp e0 (List.mem_cons_self _ _) h0.symm
        rw [i4 p (fun e1 he1 => hp e1 (List.mem_cons_of_mem _ he1)), hm0,
          lookup_cons_ne _ _ _ _ hp0]
      · intro x hx
        rcases i5 x hx with hx0 | ⟨e, he, hxe⟩
        · rw [hmux0] at hx0
          simp only at hx0
          split at hx0
          · rename_i hslash
            rcases (mem_appendSorted _ _ _).1 hx0 with rfl | hx1
            · exact Or.inr ⟨e0, List.mem_cons_self _ _, rfl, hslash⟩
            · exact Or.inl hx1
          · exact Or.inl hx0
        · exact Or.inr ⟨e, List.mem_cons_of_mem _ he, hxe⟩
      · intro x hx
        apply i6
        rw [hmux0]
        simp only
        split
        · exact (mem_appendSorted _ _ _).2 (Or.inr hx)
        · exact hx
      · rw [i7, hmux0]
        simp [Bool.or_assoc]

theorem registerEndpoints_succeeds (eps : List Endpoint) :
    ∀ (mux : ServeMux) (s : World),
      (∀ e ∈ eps, e.Path ≠ "" ∧ mux.m.lookup e.Path = none) →
      (eps.map (fun e => e.Path)).Nodup →
      ∃ mux1 s1, registerEndpoints eps mux s = Except.ok (mux1, s1) := by
  induction eps with
  | nil => intro mux s _ _; exact ⟨mux, s, rfl⟩
  | cons e0 rest ih =>
    intro mux s h1 h2
    obtain ⟨hne, hnone⟩ := h1 e0 (List.mem_cons_self _ _)
    simp only [List.map_cons, List.nodup_cons] at h2
    have hH := (Handle_ok_iff mux _ e0.Path (loggingMiddleware (createConfiguredHandler e0))).2
      ⟨hne, hnone, rfl⟩
    unfold registerEndpoints
    rw [hH]
    simp only
    apply ih
    · intro e he
      refine ⟨(h1 e (List.mem_cons_of_mem _ he)).1, ?_⟩
      have hp : e.Path ≠ e0.Path := by
        intro heq
        exact h2.1 (List.mem_map.2 ⟨e, he, heq⟩)
      show List.lookup e.Path ((e0.Path, _) :: mux.m) = none
      rw [lookup_cons_ne _ _ _ _ hp]
      exact (h1 e (List.mem_cons_of_mem _ he)).2
    · exact h2.2

theorem fallback_Handle :
    DefaultServeMux.Handle "/" (loggingMiddleware notFoundHandler) = Except.ok baseMux := by
  rfl

theorem registerHandlers_eq (config : Config) (s : World) :
    registerHandlers config s
      = registerEndpoints config.Endpoints baseMux
          (s.Printf "Configuring endpoints from config file:" []) := by
  unfold registerHandlers
  rw [fallback_Handle]

theorem baseMux_lookup (p : String) :
    baseMux.m.lookup p = if p = "/" then some fallbackEntry else none := by
  by_cases h : p = "/"
  · subst h; simp [baseMux]
  · have hb : (p == "/") = false := by simpa using h
    simp [baseMux, List.lookup_cons, hb, h]

theorem registerHandlers_ok_iff (config : Config) (s : World) :
    (∃ mux s1, registerHandlers config s = Except.ok (mux, s1)) ↔ Registrable config := by
  rw [registerHandlers_eq]
  constructor
  · rintro ⟨mux, s1, h⟩
    obtain ⟨i1, i2, -⟩ := registerEndpoints_ok _ _ _ _ _ h
    refine ⟨fun e he => ⟨(i1 e he).1, ?_⟩, i2⟩
    intro heq
    have := (i1 e he).2
    rw [baseMux_lookup, if_pos heq] at this
    cases this
  · rintro ⟨h1, h2⟩
    apply registerEndpoints_succeeds _ _ _ _ h2
    intro e he
    refine ⟨(h1 e he).1, ?_⟩
    rw [baseMux_lookup, if_neg (h1 e he).2]

theorem registerHandlers_registered (config : Config) (s s1 : World) (mux : ServeMux)
    (h : registerHandlers config s = Except.ok (mux, s1)) : Registered config mux := by
  rw [registerHandlers_eq] at h
  obtain ⟨i1, _, i3, i4, i5, i6, i7⟩ := registerEndpoints_ok _ _ _ _ _ h
  have hroot : ∀ e ∈ config.Endpoints, e.Path ≠ "/" := by
    intro e he heq
    have := (i1 e he).2
    rw [baseMux_lookup, if_pos heq] at this
    cases this
  refine ⟨?_, i3, ?_, ?_, ?_, ?_⟩
  · rw [i4 "/" hroot, baseMux_lookup, if_pos rfl]
  · intro p hp hne
    rw [i4 p hne, baseMux_lookup, if_neg hp]
  · intro x hx
    rcases i5 x hx with hx0 | hx0
    · left; simpa [baseMux] using hx0
    · right; exact hx0
  · apply i6; simp [baseMux]
  · rw [i7]; simp [baseMux]

theorem Registered.value {config : Config} {mux : ServeMux} (hr : Registered config mux)
    (p : String) (x : muxEntry) (h : mux.m.lookup p = some x) :
    (p = "/" ∧ x = fallbackEntry) ∨ ∃ e ∈ config.Endpoints, p = e.Path ∧ x = configuredEntry e := by
  by_cases hp : p = "/"
  · subst hp
    rw [hr.root] at h
    exact Or.inl ⟨rfl, (Option.some.inj h).symm⟩
  · by_cases he : ∃ e ∈ config.Endpoints, e.Path = p
    · obtain ⟨e, hmem, rfl⟩ := he
      rw [hr.declared e hmem] at h
      exact Or.inr ⟨e, hmem, rfl, (Option.some.inj h).symm⟩
    · rw [hr.other p hp (fun e hmem heq => he ⟨e, hmem, heq⟩)] at h
      cases h

/-! ## Selection lemmas -/

theorem rooted_ne_empty (p : String) (h : Rooted p) : p ≠ "" := by
  intro hp
  subst hp
  simp [Rooted] at h

theorem startsWith_slash (p : String) : startsWith p "/" = true ↔ Rooted p := by
  unfold startsWith Rooted
  show List.isPrefixOf ['/'] p.data = true ↔ _
  cases p.data with
  | nil => simp
  | cons c rest =>
    simp only [List.isPrefixOf, List.head?_cons, Option.some.injEq, Bool.and_true, beq_iff_eq]
    exact eq_comm

theorem unrooted_append (host x : String) (hh : ¬ Rooted host) (hne : host ≠ "") :
    ¬ Rooted (host ++ x) := by
  unfold Rooted at *
  rw [String.data_append]
  cases hd : host.data with
  | nil => exact absurd (String.ext_iff.2 (by rw [hd])) hne
  | cons c rest =>
    rw [hd] at hh
    simpa using hh

theorem append_slash_ne (p : String) (hp : p ≠ "") : p ++ "/" ≠ "/" := by
  intro h
  have h1 := String.ext_iff.1 h
  rw [String.data_append] at h1
  cases hd : p.data with
  | nil => exact absurd (String.ext_iff.2 (by rw [hd])) hp
  | cons c rest =>
    rw [hd] at h1
    have h2 := congrArg List.length h1
    simp at h2

theorem Registered.hosts_false {config : Config} {mux : ServeMux} (hr : Registered config mux)
    (hv : ∀ e ∈ config.Endpoints, Rooted e.Path) : mux.hosts = false := by
  rw [hr.hosts_eq, List.any_eq_false]
  intro e he
  have := hv e he
  unfold Rooted at this
  simp [this]

theorem Registered.key_rooted {config : Config} {mux : ServeMux} (hr : Registered config mux)
    (hv : ∀ e ∈ config.Endpoints, Rooted e.Path) (p : String) (hp : ¬ Rooted p) :
    mux.m.lookup p = none := by
  cases h : mux.m.lookup p with
  | none => rfl
  | some x =>
    exfalso
    rcases hr.value p x h with ⟨rfl, _⟩ | ⟨e, he, rfl, _⟩
    · exact hp (by decide)
    · exact hp (hv e he)

theorem handler_no_hosts (mux : ServeMux) (host path : String) (h : mux.hosts = false) :
    mux.handler host path = match mux.match_ path with
      | some e => Selected.registered e
      | none => Selected.notFound := by
  simp [ServeMux.handler, h]

theorem shouldRedirect_exact (mux : ServeMux) (host path : String) (x : muxEntry)
    (h : mux.m.lookup path = some x) : mux.shouldRedirectRLocked host path = false := by
  simp [ServeMux.shouldRedirectRLocked, h]

theorem shouldRedirect_host {config : Config} {mux : ServeMux} (hr : Registered config mux)
    (hv : ∀ e ∈ config.Endpoints, Rooted e.Path) (host path : String) (hh : ¬ Rooted host) :
    mux.shouldRedirectRLocked host path = mux.shouldRedirectRLocked "" path := by
  by_cases hne : host = ""
  · rw [hne]
  · have h1 : mux.m.lookup (host ++ path) = none :=
      hr.key_rooted hv _ (unrooted_append host path hh hne)
    have h2 : mux.m.lookup (host ++ path ++ "/") = none := by
      rw [String.append_assoc]
      exact hr.key_rooted hv _ (unrooted_append host _ hh hne)
    simp only [ServeMux.shouldRedirectRLocked, List.any_cons, List.any_nil, h1, h2,
      Option.isSome_none, Bool.or_false, String.empty_append, Bool.or_self]

theorem Handler_host {config : Config} {mux : ServeMux} (hr : Registered config mux)
    (hv : ∀ e ∈ config.Endpoints, Rooted e.Path) (r : Request) (hh : ¬ Rooted r.Host) :
    mux.Handler r = mux.Handler { r with Host := "" } := by
  unfold ServeMux.Handler
  simp only [shouldRedirect_host hr hv _ _ hh, handler_no_hosts _ _ _ (hr.hosts_false hv)]

/-- Selection of a declared endpoint: the exact entry of the pattern map. -/
theorem Handler_exact (mux : ServeMux) (r : Request) (x : muxEntry) (hh : mux.hosts = false)
    (hl : mux.m.lookup r.Path = some x)
    (hc : r.Method = "CONNECT" ∨ cleanPath r.Path = r.Path) :
    mux.Handler r = Selected.registered x := by
  unfold ServeMux.Handler
  by_cases hm : r.Method = "CONNECT"
  · simp [hm, shouldRedirect_exact mux _ _ x hl, handler_no_hosts _ _ _ hh, ServeMux.match_, hl]
  · have hcl : cleanPath r.Path = r.Path := by
      rcases hc with h | h
      · exact absurd h hm
      · exact h
    simp [hm, hcl, shouldRedirect_exact mux _ _ x hl, handler_no_hosts _ _ _ hh,
      ServeMux.match_, hl]

/-- Selection of the fallback for a path outside every declared pattern. -/
theorem Handler_fallback {config : Config} {mux : ServeMux} (hr : Registered config mux)
    (hv : ∀ e ∈ config.Endpoints, Rooted e.Path) (r : Request)
    (hhost : ¬ Rooted r.Host) (hroot : Rooted r.Path)
    (hc : r.Method = "CONNECT" ∨ cleanPath r.Path = r.Path)
    (h1 : ∀ e ∈ config.Endpoints, e.Path ≠ r.Path)
    (h2 : ∀ e ∈ config.Endpoints, e.Path ≠ r.Path ++ "/")
    (h3 : ∀ e ∈ config.Endpoints, EndsInSlash e.Path → startsWith r.Path e.Path = false) :
    mux.Handler r = Selected.registered fallbackEntry := by
  rw [Handler_host hr hv r hhost]
  have hne := rooted_ne_empty _ hroot
  have hmatch : mux.match_ r.Path = some fallbackEntry := by
    unfold ServeMux.match_
    by_cases hp : r.Path = "/"
    · rw [hp, hr.root]
    · rw [hr.other _ hp h1]
      simp only
      cases hf : mux.es.find? (fun e => startsWith r.Path e.pattern) with
      | none =>
        exfalso
        have := List.find?_eq_none.1 hf fallbackEntry hr.fallback_mem
        apply this
        exact (startsWith_slash _).2 hroot
      | some x =>
        have hx := List.mem_of_find?_eq_some hf
        have hpx := List.find?_some hf
        rcases hr.subtree x hx with rfl | ⟨e, he, rfl, hs⟩
        · rfl
        · have := h3 e he hs
          simp only [configuredEntry] at hpx
          rw [this] at hpx
          cases hpx
  have hsr : mux.shouldRedirectRLocked "" r.Path = false := by
    by_cases hp : r.Path = "/"
    · exact shouldRedirect_exact mux _ _ _ (by rw [hp]; exact hr.root)
    · have hl1 : mux.m.lookup r.Path = none := hr.other _ hp h1
      have hl2 : mux.m.lookup (r.Path ++ "/") = none :=
        hr.other _ (append_slash_ne _ hne) h2
      simp [ServeMux.shouldRedirectRLocked, hl1, hl2]
  unfold ServeMux.Handler
  by_cases hm : r.Method = "CONNECT"
  · simp [hm, hsr, handler_no_hosts _ _ _ (hr.hosts_false hv), hmatch]
  · have hcl : cleanPath r.Path = r.Path := by
      rcases hc with h | h
      · exact absurd h hm
      · exact h
    simp [hm, hcl, hsr, handler_no_hosts _ _ _ (hr.hosts_false hv), hmatch]

/-- Every entry the multiplexer can select was registered by `main`. -/
theorem Handler_registered {config : Config} {mux : ServeMux} (hr : Registered config mux)
    (r : Request) (x : muxEntry) (h : mux.Handler r = Selected.registered x) :
    x = fallbackEntry ∨ ∃ e ∈ config.Endpoints, x = configuredEntry e := by
  have hmatch : ∀ p y, mux.match_ p = some y →
      y = fallbackEntry ∨ ∃ e ∈ config.Endpoints, y = configuredEntry e := by
    intro p y hy
    unfold ServeMux.match_ at hy
    cases hl : mux.m.lookup p with
    | some v =>
      rw [hl] at hy
      simp only [Option.some.injEq] at hy
      subst hy
      rcases hr.value p v hl with ⟨_, hv⟩ | ⟨e, he, _, hv⟩
      · exact Or.inl hv
      · exact Or.inr ⟨e, he, hv⟩
    | none =>
      rw [hl] at hy
      simp only at hy
      rcases hr.subtree y (List.mem_of_find?_eq_some hy) with hv | ⟨e, he, hv, _⟩
      · exact Or.inl hv
      · exact Or.inr ⟨e, he, hv⟩
  have hhandler : ∀ host p, mux.handler host p = Selected.registered x →
      x = fallbackEntry ∨ ∃ e ∈ config.Endpoints, x = configuredEntry e := by
    intro host p hx
    unfold ServeMux.handler at hx
    simp only at hx
    split at hx
    · rename_i y hy
      simp only [Selected.registered.injEq] at hx
      subst hx
      split at hy
      · rename_i z hz
        simp only [Option.some.injEq] at hy
        subst hy
        split at hz
        · exact hmatch _ _ hz
        · cases hz
      · exact hmatch _ _ hy
    · cases hx
  unfold ServeMux.Handler at h
  split at h
  · split at h
    · cases h
    · exact hhandler _ _ h
  · simp only at h
    split at h
    · cases h
    · split at h
      · cases h
      · exact hhandler _ _ h

/-! ## Serving lemmas -/

/-! ## Registration on the pattern multiplexer -/

theorem register_ok (mux mux1 : ServeMux122) (patstr : String) (h : HandlerFunc)
    (hp : Parsed mux) (hok : mux.register patstr h = Except.ok mux1) :
    patstr ≠ "" ∧ (∀ r ∈ mux.routes, r.entry.pattern ≠ patstr) ∧
      ∃ pat, parsePattern patstr = some pat ∧
        mux1.routes = { pat := pat, entry := { h := h, pattern := patstr } } :: mux.routes := by
  unfold ServeMux122.register at hok
  by_cases h0 : patstr = ""
  · simp [h0] at hok
  · simp only [h0, if_false] at hok
    cases hparse : parsePattern patstr with
    | none => rw [hparse] at hok; cases hok
    | some pat =>
      rw [hparse] at hok
      simp only at hok
      cases hfind : mux.routes.reverse.find? (fun r => conflictsWith pat r.pat) with
      | some r => rw [hfind] at hok; cases hok
      | none =>
        rw [hfind] at hok
        simp only at hok
        split at hok
        · cases hok
        · refine ⟨h0, ?_, pat, rfl, ?_⟩
          · intro r hr heq
            have hrp := hp r hr
            rw [heq, hparse] at hrp
            have hc := List.find?_eq_none.1 hfind r (List.mem_reverse.2 hr)
            rw [← Option.some.inj hrp] at hc
            exact hc (conflictsWith_self pat)
          · rw [← Except.ok.inj hok]

theorem bnot_true (b : Bool) (h : (!b) = true) : b = false := by
  cases b
  · rfl
  · cases h

theorem register_plain (mux : ServeMux122) (path : String) (h : HandlerFunc)
    (hplain : AllPlain mux) (hp : PlainPath path)
    (hnew : ∀ r ∈ mux.routes, r.entry.pattern ≠ path) :
    mux.register path h = Except.ok { routes := plainRoute path h :: mux.routes } := by
  have hne : path ≠ "" := rooted_ne_empty path hp.1
  have hconf : ∀ r ∈ mux.routes,
      splitSlash path.data.tail ≠ splitSlash r.entry.pattern.data.tail := by
    intro r hr heq
    exact hnew r hr (rooted_eq_of_pieces _ _ (hplain r hr).1.1 hp.1 heq.symm)
  have hpat : ∀ r ∈ mux.routes, r.pat = pattern.mk r.entry.pattern "" ""
      (pieceSegments (splitSlash r.entry.pattern.data.tail)) := by
    intro r hr
    exact congrArg route.pat (hplain r hr).2
  unfold ServeMux122.register
  rw [if_neg hne, parsePattern_plain path hp]
  simp only
  have hfind : mux.routes.reverse.find? (fun r => conflictsWith
      (pattern.mk path "" "" (pieceSegments (splitSlash path.data.tail))) r.pat) = none := by
    rw [List.find?_eq_none]
    intro r hr hc
    have hr1 := List.mem_reverse.1 hr
    rw [hpat r hr1] at hc
    exact hconf r hr1 (conflictsWith_plain _ _ _ _ hc)
  rw [hfind]
  simp only
  split
  · next hcond =>
    exfalso
    obtain ⟨hm, hany⟩ := hcond
    rw [List.any_eq_true] at hany
    obtain ⟨r, hr, hc⟩ := hany
    obtain ⟨_, _, hkeys, hmr⟩ := of_decide_eq_true hc
    have hm1 := bnot_true _ hm
    have hmr1 := bnot_true _ hmr
    rw [hpat r hr] at hkeys hmr1
    rw [keys_pieceSegments, keys_pieceSegments] at hkeys
    rw [lastIsMulti_pieceSegments _ (splitSlash_ne_nil _)] at hm1 hmr1
    exact hconf r hr (pieces_of_keys _ _ hkeys.symm (by rw [hm1, hmr1]))
  · rfl

theorem baseMux122_register :
    ({ routes := [] } : ServeMux122).register "/" (loggingMiddleware notFoundHandler)
      = Except.ok baseMux122 := by
  rfl

theorem registerHandlers122_eq (config : Config) (s : World) :
    registerHandlers122 config s
      = registerEndpoints122 config.Endpoints baseMux122
          (s.Printf "Configuring endpoints from config file:" []) := by
  unfold registerHandlers122
  rw [baseMux122_register]

theorem allPlain_cons (mux : ServeMux122) (path : String) (h : HandlerFunc)
    (hplain : AllPlain mux) (hp : PlainPath path) :
    AllPlain { routes := plainRoute path h :: mux.routes } := by
  intro r hr
  rcases List.mem_cons.1 hr with heq | hmem
  · rw [heq]
    exact ⟨hp, rfl⟩
  · exact hplain r hmem

theorem allPlain_base : AllPlain baseMux122 := by
  intro r hr
  rcases List.mem_cons.1 hr with heq | hmem
  · rw [heq]
    exact ⟨by decide, rfl⟩
  · cases hmem

theorem registerEndpoints122_plain (eps : List Endpoint) :
    ∀ (mux : ServeMux122) (s : World), AllPlain mux →
      (∀ e ∈ eps, PlainPath e.Path) →
      (∀ e ∈ eps, ∀ r ∈ mux.routes, r.entry.pattern ≠ e.Path) →
      (eps.map (fun e => e.Path)).Nodup →
      ∃ s1, registerEndpoints122 eps mux s
        = Except.ok ({ routes := (eps.map configuredRoute).reverse ++ mux.routes }, s1) := by
  induction eps with
  | nil =>
    intro mux s _ _ _ _
    exact ⟨s, rfl⟩
  | cons e rest ih =>
    intro mux s hplain hpp hnew hnd
    have hpe := hpp e (List.mem_cons_self _ _)
    rw [List.map_cons, List.nodup_cons] at hnd
    unfold registerEndpoints122
    rw [register_plain mux e.Path _ hplain hpe (hnew e (List.mem_cons_self _ _))]
    simp only
    obtain ⟨s1, hs1⟩ := ih (ServeMux122.mk (plainRoute e.Path
        (loggingMiddleware (createConfiguredHandler e)) :: mux.routes))
      (s.Printf "  %s %s -> Status %d"
          [LogArg.str e.Method, LogArg.str e.Path, LogArg.int e.Response.Status])
      (allPlain_cons mux e.Path _ hplain hpe)
      (fun e1 he1 => hpp e1 (List.mem_cons_of_mem _ he1))
      (by
        intro e1 he1 r hr
        rcases List.mem_cons.1 hr with heq | hmem
        · rw [heq]
          intro h
          exact hnd.1 (List.mem_map.2 ⟨e1, he1, h.symm⟩)
        · exact hnew e1 (List.mem_cons_of_mem _ he1) r hmem)
      hnd.2
    refine ⟨s1, ?_⟩
    rw [hs1]
    simp only [List.map_cons, List.reverse_cons, List.append_assoc, List.singleton_append,
      configuredRoute]

theorem registerHandlers122_plain (config : Config) (s : World)
    (hplain : PlainConfig config) (hreg : Registrable config) :
    ∃ s1, registerHandlers122 config s = Except.ok (plainMux config, s1) := by
  rw [registerHandlers122_eq]
  exact registerEndpoints122_plain config.Endpoints baseMux122 _ allPlain_base hplain
    (by
      intro e he r hr
      rcases List.mem_cons.1 hr with heq | hmem
      · rw [heq]
        exact fun h => (hreg.1 e he).2 h.symm
      · cases hmem)
    hreg.2

theorem parsed_base : Parsed baseMux122 := by
  intro r hr
  rcases List.mem_cons.1 hr with heq | hmem
  · rw [heq]
    exact parsePattern_plain "/" (by decide)
  · cases hmem

theorem registerEndpoints122_ok (eps : List Endpoint) :
    ∀ (mux mux1 : ServeMux122) (s s1 : World), Parsed mux →
      registerEndpoints122 eps mux s = Except.ok (mux1, s1) →
      (∀ e ∈ eps, e.Path ≠ "" ∧ ∀ r ∈ mux.routes, r.entry.pattern ≠ e.Path) ∧
        (eps.map (fun e => e.Path)).Nodup ∧
        mux1.routes.map (fun r => r.entry)
          = (eps.map configuredEntry).reverse ++ mux.routes.map (fun r => r.entry) ∧
        Parsed mux1 := by
  induction eps with
  | nil =>
    intro mux mux1 s s1 hp hok
    have h := Except.ok.inj hok
    rw [← (Prod.mk.inj h).1]
    exact ⟨fun e he => (nomatch he), List.nodup_nil, rfl, hp⟩
  | cons e rest ih =>
    intro mux mux1 s s1 hp hok
    unfold registerEndpoints122 at hok
    cases hreg : mux.register e.Path (loggingMiddleware (createConfiguredHandler e)) with
    | error p => rw [hreg] at hok; cases hok
    | ok mux2 =>
      rw [hreg] at hok
      simp only at hok
      obtain ⟨hne, hnew, pat, hparse, hroutes⟩ := register_ok mux mux2 e.Path _ hp hreg
      have hp2 : Parsed mux2 := by
        intro r hr
        rw [hroutes] at hr
        rcases List.mem_cons.1 hr with heq | hmem
        · rw [heq]
          exact hparse
        · exact hp r hmem
      obtain ⟨h1, h2, h3, h4⟩ := ih mux2 mux1 _ s1 hp2 hok
      refine ⟨?_, ?_, ?_, h4⟩
      · intro e1 he1
        rcases List.mem_cons.1 he1 with heq | hmem
        · rw [heq]
          exact ⟨hne, hnew⟩
        · refine ⟨(h1 e1 hmem).1, fun r hr => (h1 e1 hmem).2 r ?_⟩
          rw [hroutes]
          exact List.mem_cons_of_mem _ hr
      · rw [List.map_cons, List.nodup_cons]
        refine ⟨?_, h2⟩
        intro hmem
        obtain ⟨e1, he1, heq⟩ := List.mem_map.1 hmem
        refine (h1 e1 he1).2
          { pat := pat, entry := { h := loggingMiddleware (createConfiguredHandler e),
                                   pattern := e.Path } } ?_ heq.symm
        rw [hroutes]
        exact List.mem_cons_self _ _
      · rw [h3, hroutes]
        simp only [List.map_cons, List.reverse_cons, List.append_assoc, List.singleton_append,
          configuredEntry]

theorem registerHandlers122_ok (config : Config) (s s1 : World) (mux : ServeMux122)
    (hok : registerHandlers122 config s = Except.ok (mux, s1)) :
    Registrable config ∧
      mux.routes.map (fun r => r.entry)
        = (config.Endpoints.map configuredEntry).reverse ++ [fallbackEntry] ∧
      Parsed mux := by
  rw [registerHandlers122_eq] at hok
  obtain ⟨h1, h2, h3, h4⟩ := registerEndpoints122_ok config.Endpoints baseMux122 mux _ s1
    parsed_base hok
  refine ⟨⟨fun e he => ⟨(h1 e he).1, fun h => (h1 e he).2 _ (List.mem_cons_self _ _) h.symm⟩,
    h2⟩, ?_, h4⟩
  rw [h3]
  rfl

/-! ## Selection on the pattern multiplexer with plain patterns -/

theorem plain_host_method (mux : ServeMux122) (hplain : AllPlain mux) : HostFree mux := by
  intro r hr
  have h := congrArg route.pat (hplain r hr).2
  rw [h]
  exact ⟨rfl, rfl⟩

theorem cands_plain_root (mux : ServeMux122) (hfree : HostFree mux) :
    mux.cands "" "" = mux.routes.map route.cand := by
  have h : ∀ r ∈ mux.routes, r.pat.host = "" ∧ r.pat.method = "" := hfree
  unfold ServeMux122.cands
  generalize mux.routes = routes at h
  induction routes with
  | nil => rfl
  | cons r rest ih =>
    rw [List.filterMap_cons, List.map_cons]
    have hr := h r (List.mem_cons_self _ _)
    rw [if_pos hr]
    simp only
    rw [ih (fun r1 h1 => h r1 (List.mem_cons_of_mem _ h1))]
    rfl

theorem cands_plain_other (mux : ServeMux122) (hfree : HostFree mux) (host method : String)
    (hne : host ≠ "" ∨ method ≠ "") : mux.cands host method = [] := by
  have h : ∀ r ∈ mux.routes, r.pat.host = "" ∧ r.pat.method = "" := hfree
  unfold ServeMux122.cands
  generalize mux.routes = routes at h
  induction routes with
  | nil => rfl
  | cons r rest ih =>
    rw [List.filterMap_cons]
    have hr := h r (List.mem_cons_self _ _)
    have hcond : ¬ (r.pat.host = host ∧ r.pat.method = method) := by
      rintro ⟨h1, h2⟩
      rw [hr.1] at h1
      rw [hr.2] at h2
      rcases hne with hh | hm
      · exact hh h1.symm
      · exact hm h2.symm
    rw [if_neg hcond]
    exact ih (fun r1 h1 => h r1 (List.mem_cons_of_mem _ h1))

theorem matchMethodAndPath_plain_root (mux : ServeMux122) (hfree : HostFree mux)
    (method : String) (segs : List String) :
    mux.matchMethodAndPath "" method segs = matchPath (mux.routes.map route.cand) segs := by
  unfold ServeMux122.matchMethodAndPath
  by_cases hm : method = ""
  · rw [hm, cands_plain_root mux hfree]
    cases matchPath (mux.routes.map route.cand) segs with
    | some c => rfl
    | none => rfl
  · rw [cands_plain_other mux hfree "" method (Or.inr hm), matchPath_nil,
      cands_plain_other mux hfree "" "GET" (Or.inr (by decide)), matchPath_nil,
      cands_plain_root mux hfree]
    simp only [ite_self]

theorem matchMethodAndPath_plain_host (mux : ServeMux122) (hfree : HostFree mux)
    (host method : String) (hh : host ≠ "") (segs : List String) :
    mux.matchMethodAndPath host method segs = none := by
  unfold ServeMux122.matchMethodAndPath
  rw [cands_plain_other mux hfree host method (Or.inl hh), matchPath_nil,
    cands_plain_other mux hfree host "GET" (Or.inl hh), matchPath_nil,
    cands_plain_other mux hfree host "" (Or.inl hh), matchPath_nil]
  simp only [ite_self]

theorem match_plain (mux : ServeMux122) (hfree : HostFree mux) (host method path : String) :
    mux.match_ host method path
      = matchPath (mux.routes.map route.cand) (pathSegments path.data) := by
  unfold ServeMux122.match_
  rw [matchMethodAndPath_plain_root mux hfree]
  by_cases hh : host = ""
  · simp only [hh, ne_eq, not_true_eq_false, if_false]
  · rw [if_pos hh, matchMethodAndPath_plain_host mux hfree host method hh]

theorem matchingMethods_plain (mux : ServeMux122) (hfree : HostFree mux) (host path : String) :
    mux.matchingMethods host path = [] := by
  have h : ∀ r ∈ mux.routes, r.pat.host = "" ∧ r.pat.method = "" := hfree
  unfold ServeMux122.matchingMethods
  have hfound : ∀ (f : route → Bool) (routes : List route),
      (∀ r ∈ routes, r.pat.method = "") →
      routes.filterMap (fun r => if r.pat.method ≠ "" ∧ f r = true then some r.pat.method
        else none) = [] := by
    intro f routes
    induction routes with
    | nil => intro _; rfl
    | cons r rest ih =>
      intro hall
      rw [List.filterMap_cons]
      have hr := hall r (List.mem_cons_self _ _)
      rw [if_neg (fun hc => hc.1 hr)]
      exact ih (fun r1 h1 => hall r1 (List.mem_cons_of_mem _ h1))
  simp only
  rw [hfound _ mux.routes.reverse (fun r hr => (h r (List.mem_reverse.1 hr)).2)]
  rfl

theorem cand_keys_plain (mux : ServeMux122) (hplain : AllPlain mux) (r : route)
    (hr : r ∈ mux.routes) :
    r.cand.keys = plainKeys (splitSlash r.entry.pattern.data.tail) ∧
      r.cand.multi = decide ((splitSlash r.entry.pattern.data.tail).getLast? = some []) := by
  have h := congrArg route.pat (hplain r hr).2
  unfold route.cand
  simp only
  rw [h]
  exact ⟨keys_pieceSegments _ _, lastIsMulti_pieceSegments _ (splitSlash_ne_nil _)⟩

theorem cands_noEmpty (mux : ServeMux122) (hplain : AllPlain mux) :
    ∀ c ∈ mux.routes.map route.cand, "" ∉ c.keys := by
  intro c hc
  obtain ⟨r, hr, hrc⟩ := List.mem_map.1 hc
  rw [← hrc, (cand_keys_plain mux hplain r hr).1]
  exact plainKeys_noEmpty _ (hplain r hr).1

theorem plainKeys_length (P : List (List Char)) :
    (plainKeys P).length = if P.getLast? = some [] then P.length - 1 else P.length := by
  unfold plainKeys
  split
  · rw [List.length_map, List.length_dropLast]
  · rw [List.length_map]

theorem best_fit_pieces (P X : List (List Char)) (hP : P ≠ []) (hX : X ≠ [])
    (hslash : ∀ piece ∈ P, piece ≠ ['/'])
    (h : Fits (plainKeys P) (decide (P.getLast? = some [])) (plainSegs X))
    (hbest : (plainKeys X).length ≤ (plainKeys P).length) : P = X := by
  rcases fits_pieces P X hP hX hslash h with heq | ⟨hlast, R, hR, hXR⟩
  · exact heq
  · rw [plainKeys_length, plainKeys_length, if_pos hlast] at hbest
    have hlen : X.length = P.length - 1 + R.length := by
      rw [hXR, List.length_append, List.length_dropLast]
    have hRpos : 0 < R.length := List.length_pos.2 hR
    obtain ⟨last, hPlast, hPsplit⟩ := pieces_split P hP
    rw [hlast] at hPlast
    have hl : last = [] := (Option.some.inj hPlast).symm
    by_cases hxm : X.getLast? = some []
    · rw [if_pos hxm] at hbest
      have hR1 : R.length = 1 := by omega
      obtain ⟨a, ha⟩ := List.length_eq_one.1 hR1
      rw [ha] at hXR
      rw [hXR, List.getLast?_append] at hxm
      have ha0 : a = [] := by
        simpa [Option.or] using hxm
      rw [hXR, ha0, ← hl]
      exact hPsplit
    · rw [if_neg hxm] at hbest
      omega

theorem match_plain_sound (mux : ServeMux122) (hplain : AllPlain mux)
    (host method x : String) (hroot : Rooted x) (hesc : ∀ c ∈ x.data, c ≠ '%') (c : cand)
    (hm : mux.match_ host method x = some c) :
    ∃ r ∈ mux.routes, r.pat = c.pat ∧ r.entry = c.entry ∧
      Fits (plainKeys (splitSlash r.entry.pattern.data.tail))
        (decide ((splitSlash r.entry.pattern.data.tail).getLast? = some []))
        (plainSegs (splitSlash x.data.tail)) ∧
      ∀ r1 ∈ mux.routes,
        Fits (plainKeys (splitSlash r1.entry.pattern.data.tail))
          (decide ((splitSlash r1.entry.pattern.data.tail).getLast? = some []))
          (plainSegs (splitSlash x.data.tail)) →
        (plainKeys (splitSlash r1.entry.pattern.data.tail)).length
          ≤ (plainKeys (splitSlash r.entry.pattern.data.tail)).length := by
  rw [match_plain mux (plain_host_method mux hplain), pathSegments_plain x hroot hesc] at hm
  obtain ⟨c0, hc0, hpat, hentry, hfit, hbest⟩ :=
    matchPath_sound _ _ c (cands_noEmpty mux hplain) hm
  obtain ⟨r, hr, hrc⟩ := List.mem_map.1 hc0
  have hk := cand_keys_plain mux hplain r hr
  rw [← hrc] at hpat hentry hfit hbest
  rw [hk.1, hk.2] at hfit
  refine ⟨r, hr, hpat, hentry, hfit, ?_⟩
  intro r1 hr1 hfit1
  have hk1 := cand_keys_plain mux hplain r1 hr1
  have hb := hbest r1.cand (List.mem_map.2 ⟨r1, hr1, rfl⟩) (by rw [hk1.1, hk1.2]; exact hfit1)
  rw [hk1.1, hk.1] at hb
  exact hb

theorem match_plain_complete (mux : ServeMux122) (hplain : AllPlain mux)
    (host method x : String) (hroot : Rooted x) (hesc : ∀ c ∈ x.data, c ≠ '%')
    (r : route) (hr : r ∈ mux.routes)
    (hfit : Fits (plainKeys (splitSlash r.entry.pattern.data.tail))
        (decide ((splitSlash r.entry.pattern.data.tail).getLast? = some []))
        (plainSegs (splitSlash x.data.tail))) :
    mux.match_ host method x ≠ none := by
  rw [match_plain mux (plain_host_method mux hplain), pathSegments_plain x hroot hesc]
  have hk := cand_keys_plain mux hplain r hr
  exact matchPath_complete _ _ r.cand (List.mem_map.2 ⟨r, hr, rfl⟩)
    (by rw [hk.1, hk.2]; exact hfit)

theorem splitSlash_append_slash (l : List Char) :
    splitSlash (l ++ ['/']) = splitSlash l ++ [[]] := by
  induction l with
  | nil => rfl
  | cons c cs ih =>
    rw [List.cons_append]
    unfold splitSlash
    by_cases hc : c = '/'
    · rw [if_pos hc, if_pos hc, ih]
      rfl
    · rw [if_neg hc, if_neg hc, ih]
      cases hs : splitSlash cs with
      | nil => exact absurd hs (splitSlash_ne_nil cs)
      | cons first others => rfl

theorem splitSlash_length (l : List Char) : (splitSlash l).length = l.count '/' + 1 := by
  induction l with
  | nil => rfl
  | cons c cs ih =>
    unfold splitSlash
    by_cases hc : c = '/'
    · rw [if_pos hc, List.length_cons, ih, hc, List.count_cons_self]
    · rw [if_neg hc, List.count_cons_of_ne (fun h => hc h.symm), ← ih]
      cases hs : splitSlash cs with
      | nil => exact absurd hs (splitSlash_ne_nil cs)
      | cons first others => rfl

theorem pieceSegments_length (P : List (List Char)) : (pieceSegments P).length = P.length := by
  induction P with
  | nil => rfl
  | cons piece rest ih =>
    cases rest with
    | nil =>
      unfold pieceSegments
      split <;> rfl
    | cons next rest1 =>
      unfold pieceSegments
      rw [List.length_cons, ih]
      rfl

theorem endsInSlash_pieces (p : String) (hp : Rooted p) :
    EndsInSlash p ↔ (splitSlash p.data.tail).getLast? = some [] := by
  unfold EndsInSlash
  rw [rooted_data p hp]
  simp only [List.tail_cons]
  generalize p.data.tail = l
  constructor
  · intro h
    by_cases hl : l = []
    · rw [hl]
      rfl
    · have h1 : l.getLast? = some '/' := by
        cases l with
        | nil => exact absurd rfl hl
        | cons a as => rw [List.getLast?_cons_cons] at h; exact h
      have h2 := (List.dropLast_append_getLast? '/' h1).symm
      rw [h2, splitSlash_append_slash, List.getLast?_append]
      rfl
  · intro h
    have h1 := (List.dropLast_append_getLast? [] h).symm
    have hj := joinSlash_splitSlash l
    rw [h1] at hj
    cases hd : (splitSlash l).dropLast with
    | nil =>
      rw [hd] at hj
      rw [← hj]
      rfl
    | cons a as =>
      rw [hd, joinSlash_append _ _ (by simp) (by simp)] at hj
      rw [← hj]
      have h3 : '/' :: (joinSlash (a :: as) ++ '/' :: joinSlash [([] : List Char)])
          = ('/' :: joinSlash (a :: as)) ++ ['/'] := rfl
      rw [h3, List.getLast?_append]
      rfl

theorem exactMatch_plain (mux : ServeMux122) (hplain : AllPlain mux)
    (host method y : String) (hroot : Rooted y) (hesc : ∀ c ∈ y.data, c ≠ '%')
    (h : exactMatch (mux.match_ host method y) y = true) :
    ∃ r ∈ mux.routes, r.entry.pattern = y := by
  cases hm : mux.match_ host method y with
  | none => rw [hm] at h; cases h
  | some c =>
    rw [hm] at h
    obtain ⟨r, hr, hpat, _, hfit, _⟩ := match_plain_sound mux hplain host method y hroot hesc c hm
    refine ⟨r, hr, ?_⟩
    have hrr := (hplain r hr).1.1
    rcases fits_pieces _ _ (splitSlash_ne_nil _) (splitSlash_ne_nil _) (piece_ne_slash _) hfit
      with heq | ⟨hlast, R, hR, hYR⟩
    · exact rooted_eq_of_pieces _ _ hrr hroot heq
    · unfold exactMatch at h
      simp only at h
      have hp := congrArg route.pat (hplain r hr).2
      rw [← hpat, hp] at h
      simp only [plainRoute] at h
      rw [lastIsMulti_pieceSegments _ (splitSlash_ne_nil _), decide_eq_true hlast] at h
      simp only [Bool.not_true, Bool.false_eq_true, if_false] at h
      have hne := rooted_ne_empty y hroot
      by_cases hend : y.data.getLast? = some '/'
      · rw [if_neg (fun hc => hc.2 hend)] at h
        have hlen := of_decide_eq_true h
        rw [pieceSegments_length] at hlen
        have hcount : y.data.count '/' = (splitSlash y.data.tail).length := by
          rw [splitSlash_length]
          conv => lhs; rw [rooted_data y hroot]
          rw [List.count_cons_self]
        rw [hcount, hYR, List.length_append, List.length_dropLast] at hlen
        have hRpos : 0 < R.length := List.length_pos.2 hR
        have hPpos : 0 < (splitSlash r.entry.pattern.data.tail).length :=
          List.length_pos.2 (splitSlash_ne_nil _)
        have hR1 : R.length = 1 := by omega
        obtain ⟨a, ha⟩ := List.length_eq_one.1 hR1
        have hylast := (endsInSlash_pieces y hroot).1 hend
        rw [hYR, ha, List.getLast?_append] at hylast
        have ha0 : a = [] := by simpa [Option.or] using hylast
        apply rooted_eq_of_pieces _ _ hrr hroot
        rw [hYR, ha, ha0]
        exact (List.dropLast_append_getLast? [] hlast).symm
      · rw [if_pos ⟨hne, hend⟩] at h
        cases h

theorem Handler122_of (mux : ServeMux122) (r : Request) (c : cand)
    (hesc : r.EscapedPath = r.Path)
    (hc : r.Method = "CONNECT" ∨ cleanPath r.Path = r.Path)
    (hred : mux.redirectsToSlash r.Host r.Method r.Path = false)
    (hm : mux.match_ r.Host r.Method r.Path = some c) :
    mux.Handler r = Selected.registered c.entry := by
  unfold ServeMux122.Handler
  by_cases hcon : r.Method = "CONNECT"
  · rw [if_pos hcon, hesc, hred, hm]
    rfl
  · have hcl : cleanPath r.Path = r.Path := by
      rcases hc with h | h
      · exact absurd h hcon
      · exact h
    rw [if_neg hcon, hesc]
    simp only [hcl, hred, hm, ne_eq, not_true_eq_false, if_false, Bool.false_eq_true]

theorem match_exact (mux : ServeMux122) (hplain : AllPlain mux)
    (hnd : (mux.routes.map (fun r => r.entry.pattern)).Nodup)
    (r0 : route) (hr0 : r0 ∈ mux.routes) (host method : String) :
    ∃ c, mux.match_ host method r0.entry.pattern = some c ∧ c.entry = r0.entry ∧
      c.pat = r0.pat := by
  have hpp := (hplain r0 hr0).1
  have hesc : ∀ c ∈ r0.entry.pattern.data, c ≠ '%' := fun c hc => (hpp.2.1 c hc).2.2.2
  have hfit0 := fits_self (splitSlash r0.entry.pattern.data.tail) (splitSlash_ne_nil _)
  cases hm : mux.match_ host method r0.entry.pattern with
  | none =>
    exact absurd hm (match_plain_complete mux hplain host method _ hpp.1 hesc r0 hr0 hfit0)
  | some c =>
    obtain ⟨r, hr, hpat, hentry, hfit, hbest⟩ :=
      match_plain_sound mux hplain host method _ hpp.1 hesc c hm
    have hQX := best_fit_pieces _ _ (splitSlash_ne_nil _) (splitSlash_ne_nil _)
      (piece_ne_slash _) hfit (hbest r0 hr0 hfit0)
    have hstr := rooted_eq_of_pieces _ _ (hplain r hr).1.1 hpp.1 hQX
    have hrr : r = r0 := List.inj_on_of_nodup_map hnd hr hr0 hstr
    rw [hrr] at hpat hentry
    exact ⟨c, rfl, hentry.symm, hpat.symm⟩

theorem redirects_exact (mux : ServeMux122) (hplain : AllPlain mux)
    (hnd : (mux.routes.map (fun r => r.entry.pattern)).Nodup)
    (r0 : route) (hr0 : r0 ∈ mux.routes) (host method : String) :
    mux.redirectsToSlash host method r0.entry.pattern = false := by
  unfold ServeMux122.redirectsToSlash
  by_cases hend : r0.entry.pattern.data.getLast? = some '/'
  · simp only [hend, decide_True, Bool.not_true, Bool.and_false, Bool.false_and]
  · obtain ⟨c, hm, _, hpat⟩ := match_exact mux hplain hnd r0 hr0 host method
    have hex : exactMatch (mux.match_ host method r0.entry.pattern) r0.entry.pattern = true := by
      rw [hm]
      unfold exactMatch
      simp only
      rw [hpat, congrArg route.pat (hplain r0 hr0).2]
      simp only [plainRoute]
      rw [lastIsMulti_pieceSegments _ (splitSlash_ne_nil _),
        decide_eq_false (mt (endsInSlash_pieces _ (hplain r0 hr0).1.1).2 hend)]
      rfl
    rw [hex]
    rfl

theorem Handler122_exact (mux : ServeMux122) (hplain : AllPlain mux)
    (hnd : (mux.routes.map (fun r => r.entry.pattern)).Nodup)
    (r0 : route) (hr0 : r0 ∈ mux.routes) (r : Request)
    (hpath : r.Path = r0.entry.pattern) (hesc : r.EscapedPath = r.Path)
    (hc : r.Method = "CONNECT" ∨ cleanPath r.Path = r.Path) :
    mux.Handler r = Selected.registered r0.entry := by
  obtain ⟨c, hm, hentry, _⟩ := match_exact mux hplain hnd r0 hr0 r.Host r.Method
  rw [← hentry]
  refine Handler122_of mux r c hesc hc ?_ ?_
  · rw [hpath]
    exact redirects_exact mux hplain hnd r0 hr0 _ _
  · rw [hpath]
    exact hm

theorem plainSegs_ne_nil (X : List (List Char)) (hX : X ≠ []) : plainSegs X ≠ [] := by
  obtain ⟨last, hlast, _⟩ := pieces_split X hX
  unfold plainSegs
  rw [hlast]
  intro h
  have h2 := (List.append_eq_nil.1 h).2
  split at h2
  · cases h2
  · cases h2
  · next hn => cases hn

theorem fits_root (X : List (List Char)) (hX : X ≠ []) :
    Fits (plainKeys (splitSlash ("/" : String).data.tail))
      (decide ((splitSlash ("/" : String).data.tail).getLast? = some [])) (plainSegs X) :=
  Or.inr ⟨rfl, plainSegs X, plainSegs_ne_nil X hX, rfl⟩

theorem append_slash_rooted (x : String) (h : Rooted x) : Rooted (x ++ "/") := by
  unfold Rooted at *
  rw [String.data_append]
  cases hd : x.data with
  | nil => rw [hd] at h; cases h
  | cons a as => rw [hd] at h; exact h

theorem append_slash_noEscape (x : String) (h : ∀ c ∈ x.data, c ≠ '%') :
    ∀ c ∈ (x ++ "/").data, c ≠ '%' := by
  intro c hc
  rw [String.data_append, List.mem_append] at hc
  rcases hc with h1 | h1
  · exact h c h1
  · rw [List.mem_singleton.1 h1]
    decide

theorem Handler122_fallback (mux : ServeMux122) (hplain : AllPlain mux)
    (hnd : (mux.routes.map (fun r => r.entry.pattern)).Nodup)
    (fb : route) (hfb : fb ∈ mux.routes) (hfbp : fb.entry.pattern = "/") (r : Request)
    (hroot : Rooted r.Path) (hnoesc : ∀ c ∈ r.Path.data, c ≠ '%')
    (hesc : r.EscapedPath = r.Path)
    (hc : r.Method = "CONNECT" ∨ cleanPath r.Path = r.Path)
    (h1 : ∀ r1 ∈ mux.routes, r1.entry.pattern ≠ "/" → r1.entry.pattern ≠ r.Path)
    (h2 : ∀ r1 ∈ mux.routes, r1.entry.pattern ≠ r.Path ++ "/")
    (h3 : ∀ r1 ∈ mux.routes, r1.entry.pattern ≠ "/" → EndsInSlash r1.entry.pattern →
      startsWith r.Path r1.entry.pattern = false) :
    mux.Handler r = Selected.registered fb.entry := by
  have hfit0 : Fits (plainKeys (splitSlash fb.entry.pattern.data.tail))
      (decide ((splitSlash fb.entry.pattern.data.tail).getLast? = some []))
      (plainSegs (splitSlash r.Path.data.tail)) := by
    rw [hfbp]
    exact fits_root _ (splitSlash_ne_nil _)
  cases hm : mux.match_ r.Host r.Method r.Path with
  | none =>
    exact absurd hm
      (match_plain_complete mux hplain r.Host r.Method _ hroot hnoesc fb hfb hfit0)
  | some c =>
    obtain ⟨r1, hr1, _, hentry, hfit, _⟩ :=
      match_plain_sound mux hplain r.Host r.Method _ hroot hnoesc c hm
    have hrr := (hplain r1 hr1).1.1
    have hroot1 : r1.entry.pattern = "/" := by
      by_contra hne
      rcases fits_pieces _ _ (splitSlash_ne_nil _) (splitSlash_ne_nil _) (piece_ne_slash _) hfit
        with heq | ⟨hlast, R, hR, hXR⟩
      · exact h1 r1 hr1 hne (rooted_eq_of_pieces _ _ hrr hroot heq)
      · have hsub := subtree_of_pieces _ _ hrr hroot hlast R hR hXR
        have hf := h3 r1 hr1 hne hsub.1
        rw [hsub.2] at hf
        cases hf
    have hr1fb : r1 = fb := List.inj_on_of_nodup_map hnd hr1 hfb (by rw [hroot1, hfbp])
    rw [← hr1fb, hentry]
    refine Handler122_of mux r c hesc hc ?_ hm
    unfold ServeMux122.redirectsToSlash
    cases hex : exactMatch (mux.match_ r.Host r.Method (r.Path ++ "/")) (r.Path ++ "/") with
    | false => exact Bool.and_false _
    | true =>
      obtain ⟨r2, hr2, hp2⟩ := exactMatch_plain mux hplain r.Host r.Method _
        (append_slash_rooted _ hroot) (append_slash_noEscape _ hnoesc) hex
      exact absurd hp2 (h2 r2 hr2)

/-! ## Every selected entry was registered -/

theorem matchPath_entry (segs : List String) :
    ∀ (cands : List cand) (c : cand), matchPath cands segs = some c →
      ∃ c0 ∈ cands, c0.entry = c.entry := by
  induction segs with
  | nil =>
    intro cands c h
    unfold matchPath at h
    exact ⟨c, List.mem_of_find?_eq_some h, rfl⟩
  | cons seg rest ih =>
    intro cands c h
    have hchild : ∀ k, matchPath (childCands k cands) rest = some c →
        ∃ c0 ∈ cands, c0.entry = c.entry := by
      intro k hk
      obtain ⟨c1, hc1, he1⟩ := ih _ c hk
      obtain ⟨c0, hc0, _, _, _, he0⟩ := (mem_childCands k cands c1).1 hc1
      exact ⟨c0, hc0, he0.trans he1⟩
    unfold matchPath at h
    cases h1 : matchPath (childCands seg cands) rest with
    | some c1 =>
      rw [h1] at h
      simp only [Option.some.injEq] at h
      rw [h] at h1
      exact hchild seg h1
    | none =>
      rw [h1] at h
      simp only at h
      by_cases hs : seg ≠ "/"
      · rw [if_pos hs] at h
        cases h2 : matchPath (childCands "" cands) rest with
        | some c2 =>
          rw [h2] at h
          simp only [Option.some.injEq] at h
          rw [h] at h2
          exact hchild "" h2
        | none =>
          rw [h2] at h
          exact ⟨c, List.mem_of_find?_eq_some h, rfl⟩
      · rw [if_neg hs] at h
        exact ⟨c, List.mem_of_find?_eq_some h, rfl⟩

theorem cands_entry (mux : ServeMux122) (host method : String) (c : cand)
    (h : c ∈ mux.cands host method) : ∃ r ∈ mux.routes, r.entry = c.entry := by
  unfold ServeMux122.cands at h
  obtain ⟨r, hr, hrc⟩ := List.mem_filterMap.1 h
  split at hrc
  · simp only [Option.some.injEq] at hrc
    rw [← hrc]
    exact ⟨r, hr, rfl⟩
  · cases hrc

theorem matchMethodAndPath_entry (mux : ServeMux122) (host method : String)
    (segs : List String) (c : cand) (h : mux.matchMethodAndPath host method segs = some c) :
    ∃ r ∈ mux.routes, r.entry = c.entry := by
  have hstep : ∀ m, matchPath (mux.cands host m) segs = some c →
      ∃ r ∈ mux.routes, r.entry = c.entry := by
    intro m hm
    obtain ⟨c0, hc0, he0⟩ := matchPath_entry segs _ c hm
    obtain ⟨r, hr, her⟩ := cands_entry mux host m c0 hc0
    exact ⟨r, hr, her.trans he0⟩
  unfold ServeMux122.matchMethodAndPath at h
  cases h1 : matchPath (mux.cands host method) segs with
  | some c1 =>
    rw [h1] at h
    simp only [Option.some.injEq] at h
    rw [h] at h1
    exact hstep _ h1
  | none =>
    rw [h1] at h
    simp only at h
    by_cases hm : method = "HEAD"
    · rw [if_pos hm] at h
      cases h2 : matchPath (mux.cands host "GET") segs with
      | some c2 =>
        rw [h2] at h
        simp only [Option.some.injEq] at h
        rw [h] at h2
        exact hstep _ h2
      | none =>
        rw [h2] at h
        exact hstep _ h
    · rw [if_neg hm] at h
      exact hstep _ h

theorem match_entry (mux : ServeMux122) (host method path : String) (c : cand)
    (h : mux.match_ host method path = some c) : ∃ r ∈ mux.routes, r.entry = c.entry := by
  unfold ServeMux122.match_ at h
  by_cases hh : host ≠ ""
  · rw [if_pos hh] at h
    cases h1 : mux.matchMethodAndPath host method (pathSegments path.data) with
    | some c1 =>
      rw [h1] at h
      simp only [Option.some.injEq] at h
      rw [h] at h1
      exact matchMethodAndPath_entry mux _ _ _ c h1
    | none =>
      rw [h1] at h
      exact matchMethodAndPath_entry mux _ _ _ c h
  · rw [if_neg hh] at h
    exact matchMethodAndPath_entry mux _ _ _ c h

theorem Handler122_registered (mux : ServeMux122) (r : Request) (x : muxEntry)
    (h : mux.Handler r = Selected.registered x) : ∃ rt ∈ mux.routes, rt.entry = x := by
  unfold ServeMux122.Handler at h
  split at h
  · split at h
    · cases h
    · split at h
      · next c hc =>
        simp only [Selected.registered.injEq] at h
        rw [← h]
        exact match_entry mux _ _ _ c hc
      · split at h <;> cases h
  · simp only at h
    split at h
    · cases h
    · split at h
      · cases h
      · split at h
        · next c hc =>
          simp only [Selected.registered.injEq] at h
          rw [← h]
          exact match_entry mux _ _ _ c hc
        · split at h <;> cases h

/-! ## Serving a request -/

theorem serveSelected_fst (sel : Selected) (r : Request) (s : World) :
    (serveSelected sel r s).1 = match sel with
      | Selected.registered e => Reply.handled (e.h (ResponseWriter.forRequest r) r s).1
      | Selected.redirect path rawQuery => Reply.redirected path rawQuery
      | Selected.notFound => Reply.pageNotFound
      | Selected.methodNotAllowed allow => Reply.methodNotAllowedPage allow := by
  unfold serveSelected
  cases sel with
  | registered e =>
    simp only
    generalize e.h (ResponseWriter.forRequest r) r s = res
    rcases res with ⟨res1 | res1, s2⟩ <;> rfl
  | redirect path rawQuery => rfl
  | notFound => rfl
  | methodNotAllowed allow => rfl

theorem fallback_reply (r : Request) (s : World) :
    (fallbackEntry.h (ResponseWriter.forRequest r) r s).1
      = HandlerResult.returned (written (r.Method == "HEAD") 404 notFoundDoc) := by
  unfold fallbackEntry ResponseWriter.forRequest
  simp only
  rw [loggingMiddleware_fst, notFoundHandler_head]

theorem configured_reply (e : Endpoint) (r : Request) (s : World) :
    ((configuredEntry e).h (ResponseWriter.forRequest r) r s).1 =
      if r.Method ≠ e.Method then
        HandlerResult.returned (written (r.Method == "HEAD") 405 methodNotAllowedDoc)
      else if 100 ≤ e.Response.Status ∧ e.Response.Status ≤ 999 then
        HandlerResult.returned
          (written (r.Method == "HEAD") e.Response.Status (bodyToJson e.Response.Body))
      else
        HandlerResult.panicked (Panic.invalidWriteHeaderCode e.Response.Status)
          ({ ResponseWriter.fresh with head := r.Method == "HEAD" }.headerSet "Content-Type"
            "application/json") := by
  unfold configuredEntry ResponseWriter.forRequest
  simp only
  rw [loggingMiddleware_fst, createConfiguredHandler_head]

theorem entry_reply_congr (config : Config) (x : muxEntry)
    (hx : x = fallbackEntry ∨ ∃ e ∈ config.Endpoints, x = configuredEntry e)
    (r r1 : Request) (s s1 : World) (hm : r.Method = r1.Method) :
    (x.h (ResponseWriter.forRequest r) r s).1 = (x.h (ResponseWriter.forRequest r1) r1 s1).1 := by
  rcases hx with rfl | ⟨e, _, rfl⟩
  · rw [fallback_reply, fallback_reply, hm]
  · rw [configured_reply, configured_reply, hm]

theorem not_head (m : String) (h : m ≠ "HEAD") : (m == "HEAD") = false := by
  simpa using h

/-! ## Either multiplexer -/

theorem registerWith_ok (use121 : Bool) (config : Config) (s s1 : World) (mux : Mux)
    (h : registerWith use121 config s = Except.ok (mux, s1)) :
    Registrable config ∧ mux.Built config := by
  unfold registerWith at h
  cases use121 with
  | true =>
    simp only [if_true] at h
    cases h1 : registerHandlers config s with
    | error p => rw [h1] at h; cases h
    | ok res =>
      obtain ⟨m, s2⟩ := res
      rw [h1] at h
      simp only [Except.ok.injEq, Prod.mk.injEq] at h
      rw [← h.1]
      exact ⟨(registerHandlers_ok_iff config s).1 ⟨m, s2, h1⟩,
        registerHandlers_registered config s s2 m h1⟩
  | false =>
    simp only [Bool.false_eq_true, if_false] at h
    cases h1 : registerHandlers122 config s with
    | error p => rw [h1] at h; cases h
    | ok res =>
      obtain ⟨m, s2⟩ := res
      rw [h1] at h
      simp only [Except.ok.injEq, Prod.mk.injEq] at h
      rw [← h.1]
      have hok := registerHandlers122_ok config s s2 m h1
      refine ⟨hok.1, hok.2.1, ?_, hok.2.2⟩
      intro hplain
      obtain ⟨s3, h3⟩ := registerHandlers122_plain config s hplain hok.1
      rw [h3] at h1
      exact ((Prod.mk.inj (Except.ok.inj h1)).1).symm

theorem registerWith_plain (use121 : Bool) (config : Config) (s : World)
    (hplain : PlainConfig config) (hreg : Registrable config) :
    ∃ mux s1, registerWith use121 config s = Except.ok (mux, s1) := by
  unfold registerWith
  cases use121 with
  | true =>
    obtain ⟨m, s1, h1⟩ := (registerHandlers_ok_iff config s).2 hreg
    simp only [if_true, h1]
    exact ⟨_, _, rfl⟩
  | false =>
    obtain ⟨s1, h1⟩ := registerHandlers122_plain config s hplain hreg
    simp only [Bool.false_eq_true, if_false, h1]
    exact ⟨_, _, rfl⟩

theorem runWith_single (use121 : Bool) (config : Config) (mux : Mux) (s s1 : World)
    (r : Request) (h : registerWith use121 config s = Except.ok (mux, s1)) :
    runWith use121 config [r] s = Except.ok [(serveSelected (mux.Handler r) r s1).1] := by
  unfold runWith
  rw [h]
  rfl

theorem plainMux_routes (config : Config) (r : route) :
    r ∈ (plainMux config).routes ↔
      r = plainRoute "/" (loggingMiddleware notFoundHandler) ∨
        ∃ e ∈ config.Endpoints, r = configuredRoute e := by
  unfold plainMux baseMux122
  simp only [List.mem_append, List.mem_reverse, List.mem_map, List.mem_singleton]
  constructor
  · rintro (⟨e, he, h⟩ | h)
    · exact Or.inr ⟨e, he, h.symm⟩
    · exact Or.inl h
  · rintro (h | ⟨e, he, h⟩)
    · exact Or.inr h
    · exact Or.inl ⟨e, he, h.symm⟩

theorem plainMux_allPlain (config : Config) (hplain : PlainConfig config) :
    AllPlain (plainMux config) := by
  intro r hr
  rcases (plainMux_routes config r).1 hr with h | ⟨e, he, h⟩
  · rw [h]
    exact ⟨by decide, rfl⟩
  · rw [h]
    exact ⟨hplain e he, rfl⟩

theorem plainMux_nodup (config : Config) (hreg : Registrable config) :
    ((plainMux config).routes.map (fun r => r.entry.pattern)).Nodup := by
  have hmap : (plainMux config).routes.map (fun r => r.entry.pattern)
      = (config.Endpoints.map (fun e => e.Path)).reverse ++ ["/"] := by
    unfold plainMux baseMux122
    simp only [List.map_append, List.map_reverse, List.map_map, List.map_cons, List.map_nil]
    rfl
  rw [hmap, List.nodup_append]
  refine ⟨List.nodup_reverse.2 hreg.2, List.nodup_singleton _, ?_⟩
  intro a ha hb
  rw [List.mem_singleton] at hb
  rw [List.mem_reverse, List.mem_map] at ha
  obtain ⟨e, he, hea⟩ := ha
  exact (hreg.1 e he).2 (hea.trans hb)

theorem selected_exact (config : Config) (mux : Mux) (hb : mux.Built config)
    (hplain : PlainConfig config) (hreg : Registrable config)
    (e : Endpoint) (he : e ∈ config.Endpoints) (r : Request)
    (hp : r.Path = e.Path) (hesc : r.EscapedPath = r.Path)
    (hc : r.Method = "CONNECT" ∨ cleanPath r.Path = r.Path) :
    mux.Handler r = Selected.registered (configuredEntry e) := by
  cases mux with
  | classic m =>
    have hr : Registered config m := hb
    have hroot : ∀ e ∈ config.Endpoints, Rooted e.Path := fun e he => (hplain e he).1
    exact Handler_exact m r (configuredEntry e) (hr.hosts_false hroot)
      (by rw [hp]; exact hr.declared e he) hc
  | routed m =>
    have hm : m = plainMux config := hb.2.1 hplain
    rw [hm]
    exact Handler122_exact (plainMux config) (plainMux_allPlain config hplain)
      (plainMux_nodup config hreg) (configuredRoute e)
      ((plainMux_routes config _).2 (Or.inr ⟨e, he, rfl⟩)) r hp hesc hc

theorem selected_fallback (config : Config) (mux : Mux) (hb : mux.Built config)
    (hplain : PlainConfig config) (hreg : Registrable config) (r : Request)
    (hhost : ¬ Rooted r.Host) (hroot : Rooted r.Path)
    (hnoesc : ∀ c ∈ r.Path.data, c ≠ '%') (hesc : r.EscapedPath = r.Path)
    (hc : r.Method = "CONNECT" ∨ cleanPath r.Path = r.Path)
    (h1 : ∀ e ∈ config.Endpoints, e.Path ≠ r.Path)
    (h2 : ∀ e ∈ config.Endpoints, e.Path ≠ r.Path ++ "/")
    (h3 : ∀ e ∈ config.Endpoints, EndsInSlash e.Path → startsWith r.Path e.Path = false) :
    mux.Handler r = Selected.registered fallbackEntry := by
  cases mux with
  | classic m =>
    have hr : Registered config m := hb
    have hv : ∀ e ∈ config.Endpoints, Rooted e.Path := fun e he => (hplain e he).1
    exact Handler_fallback hr hv r hhost hroot hc h1 h2 h3
  | routed m =>
    have hm : m = plainMux config := hb.2.1 hplain
    rw [hm]
    refine Handler122_fallback (plainMux config) (plainMux_allPlain config hplain)
      (plainMux_nodup config hreg) (plainRoute "/" (loggingMiddleware notFoundHandler))
      ((plainMux_routes config _).2 (Or.inl rfl)) rfl r hroot hnoesc hesc hc ?_ ?_ ?_
    · intro r1 hr1 hne
      rcases (plainMux_routes config r1).1 hr1 with h | ⟨e, he, h⟩
      · rw [h] at hne
        exact absurd rfl hne
      · rw [h]
        exact h1 e he
    · intro r1 hr1
      rcases (plainMux_routes config r1).1 hr1 with h | ⟨e, he, h⟩
      · rw [h]
        exact fun heq => append_slash_ne _ (rooted_ne_empty _ hroot) heq.symm
      · rw [h]
        exact h2 e he
    · intro r1 hr1 hne
      rcases (plainMux_routes config r1).1 hr1 with h | ⟨e, he, h⟩
      · rw [h] at hne
        exact absurd rfl hne
      · rw [h]
        exact h3 e he

theorem selected_registered (config : Config) (mux : Mux) (hb : mux.Built config)
    (r : Request) (x : muxEntry) (h : mux.Handler r = Selected.registered x) :
    x = fallbackEntry ∨ ∃ e ∈ config.Endpoints, x = configuredEntry e := by
  cases mux with
  | classic m =>
    have hr : Registered config m := hb
    exact Handler_registered hr r x h
  | routed m =>
    obtain ⟨rt, hrt, hx⟩ := Handler122_registered m r x h
    have hmem : x ∈ m.routes.map (fun r => r.entry) := List.mem_map.2 ⟨rt, hrt, hx⟩
    rw [hb.1, List.mem_append, List.mem_reverse, List.mem_map, List.mem_singleton] at hmem
    rcases hmem with ⟨e, he, hex⟩ | hfb
    · exact Or.inr ⟨e, he, hex.symm⟩
    · exact Or.inl hfb
theorem registerEndpoints_world (eps : List Endpoint) :
    ∀ (mux : ServeMux) (s s0 : World) (mux1 : ServeMux) (s1 : World),
      registerEndpoints eps mux s = Except.ok (mux1, s1) →
      ∃ s2, registerEndpoints eps mux s0 = Except.ok (mux1, s2) := by
  induction eps with
  | nil =>
    intro mux s s0 mux1 s1 h
    simp only [registerEndpoints, Except.ok.injEq, Prod.mk.injEq] at h
    exact ⟨s0, by rw [registerEndpoints, h.1]⟩
  | cons e0 rest ih =>
    intro mux s s0 mux1 s1 h
    unfold registerEndpoints at h ⊢
    cases hH : mux.Handle e0.Path (loggingMiddleware (createConfiguredHandler e0)) with
    | error p => rw [hH] at h; cases h
    | ok mux0 =>
      rw [hH] at h
      exact ih _ _ _ _ _ h

theorem registerHandlers_world (config : Config) (s s0 : World) (mux : ServeMux) (s1 : World)
    (h : registerHandlers config s = Except.ok (mux, s1)) :
    ∃ s2, registerHandlers config s0 = Except.ok (mux, s2) := by
  rw [registerHandlers_eq] at h ⊢
  exact registerEndpoints_world _ _ _ _ _ _ h

theorem cutAt_cons_false (p : Char → Bool) (c : Char) (cs : List Char) (h : p c = false) :
    cutAt p (c :: cs) = match cutAt p cs with
      | some (before, rest) => some (c :: before, rest)
      | none => none := by
  conv => lhs; unfold cutAt
  simp only [h, Bool.false_eq_true, if_false]

theorem parsePattern_rooted (s : String) (pat : pattern) (hroot : Rooted s)
    (h : parsePattern s = some pat) : pat.host = "" ∧ pat.method = "" := by
  have hd := rooted_data s hroot
  unfold parsePattern at h
  rw [hd] at h
  simp only [List.cons_ne_nil, if_false] at h
  rw [cutAt_cons_false _ '/' _ (by decide)] at h
  cases hcut : cutAt (fun c => decide (c = ' ' ∨ c = '\t')) s.data.tail with
  | some res =>
    obtain ⟨before, rest⟩ := res
    rw [hcut] at h
    simp only at h
    have hv : validMethod ('/' :: before) = false := by
      unfold validMethod
      simp only [List.isEmpty_cons, Bool.not_false, List.all_cons, Bool.true_and,
        Bool.and_eq_false_imp]
      intro h1
      exact absurd h1 (by decide)
    rw [if_pos ⟨List.cons_ne_nil _ _, by rw [hv]; rfl⟩] at h
    cases h
  | none =>
    rw [hcut] at h
    simp only [ne_eq, not_true_eq_false, false_and, if_false] at h
    have hc : cutAt (fun c => decide (c = '/')) ('/' :: s.data.tail)
        = some ([], '/' :: s.data.tail) := by
      unfold cutAt
      simp
    rw [hc] at h
    simp only at h
    split at h
    · cases h
    · split at h
      · cases h
      · rw [← Option.some.inj h]
        exact ⟨rfl, rfl⟩

theorem built_hostFree (config : Config) (mux : ServeMux122)
    (hb : (Mux.routed mux).Built config) (hv : ∀ e ∈ config.Endpoints, Rooted e.Path) :
    HostFree mux := by
  intro r hr
  have hparse := hb.2.2 r hr
  have hmem : r.entry ∈ mux.routes.map (fun r => r.entry) := List.mem_map.2 ⟨r, hr, rfl⟩
  rw [hb.1, List.mem_append, List.mem_reverse, List.mem_map, List.mem_singleton] at hmem
  refine parsePattern_rooted _ _ ?_ hparse
  rcases hmem with ⟨e, he, hex⟩ | hfb
  · rw [← hex]
    exact hv e he
  · rw [hfb]
    decide

/-! ## Replies as a function of the request -/

theorem registerEndpoints122_world (eps : List Endpoint) :
    ∀ (mux : ServeMux122) (s s0 : World) (mux1 : ServeMux122) (s1 : World),
      registerEndpoints122 eps mux s = Except.ok (mux1, s1) →
      ∃ s2, registerEndpoints122 eps mux s0 = Except.ok (mux1, s2) := by
  induction eps with
  | nil =>
    intro mux s s0 mux1 s1 h
    simp only [registerEndpoints122, Except.ok.injEq, Prod.mk.injEq] at h
    exact ⟨s0, by rw [registerEndpoints122, h.1]⟩
  | cons e0 rest ih =>
    intro mux s s0 mux1 s1 h
    unfold registerEndpoints122 at h ⊢
    cases hH : mux.register e0.Path (loggingMiddleware (createConfiguredHandler e0)) with
    | error p => rw [hH] at h; cases h
    | ok mux0 =>
      rw [hH] at h
      exact ih _ _ _ _ _ h

theorem registerWith_world (use121 : Bool) (config : Config) (s s0 s1 : World) (mux : Mux)
    (h : registerWith use121 config s = Except.ok (mux, s1)) :
    ∃ s2, registerWith use121 config s0 = Except.ok (mux, s2) := by
  unfold registerWith at h ⊢
  cases use121 with
  | true =>
    simp only [if_true] at h ⊢
    cases h1 : registerHandlers config s with
    | error p => rw [h1] at h; cases h
    | ok res =>
      obtain ⟨m, s3⟩ := res
      rw [h1] at h
      simp only [Except.ok.injEq, Prod.mk.injEq] at h
      obtain ⟨s2, h2⟩ := registerHandlers_world config s s0 m s3 h1
      rw [h2, ← h.1]
      exact ⟨_, rfl⟩
  | false =>
    simp only [Bool.false_eq_true, if_false] at h ⊢
    cases h1 : registerHandlers122 config s with
    | error p => rw [h1] at h; cases h
    | ok res =>
      obtain ⟨m, s3⟩ := res
      rw [h1] at h
      simp only [Except.ok.injEq, Prod.mk.injEq] at h
      rw [registerHandlers122_eq] at h1
      obtain ⟨s2, h2⟩ := registerEndpoints122_world _ _ _
        (s0.Printf "Configuring endpoints from config file:" []) m s3 h1
      rw [registerHandlers122_eq, h2, ← h.1]
      exact ⟨_, rfl⟩

theorem Handler122_host (mux : ServeMux122) (hfree : HostFree mux) (r : Request) :
    mux.Handler r = mux.Handler { r with Host := "" } := by
  simp only [ServeMux122.Handler, ServeMux122.redirectsToSlash, match_plain mux hfree,
    matchingMethods_plain mux hfree]

theorem selected_host (config : Config) (mux : Mux) (hb : mux.Built config)
    (hv : ∀ e ∈ config.Endpoints, Rooted e.Path) (r : Request) (hh : ¬ Rooted r.Host) :
    mux.Handler r = mux.Handler { r with Host := "" } := by
  cases mux with
  | classic m =>
    have hr : Registered config m := hb
    exact Handler_host hr hv r hh
  | routed m => exact Handler122_host m (built_hostFree config m hb hv) r

theorem serveWith_congr (config : Config) (mux : Mux) (hb : mux.Built config)
    (r r1 : Request) (s s1 : World) (hH : mux.Handler r = mux.Handler r1)
    (hm : r.Method = r1.Method) : (serveWith mux r s).1 = (serveWith mux r1 s1).1 := by
  unfold serveWith
  rw [serveSelected_fst, serveSelected_fst, ← hH]
  cases hsel : mux.Handler r with
  | registered e =>
    simp only
    rw [entry_reply_congr config e (selected_registered config mux hb r e hsel) r r1 s s1 hm]
  | redirect path rawQuery => rfl
  | notFound => rfl
  | methodNotAllowed allow => rfl

theorem serveAllWith_map (config : Config) (mux : Mux) (hb : mux.Built config)
    (s0 : World) (reqs : List Request) :
    ∀ s, (serveAllWith mux reqs s).1 = reqs.map (fun r => (serveWith mux r s0).1) := by
  induction reqs with
  | nil => intro s; rfl
  | cons r rest ih =>
    intro s
    simp only [serveAllWith, List.map_cons]
    rw [ih, serveWith_congr config mux hb r r s s0 rfl rfl]

/-! ## What serving leaves untouched -/

theorem sameTable_refl (s : World) : s.SameTable s := ⟨rfl, rfl⟩

theorem sameTable_trans {s s1 s2 : World} (h1 : s.SameTable s1) (h2 : s1.SameTable s2) :
    s.SameTable s2 := ⟨h2.1.trans h1.1, h2.2.trans h1.2⟩

theorem sameTable_Printf (s : World) (format : String) (args : List LogArg) :
    s.SameTable (s.Printf format args) := ⟨rfl, rfl⟩

theorem sameTable_now (s : World) : s.SameTable s.now.2 := by
  unfold World.now
  cases s.clock <;> exact ⟨rfl, rfl⟩

theorem sameTable_logging (next : HandlerFunc) (hn : ∀ (w : ResponseWriter) (r : Request) (s : World), s.SameTable (next w r s).2)
    (w : ResponseWriter) (r : Request) (s : World) :
    s.SameTable (loggingMiddleware next w r s).2 := by
  have h1 : s.SameTable (s.now.2.Printf "%s %s" [LogArg.str r.Method, LogArg.str r.Path]) :=
    sameTable_trans (sameTable_now s) (sameTable_Printf _ _ _)
  have h2 := hn w r (s.now.2.Printf "%s %s" [LogArg.str r.Method, LogArg.str r.Path])
  unfold loggingMiddleware
  simp only
  generalize next w r (s.now.2.Printf "%s %s" [LogArg.str r.Method, LogArg.str r.Path]) = res
    at h2
  rcases res with ⟨res1 | res1, s2⟩
  · exact sameTable_trans h1 (sameTable_trans h2
      (sameTable_trans (sameTable_now s2) (sameTable_Printf _ _ _)))
  · exact sameTable_trans h1 h2

theorem sameTable_entry (config : Config) (x : muxEntry)
    (hx : x = fallbackEntry ∨ ∃ e ∈ config.Endpoints, x = configuredEntry e)
    (w : ResponseWriter) (r : Request) (s : World) : s.SameTable (x.h w r s).2 := by
  rcases hx with rfl | ⟨e, _, rfl⟩
  · exact sameTable_logging _ (fun w r s => sameTable_refl s) w r s
  · refine sameTable_logging _ (fun w r s => ?_) w r s
    unfold createConfiguredHandler
    split <;> exact sameTable_refl s

theorem sameTable_serveWith (config : Config) (mux : Mux) (hb : mux.Built config)
    (r : Request) (s : World) : s.SameTable (serveWith mux r s).2 := by
  unfold serveWith serveSelected
  cases hsel : mux.Handler r with
  | registered e =>
    simp only
    have h := sameTable_entry config e (selected_registered config mux hb r e hsel)
      (ResponseWriter.forRequest r) r s
    generalize e.h (ResponseWriter.forRequest r) r s = res at h
    rcases res with ⟨res1 | res1, s2⟩
    · exact h
    · exact sameTable_trans h (sameTable_Printf _ _ _)
  | redirect path rawQuery => exact sameTable_refl s
  | notFound => exact sameTable_refl s
  | methodNotAllowed allow => exact sameTable_refl s

theorem sameTable_serveAllWith (config : Config) (mux : Mux) (hb : mux.Built config)
    (reqs : List Request) : ∀ s : World, s.SameTable (serveAllWith mux reqs s).2 := by
  induction reqs with
  | nil => intro s; exact sameTable_refl s
  | cons r rest ih =>
    intro s
    simp only [serveAllWith]
    exact sameTable_trans (sameTable_serveWith config mux hb r s) (ih _)

/-! ## The decoder reports exactly the mismatches -/

theorem mismatchItems_of_mem (t : goType) (items : List jsonValue) (v : jsonValue)
    (hv : v ∈ items) (h : mismatch t v = true) : mismatchItems t items = true := by
  induction items with
  | nil => cases hv
  | cons a rest ih =>
    unfold mismatchItems
    rcases List.mem_cons.1 hv with heq | hmem
    · rw [← heq, h]
      rfl
    · rw [ih hmem]
      exact Bool.or_true _

theorem mismatchValues_of_mem (members : List (List Nat × jsonValue)) (key : List Nat)
    (v : jsonValue) (hv : (key, v) ∈ members) (h : mismatch goType.any v = true) :
    mismatchValues members = true := by
  induction members with
  | nil => cases hv
  | cons a rest ih =>
    obtain ⟨k1, v1⟩ := a
    unfold mismatchValues
    rcases List.mem_cons.1 hv with heq | hmem
    · rw [← (Prod.mk.inj heq).2, h]
      rfl
    · rw [ih hmem]
      exact Bool.or_true _

theorem mismatchFields_of_mem (t fieldType : goType) (members : List (List Nat × jsonValue))
    (key : List Nat) (v : jsonValue) (hv : (key, v) ∈ members)
    (hf : t.field key = some fieldType) (h : mismatch fieldType v = true) :
    mismatchFields t members = true := by
  induction members with
  | nil => cases hv
  | cons a rest ih =>
    obtain ⟨k1, v1⟩ := a
    unfold mismatchFields
    rcases List.mem_cons.1 hv with heq | hmem
    · rw [← (Prod.mk.inj heq).1, ← (Prod.mk.inj heq).2, hf]
      simp only [h, Bool.true_or]
    · rw [ih hmem]
      exact Bool.or_true _

theorem struct_ne (t : goType) (h : t.isStruct = true) :
    t ≠ goType.stringMap ∧ t ≠ goType.any ∧ t ≠ goType.endpointSlice ∧ t ≠ goType.int ∧
      t ≠ goType.string := by
  cases t <;> first | decide | cases h

theorem mismatch_of_Mismatch (t : goType) (v : jsonValue) (h : Mismatch t v) :
    mismatch t v = true := by
  induction h with
  | bool t b h => unfold mismatch; simpa using h
  | string t raw h1 h2 => unfold mismatch; simp [h1, h2]
  | notInteger literal h => unfold mismatch; simp [h]
  | overflow literal h => unfold mismatch; simp [h]
  | number t literal h1 h2 => unfold mismatch; simp [h1, h2]
  | array t items h1 h2 => unfold mismatch; simp [h1, h2]
  | element items v hv _ ih =>
    unfold mismatch
    simp only [if_true]
    exact mismatchItems_of_mem _ items v hv ih
  | anyElement items v hv _ ih =>
    unfold mismatch
    rw [if_neg (by decide), if_pos rfl]
    exact mismatchItems_of_mem _ items v hv ih
  | object t members h1 h2 h3 =>
    unfold mismatch
    rw [if_neg (by rintro (h | h) <;> contradiction), h3]
    rfl
  | value t members key v ht hv _ ih =>
    unfold mismatch
    rw [if_pos ht]
    exact mismatchValues_of_mem members key v hv ih
  | field t fieldType members key v ht hv hf _ ih =>
    unfold mismatch
    have hne := struct_ne t ht
    rw [if_neg (by rintro (h | h); exact hne.1 h; exact hne.2.1 h), ht]
    simp only [if_true]
    exact mismatchFields_of_mem t fieldType members key v hv hf ih

mutual
theorem Mismatch_of_mismatch : ∀ (t : goType) (v : jsonValue), mismatch t v = true →
    Mismatch t v
  | t, jsonValue.null, h => by unfold mismatch at h; cases h
  | t, jsonValue.bool b, h => by
    unfold mismatch at h
    exact Mismatch.bool t b (by simpa using h)
  | t, jsonValue.string raw, h => by
    unfold mismatch at h
    simp only [Bool.and_eq_true, bne_iff_ne, ne_eq] at h
    exact Mismatch.string t raw h.1 h.2
  | t, jsonValue.number literal, h => by
    unfold mismatch at h
    by_cases h1 : t = goType.int
    · rw [if_pos h1] at h
      rw [h1]
      exact Mismatch.notInteger literal (by simpa using h)
    · rw [if_neg h1] at h
      by_cases h2 : t = goType.any
      · rw [if_pos h2] at h
        rw [h2]
        exact Mismatch.overflow literal h
      · exact Mismatch.number t literal h1 h2
  | t, jsonValue.array items, h => by
    unfold mismatch at h
    by_cases h1 : t = goType.endpointSlice
    · rw [if_pos h1] at h
      obtain ⟨v, hv, hm⟩ := Mismatch_of_mismatchItems goType.endpoint items h
      rw [h1]
      exact Mismatch.element items v hv hm
    · rw [if_neg h1] at h
      by_cases h2 : t = goType.any
      · rw [if_pos h2] at h
        obtain ⟨v, hv, hm⟩ := Mismatch_of_mismatchItems goType.any items h
        rw [h2]
        exact Mismatch.anyElement items v hv hm
      · exact Mismatch.array t items h1 h2
  | t, jsonValue.object members, h => by
    unfold mismatch at h
    by_cases h1 : t = goType.stringMap ∨ t = goType.any
    · rw [if_pos h1] at h
      obtain ⟨key, v, hv, hm⟩ := Mismatch_of_mismatchValues members h
      exact Mismatch.value t members key v h1 hv hm
    · rw [if_neg h1] at h
      by_cases h2 : t.isStruct = true
      · rw [if_pos h2] at h
        obtain ⟨key, v, ft, hv, hf, hm⟩ := Mismatch_of_mismatchFields t members h
        exact Mismatch.field t ft members key v h2 hv hf hm
      · exact Mismatch.object t members (fun h3 => h1 (Or.inl h3)) (fun h3 => h1 (Or.inr h3))
          (by simpa using h2)
theorem Mismatch_of_mismatchItems : ∀ (t : goType) (items : List jsonValue),
    mismatchItems t items = true → ∃ v ∈ items, Mismatch t v
  | _, [], h => by unfold mismatchItems at h; cases h
  | t, v :: rest, h => by
    unfold mismatchItems at h
    rcases Bool.or_eq_true _ _ ▸ h with h1 | h1
    · exact ⟨v, List.mem_cons_self _ _, Mismatch_of_mismatch t v h1⟩
    · obtain ⟨v1, hv1, hm⟩ := Mismatch_of_mismatchItems t rest h1
      exact ⟨v1, List.mem_cons_of_mem _ hv1, hm⟩
theorem Mismatch_of_mismatchValues : ∀ (members : List (List Nat × jsonValue)),
    mismatchValues members = true → ∃ key v, (key, v) ∈ members ∧ Mismatch goType.any v
  | [], h => by unfold mismatchValues at h; cases h
  | (key, v) :: rest, h => by
    unfold mismatchValues at h
    rcases Bool.or_eq_true _ _ ▸ h with h1 | h1
    · exact ⟨key, v, List.mem_cons_self _ _, Mismatch_of_mismatch goType.any v h1⟩
    · obtain ⟨k1, v1, hv1, hm⟩ := Mismatch_of_mismatchValues rest h1
      exact ⟨k1, v1, List.mem_cons_of_mem _ hv1, hm⟩
theorem Mismatch_of_mismatchFields : ∀ (t : goType) (members : List (List Nat × jsonValue)),
    mismatchFields t members = true →
      ∃ key v fieldType, (key, v) ∈ members ∧ t.field key = some fieldType ∧
        Mismatch fieldType v
  | _, [], h => by unfold mismatchFields at h; cases h
  | t, (key, v) :: rest, h => by
    unfold mismatchFields at h
    rcases Bool.or_eq_true _ _ ▸ h with h1 | h1
    · cases hf : t.field key with
      | none => rw [hf] at h1; cases h1
      | some ft =>
        rw [hf] at h1
        exact ⟨key, v, ft, List.mem_cons_self _ _, hf, Mismatch_of_mismatch ft v h1⟩
    · obtain ⟨k1, v1, ft, hv1, hf, hm⟩ := Mismatch_of_mismatchFields t rest h1
      exact ⟨k1, v1, ft, List.mem_cons_of_mem _ hv1, hf, hm⟩
end

theorem mismatch_iff (t : goType) (v : jsonValue) : mismatch t v = true ↔ Mismatch t v :=
  ⟨Mismatch_of_mismatch t v, mismatch_of_Mismatch t v⟩

/-! ## Loading the configuration -/

theorem unmarshalFails_iff (data : List UInt8) :
    unmarshalFails data = true ↔
      (checkValid (data.map UInt8.toNat) = false ∨
        ∃ v, document (data.map UInt8.toNat) = some v ∧ Mismatch goType.config v) := by
  unfold unmarshalFails
  cases hv : checkValid (data.map UInt8.toNat) with
  | false => simp
  | true =>
    cases hd : document (data.map UInt8.toNat) with
    | none => simp
    | some v =>
      simp only [Bool.not_true, Bool.false_or, Bool.true_eq_false, false_or,
        Option.some.injEq, exists_eq_left', mismatch_iff]

theorem loadConfig_read_error (env : Env) (filename : String) (config : Config)
    (data : List UInt8) (err : String) (hf : env.ReadFile filename = (data, some err)) :
    loadConfig env filename config = (config, some ("failed to read config file: " ++ err)) := by
  unfold loadConfig
  rw [hf]

theorem loadConfig_parse_error (env : Env) (filename : String) (config : Config)
    (data : List UInt8) (hf : env.ReadFile filename = (data, none))
    (hu : unmarshalFails data = true) :
    ∃ config1, loadConfig env filename config
      = (config1, some ("failed to parse config file: " ++ env.ErrorText data)) := by
  unfold loadConfig Unmarshal
  rw [hf]
  simp only
  cases hv : checkValid (data.map UInt8.toNat) with
  | false => exact ⟨config, rfl⟩
  | true =>
    simp only [Bool.not_true, Bool.false_eq_true, if_false, hu, if_true]
    exact ⟨_, rfl⟩

theorem loadConfig_accepts (env : Env) (filename : String) (config : Config)
    (data : List UInt8) (hf : env.ReadFile filename = (data, none))
    (hu : unmarshalFails data = false) :
    loadConfig env filename config = (env.Stored data config, none) := by
  have hv : checkValid (data.map UInt8.toNat) = true := by
    unfold unmarshalFails at hu
    cases h : checkValid (data.map UInt8.toNat) with
    | false => rw [h] at hu; cases hu
    | true => rfl
  unfold loadConfig Unmarshal
  rw [hf]
  simp only [hv, hu, Bool.not_true, Bool.false_eq_true, if_false]

/-! ## Properties of the specification (C1 to C10) -/

/-- C1, as stated, fails, on the classic multiplexer (`true`) and on the pattern
multiplexer of Go 1.22 and later (`false`) alike unless said otherwise; every
configuration below is valid. With the endpoint `GET /`, `main` panics when it
registers `/` a second time. The request for the declared path `/docs//index`
is answered with a redirect to `/docs/index`. With the declared status 150 the
final status is 200; with 204 no body is sent; a `HEAD` request gets no body.
On the pattern multiplexer, the declared paths `/hello world` and `/a<tab>b` make
`main` panic, the requests for the declared paths `/files/{$}` and `/a%41` get
the 404 fallback, and so does the request for the declared path `/a/b` when it
is written `/a%2Fb`. -/
theorem root_endpoint_never_served :
    (cfgRoot.Valid ∧
      runWith true cfgRoot [{ Method := "GET", Host := "", Path := "/" }] World.initial
        = Except.error (Panic.multipleRegistrations "/") ∧
      runWith false cfgRoot [{ Method := "GET", Host := "", Path := "/" }] World.initial
        = Except.error (Panic.patternConflict "/" "/")) ∧
    (cfgDocs.Valid ∧ ∀ use121,
      runWith use121 cfgDocs [{ Method := "GET", Host := "", Path := "/docs//index" }]
          World.initial
        = Except.ok [Reply.redirected "/docs/index" ""]) ∧
    (cfgInterim.Valid ∧ (written false 150 okDoc).status = 200 ∧ ∀ use121,
      runWith use121 cfgInterim [{ Method := "GET", Host := "", Path := "/early" }]
          World.initial
        = Except.ok [Reply.handled (HandlerResult.returned (written false 150 okDoc))]) ∧
    (cfgNoContent.Valid ∧ (written false 204 okDoc).body = [] ∧ ∀ use121,
      runWith use121 cfgNoContent [{ Method := "GET", Host := "", Path := "/empty" }]
          World.initial
        = Except.ok [Reply.handled (HandlerResult.returned (written false 204 okDoc))]) ∧
    (cfgHead.Valid ∧ (written true 200 okDoc).body = [] ∧ ∀ use121,
      runWith use121 cfgHead [{ Method := "HEAD", Host := "", Path := "/probe" }]
          World.initial
        = Except.ok [Reply.handled (HandlerResult.returned (written true 200 okDoc))]) ∧
    (cfgSpace.Valid ∧
      runWith false cfgSpace
          [{ Method := "GET", Host := "", Path := "/hello world",
             EscapedPath := "/hello%20world" }] World.initial
        = Except.error (Panic.badPattern "/hello world")) ∧
    (cfgTab.Valid ∧
      runWith false cfgTab
          [{ Method := "GET", Host := "", Path := "/a\tb", EscapedPath := "/a%09b" }]
          World.initial
        = Except.error (Panic.badPattern "/a\tb")) ∧
    (cfgDollar.Valid ∧
      runWith false cfgDollar
          [{ Method := "GET", Host := "", Path := "/files/\x7b$\x7d",
             EscapedPath := "/files/%7B$%7D" }] World.initial
        = Except.ok [Reply.handled (HandlerResult.returned (jsonResponse 404 notFoundDoc))]) ∧
    (cfgPercent.Valid ∧
      runWith false cfgPercent
          [{ Method := "GET", Host := "", Path := "/a%41", EscapedPath := "/a%2541" }]
          World.initial
        = Except.ok [Reply.handled (HandlerResult.returned (jsonResponse 404 notFoundDoc))]) ∧
    (cfgNested.Valid ∧
      runWith false cfgNested
          [{ Method := "GET", Host := "", Path := "/a/b", EscapedPath := "/a%2Fb" }]
          World.initial
        = Except.ok [Reply.handled (HandlerResult.returned (jsonResponse 404 notFoundDoc))]) :=
  ⟨⟨by decide, rfl, rfl⟩,
    ⟨by decide, fun use121 => by cases use121 <;> rfl⟩,
    ⟨by decide, rfl, fun use121 => by cases use121 <;> rfl⟩,
    ⟨by decide, rfl, fun use121 => by cases use121 <;> rfl⟩,
    ⟨by decide, rfl, fun use121 => by cases use121 <;> rfl⟩,
    ⟨by decide, rfl⟩, ⟨by decide, rfl⟩, ⟨by decide, rfl⟩, ⟨by decide, rfl⟩, ⟨by decide, rfl⟩⟩

/-- C1, amended: take a valid configuration whose endpoint paths are plain (they
begin with `/` and have no space, tab, `{`, `%` or empty segment `//`), pairwise
distinct and different from `/`, and a declared endpoint whose status is at
least 200 and neither 204 nor 304. A request with the endpoint's path, written
without escapes and in canonical form (or with the method `CONNECT`), and with
the endpoint's method, other than `HEAD`, is answered by exactly
`Content-Type: application/json`, the declared status and the declared body, on
the classic multiplexer and on the pattern multiplexer alike. -/
theorem declared_endpoint_answers (use121 : Bool) (config : Config) (e : Endpoint)
    (r : Request) (s : World)
    (hv : config.Valid) (hplain : PlainConfig config) (hreg : Registrable config)
    (he : e ∈ config.Endpoints)
    (hst : 200 ≤ e.Response.Status) (h204 : e.Response.Status ≠ 204)
    (h304 : e.Response.Status ≠ 304)
    (hp : r.Path = e.Path) (hesc : r.EscapedPath = r.Path)
    (hc : r.Method = "CONNECT" ∨ cleanPath r.Path = r.Path)
    (hm : r.Method = e.Method) (hhead : r.Method ≠ "HEAD") :
    runWith use121 config [r] s = Except.ok [Reply.handled (HandlerResult.returned
      (jsonResponse e.Response.Status (bodyToJson e.Response.Body)))] := by
  obtain ⟨mux, s1, h⟩ := registerWith_plain use121 config s hplain hreg
  have hb := (registerWith_ok use121 config s s1 mux h).2
  have hsel := selected_exact config mux hb hplain hreg e he r hp hesc hc
  rw [runWith_single use121 config mux s s1 r h, hsel, serveSelected_fst]
  simp only
  rw [configured_reply, if_neg (not_not.2 hm),
    if_pos ⟨by omega, by have := (hv e he).2.2; omega⟩, not_head _ hhead,
    written_plain _ _ hst h204 h304]

theorem declared_endpoint_answers_witness :
    cfgHealth.Valid ∧ PlainConfig cfgHealth ∧ Registrable cfgHealth ∧
      runWith false cfgHealth [{ Method := "GET", Host := "localhost", Path := "/health" }]
          World.initial
        = Except.ok [Reply.handled (HandlerResult.returned
            (jsonResponse 200 (Json.obj [("ok", Json.bool true)])))] :=
  ⟨by decide, by decide, by decide,
    declared_endpoint_answers false cfgHealth epHealth
      { Method := "GET", Host := "localhost", Path := "/health" } World.initial
      (by decide) (by decide) (by decide) (List.mem_singleton.2 rfl)
      (by decide) (by decide) (by decide) rfl rfl (Or.inr (by decide)) rfl (by decide)⟩

/-- C2, as stated, fails, on the classic multiplexer (`true`) and on the pattern
multiplexer of Go 1.22 and later (`false`) alike unless said otherwise. A `POST`
request for the declared path `/docs//index` of a `GET` endpoint is answered
with a redirect to `/docs/index`, not with 405. With `GET /items` and
`DELETE /items` declared, or with an endpoint declared at `/`, at the empty
path or at `health`, `main` panics while registering and no request is
answered (for `health`, on the pattern multiplexer). A `HEAD` request for the
path of a `GET` endpoint gets the status 405 without body. On the pattern
multiplexer the declared paths `/hello world` and `/a<tab>b` make `main` panic,
`POST` requests for the declared paths `/files/{$}` and `/a%41` get the 404
fallback, and so does the `POST` request for the declared path `/a/b` when it
is written `/a%2Fb`. -/
theorem mismatch_not_answered_405 :
    (∀ use121,
      runWith use121 cfgDocs [{ Method := "POST", Host := "", Path := "/docs//index" }]
          World.initial
        = Except.ok [Reply.redirected "/docs/index" ""]) ∧
    (runWith true cfgItems [{ Method := "DELETE", Host := "", Path := "/items" }] World.initial
        = Except.error (Panic.multipleRegistrations "/items") ∧
      runWith false cfgItems [{ Method := "DELETE", Host := "", Path := "/items" }]
          World.initial
        = Except.error (Panic.patternConflict "/items" "/items")) ∧
    (runWith true cfgRoot [{ Method := "POST", Host := "", Path := "/" }] World.initial
        = Except.error (Panic.multipleRegistrations "/") ∧
      runWith false cfgRoot [{ Method := "POST", Host := "", Path := "/" }] World.initial
        = Except.error (Panic.patternConflict "/" "/")) ∧
    (∀ use121,
      runWith use121 cfgNoPath [{ Method := "POST", Host := "", Path := "" }] World.initial
        = Except.error Panic.invalidPattern) ∧
    (runWith false cfgNoSlash [{ Method := "POST", Host := "", Path := "health" }]
          World.initial
        = Except.error (Panic.badPattern "health")) ∧
    ((written true 405 methodNotAllowedDoc).body = [] ∧ ∀ use121,
      runWith use121 cfgHealth [{ Method := "HEAD", Host := "", Path := "/health" }]
          World.initial
        = Except.ok [Reply.handled
            (HandlerResult.returned (written true 405 methodNotAllowedDoc))]) ∧
    (runWith false cfgSpace
          [{ Method := "POST", Host := "", Path := "/hello world",
             EscapedPath := "/hello%20world" }] World.initial
        = Except.error (Panic.badPattern "/hello world")) ∧
    (runWith false cfgTab
          [{ Method := "POST", Host := "", Path := "/a\tb", EscapedPath := "/a%09b" }]
          World.initial
        = Except.error (Panic.badPattern "/a\tb")) ∧
    (runWith false cfgDollar
          [{ Method := "POST", Host := "", Path := "/files/\x7b$\x7d",
             EscapedPath := "/files/%7B$%7D" }] World.initial
        = Except.ok [Reply.handled (HandlerResult.returned (jsonResponse 404 notFoundDoc))]) ∧
    (runWith false cfgPercent
          [{ Method := "POST", Host := "", Path := "/a%41", EscapedPath := "/a%2541" }]
          World.initial
        = Except.ok [Reply.handled (HandlerResult.returned (jsonResponse 404 notFoundDoc))]) ∧
    (runWith false cfgNested
          [{ Method := "POST", Host := "", Path := "/a/b", EscapedPath := "/a%2Fb" }]
          World.initial
        = Except.ok [Reply.handled (HandlerResult.returned (jsonResponse 404 notFoundDoc))]) :=
  ⟨fun use121 => by cases use121 <;> rfl, ⟨rfl, rfl⟩, ⟨rfl, rfl⟩,
    fun use121 => by cases use121 <;> rfl, rfl,
    ⟨rfl, fun use121 => by cases use121 <;> rfl⟩, rfl, rfl, rfl, rfl, rfl⟩

/-- C2, amended: take a configuration whose endpoint paths are plain (they begin
with `/` and have no space, tab, `{`, `%` or empty segment `//`), pairwise
distinct and different from `/`, and a declared endpoint. A request with the
endpoint's path, written without escapes and in canonical form (or with the
method `CONNECT`), and with a method string that differs from the declared one
and is not `HEAD`, is answered with status 405, `Content-Type: application/json`
and body `{"error": "Method not allowed"}`, whatever the declared status and
body, on the classic multiplexer and on the pattern multiplexer alike. -/
theorem method_mismatch_answers_405 (use121 : Bool) (config : Config) (e : Endpoint)
    (r : Request) (s : World)
    (hplain : PlainConfig config) (hreg : Registrable config) (he : e ∈ config.Endpoints)
    (hp : r.Path = e.Path) (hesc : r.EscapedPath = r.Path)
    (hc : r.Method = "CONNECT" ∨ cleanPath r.Path = r.Path)
    (hm : r.Method ≠ e.Method) (hhead : r.Method ≠ "HEAD") :
    runWith use121 config [r] s = Except.ok [Reply.handled (HandlerResult.returned
      (jsonResponse 405 methodNotAllowedDoc))] := by
  obtain ⟨mux, s1, h⟩ := registerWith_plain use121 config s hplain hreg
  have hb := (registerWith_ok use121 config s s1 mux h).2
  have hsel := selected_exact config mux hb hplain hreg e he r hp hesc hc
  rw [runWith_single use121 config mux s s1 r h, hsel, serveSelected_fst]
  simp only
  rw [configured_reply, if_pos hm, not_head _ hhead,
    written_plain _ _ (by decide) (by decide) (by decide)]

theorem method_mismatch_answers_405_witness :
    PlainConfig cfgHealth ∧ Registrable cfgHealth ∧ "get" ≠ epHealth.Method ∧
      runWith false cfgHealth [{ Method := "get", Host := "localhost", Path := "/health" }]
          World.initial
        = Except.ok [Reply.handled (HandlerResult.returned
            (jsonResponse 405 (Json.obj [("error", Json.str "Method not allowed")])))] :=
  ⟨by decide, by decide, by decide,
    method_mismatch_answers_405 false cfgHealth epHealth
      { Method := "get", Host := "localhost", Path := "/health" } World.initial
      (by decide) (by decide) (List.mem_singleton.2 rfl) rfl rfl (Or.inr (by decide))
      (by decide) (by decide)⟩

/-- C3, as stated, fails, on the classic multiplexer (`true`) and on the pattern
multiplexer of Go 1.22 and later (`false`) alike unless said otherwise. With the
single endpoint `GET /api/` declared, the path `/api/users` equals no declared
path, yet the request is answered by that endpoint with its status 200 and its
body; and the request for `/api?a=1` is answered with a redirect to `/api/?a=1`.
The request for `/docs/../x` is answered with a redirect to `/x`. A `HEAD`
request for an undeclared path gets the status 404 without body. On the
pattern multiplexer, the endpoint declared at `/users/{id}` answers the request
for `/users/42`, the one declared at `/a%41` answers the request for `/aA`, and
the one declared at `/a//b` answers the request for `/a/x/b`; with the declared
path `/hello world`, `/a<tab>b`, or `health`, `main` panics and no request is answered. -/
theorem subtree_endpoint_answers_extension :
    ((∀ e ∈ cfgApi.Endpoints, e.Path ≠ "/api/users") ∧ ∀ use121,
      runWith use121 cfgApi [{ Method := "GET", Host := "", Path := "/api/users" }]
          World.initial
        = Except.ok [Reply.handled (HandlerResult.returned (jsonResponse 200
            (Json.obj [("api", Json.bool true)])))]) ∧
    ((∀ e ∈ cfgApi.Endpoints, e.Path ≠ "/api") ∧ ∀ use121,
      runWith use121 cfgApi [{ Method := "GET", Host := "", Path := "/api", RawQuery := "a=1" }]
          World.initial
        = Except.ok [Reply.redirected "/api/" "a=1"]) ∧
    ((∀ e ∈ cfgHealth.Endpoints, e.Path ≠ "/docs/../x") ∧ ∀ use121,
      runWith use121 cfgHealth [{ Method := "GET", Host := "", Path := "/docs/../x" }]
          World.initial
        = Except.ok [Reply.redirected "/x" ""]) ∧
    ((∀ e ∈ cfgHealth.Endpoints, e.Path ≠ "/missing") ∧
      (written true 404 notFoundDoc).body = [] ∧ ∀ use121,
      runWith use121 cfgHealth [{ Method := "HEAD", Host := "", Path := "/missing" }]
          World.initial
        = Except.ok [Reply.handled (HandlerResult.returned (written true 404 notFoundDoc))]) ∧
    ((∀ e ∈ cfgWildcard.Endpoints, e.Path ≠ "/users/42") ∧
      runWith false cfgWildcard [{ Method := "GET", Host := "", Path := "/users/42" }]
          World.initial
        = Except.ok [Reply.handled (HandlerResult.returned (jsonResponse 200 okDoc))]) ∧
    ((∀ e ∈ cfgPercent.Endpoints, e.Path ≠ "/aA") ∧
      runWith false cfgPercent [{ Method := "GET", Host := "", Path := "/aA" }] World.initial
        = Except.ok [Reply.handled (HandlerResult.returned (jsonResponse 200 okDoc))]) ∧
    ((∀ e ∈ cfgGap.Endpoints, e.Path ≠ "/a/x/b") ∧
      runWith false cfgGap [{ Method := "GET", Host := "", Path := "/a/x/b" }] World.initial
        = Except.ok [Reply.handled (HandlerResult.returned (jsonResponse 200 okDoc))]) ∧
    ((∀ e ∈ cfgSpace.Endpoints, e.Path ≠ "/missing") ∧
      runWith false cfgSpace [{ Method := "GET", Host := "", Path := "/missing" }] World.initial
        = Except.error (Panic.badPattern "/hello world")) ∧
    ((∀ e ∈ cfgTab.Endpoints, e.Path ≠ "/missing") ∧
      runWith false cfgTab [{ Method := "GET", Host := "", Path := "/missing" }] World.initial
        = Except.error (Panic.badPattern "/a\tb")) ∧
    ((∀ e ∈ cfgNoSlash.Endpoints, e.Path ≠ "/missing") ∧
      runWith false cfgNoSlash [{ Method := "GET", Host := "", Path := "/missing" }]
          World.initial
        = Except.error (Panic.badPattern "health")) :=
  ⟨⟨by decide, fun use121 => by cases use121 <;> rfl⟩,
    ⟨by decide, fun use121 => by cases use121 <;> rfl⟩,
    ⟨by decide, fun use121 => by cases use121 <;> rfl⟩,
    ⟨by decide, rfl, fun use121 => by cases use121 <;> rfl⟩,
    ⟨by decide, rfl⟩, ⟨by decide, rfl⟩, ⟨by decide, rfl⟩, ⟨by decide, rfl⟩, ⟨by decide, rfl⟩,
    ⟨by decide, rfl⟩⟩

/-- C3, amended: take a configuration whose endpoint paths are plain (they begin
with `/` and have no space, tab, `{`, `%` or empty segment `//`), pairwise
distinct and different from `/`, and a request whose method is not `HEAD`, whose
host does not begin with `/` and whose path begins with `/`, is written without
escapes and is in canonical form (or whose method is `CONNECT`). When the path
equals no declared path, the path followed by `/` equals no declared path, and
no declared path ending in `/` is a leading part of the path, the answer is
status 404 with `Content-Type: application/json` and body
`{"error": "Not Found"}`, whatever the method, on the classic multiplexer and on
the pattern multiplexer alike. -/
theorem undeclared_path_answers_404 (use121 : Bool) (config : Config) (r : Request)
    (s : World)
    (hplain : PlainConfig config) (hreg : Registrable config)
    (hhead : r.Method ≠ "HEAD") (hhost : ¬ Rooted r.Host) (hroot : Rooted r.Path)
    (hnoesc : ∀ c ∈ r.Path.data, c ≠ '%') (hesc : r.EscapedPath = r.Path)
    (hc : r.Method = "CONNECT" ∨ cleanPath r.Path = r.Path)
    (h1 : ∀ e ∈ config.Endpoints, e.Path ≠ r.Path)
    (h2 : ∀ e ∈ config.Endpoints, e.Path ≠ r.Path ++ "/")
    (h3 : ∀ e ∈ config.Endpoints, EndsInSlash e.Path → startsWith r.Path e.Path = false) :
    runWith use121 config [r] s = Except.ok [Reply.handled (HandlerResult.returned
      (jsonResponse 404 notFoundDoc))] := by
  obtain ⟨mux, s1, h⟩ := registerWith_plain use121 config s hplain hreg
  have hb := (registerWith_ok use121 config s s1 mux h).2
  have hsel := selected_fallback config mux hb hplain hreg r hhost hroot hnoesc hesc hc
    h1 h2 h3
  rw [runWith_single use121 config mux s s1 r h, hsel, serveSelected_fst]
  simp only
  rw [fallback_reply, not_head _ hhead, written_plain _ _ (by decide) (by decide) (by decide)]

theorem undeclared_path_answers_404_witness :
    PlainConfig cfgHealth ∧ Registrable cfgHealth ∧
      (∀ e ∈ cfgHealth.Endpoints, e.Path ≠ "/missing") ∧
      runWith false cfgHealth [{ Method := "GET", Host := "localhost", Path := "/missing" }]
          World.initial
        = Except.ok [Reply.handled (HandlerResult.returned
            (jsonResponse 404 (Json.obj [("error", Json.str "Not Found")])))] :=
  ⟨by decide, by decide, by decide,
    undeclared_path_answers_404 false cfgHealth
      { Method := "GET", Host := "localhost", Path := "/missing" } World.initial
      (by decide) (by decide) (by decide) (by decide) (by decide) (by decide) rfl
      (Or.inr (by decide)) (by decide) (by decide) (by decide)⟩

set_option maxRecDepth 100000

/-- C6, as stated, fails for each of the three kinds of path it names, on the
classic multiplexer (`true`) and on the pattern multiplexer of Go 1.22 and later
(`false`) alike. A configuration that `loadConfig` accepts makes `main` panic
in the registration loop, before the listen step: when an endpoint has the
empty path, when an endpoint is declared at `/`, and when two endpoints share
the path `/users`. On the pattern multiplexer `main` also panics on the
declared path `/hello world`, which is none of the three kinds. -/
theorem unregistrable_path_main_panics :
    (loadConfig (envOf textNoPath cfgNoPath) "config.json" Config.zero = (cfgNoPath, none) ∧
      ∀ use121, main use121 (envOf textNoPath cfgNoPath) World.initial
        = Startup.panicked Panic.invalidPattern) ∧
    (loadConfig (envOf textRoot cfgRoot) "config.json" Config.zero = (cfgRoot, none) ∧
      main true (envOf textRoot cfgRoot) World.initial
        = Startup.panicked (Panic.multipleRegistrations "/") ∧
      main false (envOf textRoot cfgRoot) World.initial
        = Startup.panicked (Panic.patternConflict "/" "/")) ∧
    (loadConfig (envOf textUsers cfgUsers) "config.json" Config.zero = (cfgUsers, none) ∧
      main true (envOf textUsers cfgUsers) World.initial
        = Startup.panicked (Panic.multipleRegistrations "/users") ∧
      main false (envOf textUsers cfgUsers) World.initial
        = Startup.panicked (Panic.patternConflict "/users" "/users")) ∧
    (loadConfig (envOf textSpace cfgSpace) "config.json" Config.zero = (cfgSpace, none) ∧
      main false (envOf textSpace cfgSpace) World.initial
        = Startup.panicked (Panic.badPattern "/hello world")) :=
  ⟨⟨rfl, fun use121 => by cases use121 <;> rfl⟩, ⟨rfl, rfl, rfl⟩, ⟨rfl, rfl, rfl⟩, ⟨rfl, rfl⟩⟩

/-- C6, amended: take a configuration that `loadConfig` accepts, on the classic
multiplexer or on the pattern multiplexer. When an endpoint path is empty or
`/`, or two endpoints share a path, `main` panics in `http.HandleFunc` and does
not reach the listen step. When every endpoint path is plain (it begins with
`/` and has no space, tab, `{`, `%` or empty segment `//`), `main` reaches the
listen step exactly when every endpoint path differs from `/` and no two
endpoints share a path. -/
theorem main_listens_iff_registrable (use121 : Bool) (env : Env) (s : World) (config : Config)
    (hload : loadConfig env
      (if env.Getenv "CONFIG_FILE" = "" then "config.json" else env.Getenv "CONFIG_FILE")
      Config.zero = (config, none)) :
    (¬ Registrable config → ∃ p, main use121 env s = Startup.panicked p) ∧
      (PlainConfig config →
        ((∃ addr mux s1, main use121 env s = Startup.listening addr mux s1)
          ↔ Registrable config)) := by
  have hmain : main use121 env s = match registerWith use121 config
      { (s.Printf "Loading configuration from: %s"
        [LogArg.str (if env.Getenv "CONFIG_FILE" = "" then "config.json"
          else env.Getenv "CONFIG_FILE")]) with config := config } with
      | Except.error p => Startup.panicked p
      | Except.ok (mux, s2) =>
        Startup.listening
          (":" ++ (if (if env.Getenv "PORT" = "" then config.Server.Port
              else env.Getenv "PORT") = "" then "8080"
            else (if env.Getenv "PORT" = "" then config.Server.Port else env.Getenv "PORT")))
          mux
          (((s2.Printf "\nServer starting on http://localhost%s"
            [LogArg.str (":" ++ (if (if env.Getenv "PORT" = "" then config.Server.Port
                else env.Getenv "PORT") = "" then "8080"
              else (if env.Getenv "PORT" = "" then config.Server.Port
                else env.Getenv "PORT")))]).Printf
            "Total endpoints configured: %d" [LogArg.int config.Endpoints.length]).Printf
            "Press Ctrl+C to stop\n" []) := by
    unfold main
    simp only [hload]
  rw [hmain]
  cases h : registerWith use121 config
      { (s.Printf "Loading configuration from: %s"
        [LogArg.str (if env.Getenv "CONFIG_FILE" = "" then "config.json"
          else env.Getenv "CONFIG_FILE")]) with config := config } with
  | error p =>
    refine ⟨fun _ => ⟨p, rfl⟩, fun hplain => ⟨?_, ?_⟩⟩
    · rintro ⟨addr, mux, s1, h1⟩
      cases h1
    · intro hreg
      obtain ⟨mux, s1, h1⟩ := registerWith_plain use121 config _ hplain hreg
      rw [h1] at h
      cases h
  | ok res =>
    obtain ⟨mux, s2⟩ := res
    have hreg : Registrable config := (registerWith_ok use121 config _ s2 mux h).1
    exact ⟨fun hnot => absurd hreg hnot, fun _ => ⟨fun _ => hreg, fun _ => ⟨_, mux, _, rfl⟩⟩⟩

theorem main_listens_iff_registrable_witness :
    loadConfig (envOf textHealth cfgHealth) "config.json" Config.zero = (cfgHealth, none) ∧
      (¬ Registrable cfgHealth →
        ∃ p, main false (envOf textHealth cfgHealth) World.initial = Startup.panicked p) ∧
      (PlainConfig cfgHealth →
        ((∃ addr mux s1,
            main false (envOf textHealth cfgHealth) World.initial = Startup.listening addr mux s1)
          ↔ Registrable cfgHealth)) :=
  ⟨rfl, main_listens_iff_registrable false (envOf textHealth cfgHealth) World.initial cfgHealth
    rfl⟩

/-- C7, as stated, fails: in the match outcome of an endpoint with status 1000
the handler sets the `Content-Type` header and then panics in `WriteHeader`; the
status is not written and no JSON value is serialised. -/
theorem invalid_status_writes_no_body :
    (createConfiguredHandler epBigStatus ResponseWriter.fresh
        { Method := "GET", Host := "", Path := "/big" } World.initial).1
      = HandlerResult.panicked (Panic.invalidWriteHeaderCode 1000)
          { header := [("Content-Type", "application/json")]
            wroteHeader := false
            status := 0
            sentHeader := []
            body := []
            calls := [Call.headerSet "Content-Type" "application/json"] } :=
  rfl

/-- C7, amended: on a fresh writer the completed calls of a handler are, in this
order, `Header().Set("Content-Type", "application/json")`, one `WriteHeader` and
one `Encode`: with 404 and `{"error": "Not Found"}` in the fallback, with 405
and `{"error": "Method not allowed"}` on a method mismatch, with the declared
status and body on a match whose status is within 100..999. On a match with
any other status only the header is set: `WriteHeader` panics and nothing more
is written. The header is always set first and at most one body is encoded. -/
theorem handler_call_order (e : Endpoint) (r : Request) (s : World) :
    (notFoundHandler ResponseWriter.fresh r s).1.writer.calls
        = [Call.headerSet "Content-Type" "application/json", Call.writeHeader 404,
            Call.write notFoundDoc] ∧
      (createConfiguredHandler e ResponseWriter.fresh r s).1.writer.calls =
        (if r.Method ≠ e.Method then
          [Call.headerSet "Content-Type" "application/json", Call.writeHeader 405,
            Call.write methodNotAllowedDoc]
        else if 100 ≤ e.Response.Status ∧ e.Response.Status ≤ 999 then
          [Call.headerSet "Content-Type" "application/json",
            Call.writeHeader e.Response.Status, Call.write (bodyToJson e.Response.Body)]
        else
          [Call.headerSet "Content-Type" "application/json"]) := by
  constructor
  · have h := notFoundHandler_head false r s
    rw [fresh_head_false] at h
    rw [h]
    rfl
  · have h := createConfiguredHandler_head e false r s
    rw [fresh_head_false] at h
    rw [h]
    simp only
    split
    · rfl
    · split <;> rfl

/-- C8, as stated, fails: `null` is accepted where the schema has an array or
an integer. The file `{"endpoints": null}`, whose `endpoints` is not an array,
and a file whose endpoint has `"status": null`, which is not an integer, are
loaded with a nil error. And a file that is valid JSON and has the structure of
the schema, but holds the number `1e999` in a body, gets the parse error. -/
theorem null_endpoints_accepted :
    (document ((asciiBytes textNullEndpoints).map UInt8.toNat)
        = some (jsonValue.object [((asciiBytes "endpoints").map UInt8.toNat, jsonValue.null)]) ∧
      loadConfig (envOf textNullEndpoints Config.zero) "config.json" Config.zero
        = (Config.zero, none)) ∧
    (loadConfig (envOf textNullStatus { Server := { Port := "" }, Endpoints := [epNullStatus] })
        "config.json" Config.zero
        = ({ Server := { Port := "" }, Endpoints := [epNullStatus] }, none)) ∧
    (checkValid ((asciiBytes textHugeNumber).map UInt8.toNat) = true ∧
      (loadConfig (envOf textHugeNumber Config.zero) "config.json" Config.zero).2
        = some "failed to parse config file: ") :=
  ⟨⟨rfl, rfl⟩, rfl, ⟨rfl, rfl⟩⟩

/-- C8, amended: `loadConfig` returns the read error
`failed to read config file: <err>` exactly when `ioutil.ReadFile` fails (the
configuration is then untouched); the parse error
`failed to parse config file: <err>` exactly when the bytes were read and are
not one valid JSON value, or some value in it does not fit the Go type it is
decoded into (`Mismatch`: the document, `server`, an endpoint and `response`
take an object, `endpoints` an array, `port`, `path` and `method` a string,
`status` an integer literal within `int64`, `body` an object whose numbers do
not overflow `float64`; keys are compared without regard to case and values
under other keys are skipped); and nil otherwise. `null` fits every type, so
`"endpoints": null` and `"status": null` are loaded without error. The two
messages begin differently, and a parse error is never reported for an
unreadable file. -/
theorem loadConfig_classifies (env : Env) (filename : String) (config : Config) :
    (∀ err, (env.ReadFile filename).2 = some err →
        loadConfig env filename config = (config, some ("failed to read config file: " ++ err))) ∧
      (messageStartsWith (loadConfig env filename config).2 "failed to read config file" = true
        ↔ (env.ReadFile filename).2 ≠ none) ∧
      (messageStartsWith (loadConfig env filename config).2 "failed to parse config file" = true
        ↔ (env.ReadFile filename).2 = none ∧
          (checkValid ((env.ReadFile filename).1.map UInt8.toNat) = false ∨
            ∃ v, document ((env.ReadFile filename).1.map UInt8.toNat) = some v ∧
              Mismatch goType.config v)) ∧
      ((loadConfig env filename config).2 = none
        ↔ (env.ReadFile filename).2 = none ∧
          checkValid ((env.ReadFile filename).1.map UInt8.toNat) = true ∧
          ∀ v, document ((env.ReadFile filename).1.map UInt8.toNat) = some v →
            ¬ Mismatch goType.config v) ∧
      (∀ t, ¬ Mismatch t jsonValue.null) := by
  refine ⟨?_, ?_, ?_, ?_, fun t h => (nomatch h)⟩
  all_goals rcases hf : env.ReadFile filename with ⟨data, ferr⟩
  · intro err h
    cases ferr with
    | none => cases h
    | some ferr =>
      have h1 : ferr = err := Option.some.inj h
      rw [← h1]
      exact loadConfig_read_error env filename config data ferr hf
  · cases ferr with
    | some ferr =>
      rw [loadConfig_read_error env filename config data ferr hf]
      exact ⟨fun _ h => (nomatch h), fun _ => rfl⟩
    | none =>
      cases hu : unmarshalFails data with
      | true =>
        obtain ⟨config1, h1⟩ := loadConfig_parse_error env filename config data hf hu
        rw [h1]
        exact ⟨fun h => (nomatch h), fun h => absurd rfl h⟩
      | false =>
        rw [loadConfig_accepts env filename config data hf hu]
        exact ⟨fun h => (nomatch h), fun h => absurd rfl h⟩
  · cases ferr with
    | some ferr =>
      rw [loadConfig_read_error env filename config data ferr hf]
      exact ⟨fun h => (nomatch h), fun h => (nomatch h.1)⟩
    | none =>
      show _ ↔ (none : Option String) = none ∧ _
      cases hu : unmarshalFails data with
      | true =>
        obtain ⟨config1, h1⟩ := loadConfig_parse_error env filename config data hf hu
        rw [h1]
        exact ⟨fun _ => ⟨rfl, (unmarshalFails_iff data).1 hu⟩, fun _ => rfl⟩
      | false =>
        rw [loadConfig_accepts env filename config data hf hu]
        refine ⟨fun h => (nomatch h), fun h => ?_⟩
        have := (unmarshalFails_iff data).2 h.2
        rw [hu] at this
        cases this
  · cases ferr with
    | some ferr =>
      rw [loadConfig_read_error env filename config data ferr hf]
      exact ⟨fun h => (nomatch h), fun h => (nomatch h.1)⟩
    | none =>
      show _ ↔ (none : Option String) = none ∧ _
      cases hu : unmarshalFails data with
      | true =>
        obtain ⟨config1, h1⟩ := loadConfig_parse_error env filename config data hf hu
        rw [h1]
        refine ⟨fun h => (nomatch h), fun h => ?_⟩
        rcases (unmarshalFails_iff data).1 hu with hv | ⟨v, hd, hm⟩
        · rw [h.2.1] at hv
          cases hv
        · exact absurd hm (h.2.2 v hd)
      | false =>
        rw [loadConfig_accepts env filename config data hf hu]
        refine ⟨fun _ => ⟨rfl, ?_, ?_⟩, fun _ => rfl⟩
        · cases hv : checkValid (data.map UInt8.toNat) with
          | true => rfl
          | false =>
            have := (unmarshalFails_iff data).2 (Or.inl hv)
            rw [hu] at this
            cases this
        · intro v hd hm
          have := (unmarshalFails_iff data).2 (Or.inr ⟨v, hd, hm⟩)
          rw [hu] at this
          cases this

/-- C9, as stated, fails: wrapped around the handler of an endpoint with status
-1, the logging wrapper writes its first record and invokes the handler, which
panics in `WriteHeader`; the panic unwinds through the wrapper and the record
`Request completed in ...` is never written. -/
theorem logging_panic_skips_completion_record :
    (loggingMiddleware (createConfiguredHandler epNegative) ResponseWriter.fresh
        { Method := "GET", Host := "", Path := "/neg" } World.initial).1
      = HandlerResult.panicked (Panic.invalidWriteHeaderCode (-1))
          (ResponseWriter.fresh.headerSet "Content-Type" "application/json") ∧
    (loggingMiddleware (createConfiguredHandler epNegative) ResponseWriter.fresh
        { Method := "GET", Host := "", Path := "/neg" } World.initial).2.log
      = [{ format := "%s %s", args := [LogArg.str "GET", LogArg.str "/neg"] }] :=
  ⟨rfl, rfl⟩

/-- C9, amended: for every handler, writer, request and world, the wrapper
first appends the record of the method and path, then runs the handler once on
the same writer and the same request; its outcome (returned or panicked, with
the writer exactly as the handler left it) is the handler's outcome. When the
handler returns, the wrapper appends the record of the elapsed time and nothing
else; when the handler panics, the panic propagates and no further record is
written. The wrapper itself never touches the writer. -/
theorem loggingMiddleware_observational (next : HandlerFunc) (w : ResponseWriter)
    (r : Request) (s : World) :
    (s.now.2.Printf "%s %s" [LogArg.str r.Method, LogArg.str r.Path]).log
        = s.log ++ [{ format := "%s %s", args := [LogArg.str r.Method, LogArg.str r.Path] }] ∧
      (loggingMiddleware next w r s).1
        = (next w r (s.now.2.Printf "%s %s" [LogArg.str r.Method, LogArg.str r.Path])).1 ∧
      (loggingMiddleware next w r s).2 =
        (match next w r (s.now.2.Printf "%s %s" [LogArg.str r.Method, LogArg.str r.Path]) with
        | (HandlerResult.returned _, s2) =>
          s2.now.2.Printf "Request completed in %v" [LogArg.duration (s2.now.1 - s.now.1)]
        | (HandlerResult.panicked _ _, s2) => s2) := by
  refine ⟨?_, loggingMiddleware_fst next w r s, ?_⟩
  · cases hc : s.clock <;> simp [World.now, World.Printf, hc]
  · unfold loggingMiddleware
    simp only
    generalize next w r (s.now.2.Printf "%s %s" [LogArg.str r.Method, LogArg.str r.Path]) = res
    rcases res with ⟨res1 | res1, s2⟩ <;> rfl

/-- C10, as stated, fails, on the classic multiplexer (`true`) and on the pattern
multiplexer of Go 1.22 and later (`false`) alike unless said otherwise: the
reply is not a function of the path and the method only. With the endpoint
path `example.com/x` declared, two `GET` requests for the path `/x` are
answered according to their host: 200 with the declared body for the host
`example.com`, the 404 fallback for any other host. With the endpoint path
`/api/` declared, two `GET` requests for the path `/api` are redirected to
different locations, each with the query of its request. On the pattern
multiplexer, with the endpoint path `/a/b` declared, the `GET` request for the
path `/a/b` is answered by the endpoint when it is written `/a/b` and by the
404 fallback when it is written `/a%2Fb`. -/
theorem host_pattern_reply_depends_on_host :
    ((∀ use121,
      runWith use121 cfgHost [{ Method := "GET", Host := "example.com", Path := "/x" },
          { Method := "GET", Host := "other.org", Path := "/x" }] World.initial
        = Except.ok [Reply.handled (HandlerResult.returned (jsonResponse 200 Json.null)),
            Reply.handled (HandlerResult.returned (jsonResponse 404 notFoundDoc))]) ∧
      (jsonResponse 200 Json.null).status ≠ (jsonResponse 404 notFoundDoc).status) ∧
    ((∀ use121,
      runWith use121 cfgApi [{ Method := "GET", Host := "", Path := "/api", RawQuery := "a=1" },
          { Method := "GET", Host := "", Path := "/api", RawQuery := "a=2" }] World.initial
        = Except.ok [Reply.redirected "/api/" "a=1", Reply.redirected "/api/" "a=2"]) ∧
      "a=1" ≠ "a=2") ∧
    (runWith false cfgNested [{ Method := "GET", Host := "", Path := "/a/b" },
          { Method := "GET", Host := "", Path := "/a/b", EscapedPath := "/a%2Fb" }]
          World.initial
        = Except.ok [Reply.handled (HandlerResult.returned (jsonResponse 200 okDoc)),
            Reply.handled (HandlerResult.returned (jsonResponse 404 notFoundDoc))] ∧
      (jsonResponse 200 okDoc).status ≠ (jsonResponse 404 notFoundDoc).status) :=
  ⟨⟨fun use121 => by cases use121 <;> rfl, by decide⟩,
    ⟨fun use121 => by cases use121 <;> rfl, by decide⟩, ⟨rfl, by decide⟩⟩

/-- C10, amended: for every configuration on which the registrations of `main`
succeed, on the classic multiplexer and on the pattern multiplexer alike, there
is a function of the request alone that gives the reply to every request of
every sequence served, whatever the world (log and clock) and the requests
served before; so a repeated request gets the same reply. When every declared
path begins with `/`, the reply is the same for two requests with the same
method, the same path, written the same way, and the same query (their hosts
have no `/`). Serving any sequence of requests leaves the global `config` and
the registered patterns as they were. -/
theorem replies_function_of_request (use121 : Bool) (config : Config) (s0 s1 : World)
    (mux : Mux) (hok : registerWith use121 config s0 = Except.ok (mux, s1)) :
    ∃ f : Request → Reply,
      (∀ reqs s, runWith use121 config reqs s = Except.ok (reqs.map f)) ∧
      ((∀ e ∈ config.Endpoints, Rooted e.Path) →
        ∀ r r1 : Request, r.Method = r1.Method → r.Path = r1.Path →
          r.EscapedPath = r1.EscapedPath → r.RawQuery = r1.RawQuery →
          ¬ Rooted r.Host → ¬ Rooted r1.Host → f r = f r1) ∧
      (∀ reqs s, (serveAllWith mux reqs s).2.config = s.config ∧
        (serveAllWith mux reqs s).2.table = s.table) := by
  have hb := (registerWith_ok use121 config s0 s1 mux hok).2
  refine ⟨fun r => (serveWith mux r World.initial).1, ?_, ?_, ?_⟩
  · intro reqs s
    obtain ⟨s2, h2⟩ := registerWith_world use121 config s0 s s1 mux hok
    unfold runWith
    rw [h2]
    simp only
    rw [serveAllWith_map config mux hb World.initial reqs s2]
  · intro hv r r1 hm hp hesc hq hh hh1
    apply serveWith_congr config mux hb r r1 _ _ _ hm
    rw [selected_host config mux hb hv r hh, selected_host config mux hb hv r1 hh1,
      hm, hp, hesc, hq]
  · intro reqs s
    exact sameTable_serveAllWith config mux hb reqs s

theorem replies_function_of_request_witness :
    registerWith false cfgHealth World.initial
        = Except.ok (Mux.routed (plainMux cfgHealth),
            { log := [{ format := "Configuring endpoints from config file:", args := [] },
                { format := "  %s %s -> Status %d",
                  args := [LogArg.str "GET", LogArg.str "/health", LogArg.int 200] }]
              clock := []
              table := ["/", "/health"] }) ∧
      ∃ f : Request → Reply,
        (∀ reqs s, runWith false cfgHealth reqs s = Except.ok (reqs.map f)) ∧
        ((∀ e ∈ cfgHealth.Endpoints, Rooted e.Path) →
          ∀ r r1 : Request, r.Method = r1.Method → r.Path = r1.Path →
            r.EscapedPath = r1.EscapedPath → r.RawQuery = r1.RawQuery →
            ¬ Rooted r.Host → ¬ Rooted r1.Host → f r = f r1) ∧
        (∀ reqs s, (serveAllWith (Mux.routed (plainMux cfgHealth)) reqs s).2.config = s.config ∧
          (serveAllWith (Mux.routed (plainMux cfgHealth)) reqs s).2.table = s.table) :=
  ⟨rfl, replies_function_of_request false cfgHealth World.initial _ _ rfl⟩

end GoRestServer
